import Mathlib

/-!
# Smart-Reminder-App: priority scoring, schedule optimisation, job registry

A shallow embedding of

* `backend/src/services/taskPriorityService.js`
* `backend/src/services/mlService.js`
* `backend/src/models/Task.js`
* `smart-app/backend/src/services/taskOptimizationService.js`
* `smart-app/backend/src/services/taskSchedulerService.js`

JavaScript numbers are embedded as exact rationals extended with `Infinity`,
`-Infinity` and `NaN` (binary floating-point rounding and the sign of zero are
not represented).  Where a result turns on the last binary digit, namely the
weighted priority score and its comparison with the thresholds, the scoring
functions are embedded once more over binary64 numbers (namespace `Binary64`).
A `Date` is an integral count of milliseconds or the `Invalid Date`.  Calls
that leave the process (the TensorFlow model, the task store, the travel-time
service, the wall clock) are explicit arguments that carry every outcome the
caller can observe, failure included.
-/

namespace SmartReminder

/-! ## JavaScript numbers -/

/-- A JavaScript number: an exact rational, one of the two infinities, or NaN. -/
inductive JsNum where
  | num (q : ℚ)
  | posInf
  | negInf
  | nan
  deriving DecidableEq

namespace JsNum

/-- Unary minus. -/
def neg : JsNum → JsNum
  | num q => num (-q)
  | posInf => negInf
  | negInf => posInf
  | nan => nan

/-- The `+` operator on numbers. -/
def add : JsNum → JsNum → JsNum
  | nan, _ => nan
  | _, nan => nan
  | posInf, negInf => nan
  | negInf, posInf => nan
  | posInf, _ => posInf
  | _, posInf => posInf
  | negInf, _ => negInf
  | _, negInf => negInf
  | num a, num b => num (a + b)

/-- The `-` operator on numbers. -/
def sub (a b : JsNum) : JsNum := add a (neg b)

/-- An infinity multiplied by a rational. -/
def infTimes (positive : Bool) (q : ℚ) : JsNum :=
  if q = 0 then nan
  else if (0 < q) = positive then posInf else negInf

/-- The `*` operator on numbers. -/
def mul : JsNum → JsNum → JsNum
  | nan, _ => nan
  | _, nan => nan
  | num a, num b => num (a * b)
  | posInf, num q => infTimes true q
  | negInf, num q => infTimes false q
  | num q, posInf => infTimes true q
  | num q, negInf => infTimes false q
  | posInf, posInf => posInf
  | negInf, negInf => posInf
  | posInf, negInf => negInf
  | negInf, posInf => negInf

/-- The `/` operator on numbers (a zero divisor is taken to be `+0`). -/
def div : JsNum → JsNum → JsNum
  | nan, _ => nan
  | _, nan => nan
  | num a, num b =>
      if b = 0 then (if a = 0 then nan else if 0 < a then posInf else negInf)
      else num (a / b)
  | num _, posInf => num 0
  | num _, negInf => num 0
  | posInf, num q => if 0 ≤ q then posInf else negInf
  | negInf, num q => if 0 ≤ q then negInf else posInf
  | posInf, posInf => nan
  | posInf, negInf => nan
  | negInf, posInf => nan
  | negInf, negInf => nan

/-- The `<` operator on numbers; false as soon as one side is NaN. -/
def lt : JsNum → JsNum → Bool
  | num a, num b => decide (a < b)
  | num _, posInf => true
  | negInf, num _ => true
  | negInf, posInf => true
  | _, _ => false

/-- The `>` operator on numbers. -/
def gt (a b : JsNum) : Bool := lt b a

/-- The `>=` operator on numbers; false as soon as one side is NaN. -/
def ge : JsNum → JsNum → Bool
  | nan, _ => false
  | _, nan => false
  | a, b => !(lt a b)

/-- The `<=` operator on numbers. -/
def le (a b : JsNum) : Bool := ge b a

/-- The `===` operator on numbers: NaN is not equal to itself. -/
def strictEq : JsNum → JsNum → Bool
  | nan, _ => false
  | _, nan => false
  | a, b => decide (a = b)

/-- Expression `Math.min(a, b)`. -/
def min : JsNum → JsNum → JsNum
  | nan, _ => nan
  | _, nan => nan
  | a, b => if lt b a then b else a

/-- Expression `Math.max(a, b)`. -/
def max : JsNum → JsNum → JsNum
  | nan, _ => nan
  | _, nan => nan
  | a, b => if lt a b then b else a

/-- Expression `Math.max(...xs)`: `-Infinity` for no argument, NaN if any argument is NaN. -/
def maxOf (xs : List JsNum) : JsNum := xs.foldl max negInf

/-- Truthiness of a number: `0` and NaN are falsy. -/
def truthy : JsNum → Bool
  | num q => decide (q ≠ 0)
  | nan => false
  | _ => true

/-- The `a || b` operator when `a` is a number. -/
def orElse (a b : JsNum) : JsNum := if truthy a then a else b

/-- The number is an ordinary rational lying in the closed interval `[lo, hi]`. -/
def Within (lo hi : ℚ) : JsNum → Prop
  | num q => lo ≤ q ∧ q ≤ hi
  | _ => False

end JsNum

/-- A value that is either `undefined` or a number. -/
inductive JsVal where
  | undefined
  | number (x : JsNum)
  deriving DecidableEq

/-- Conversion `ToNumber`: `undefined` converts to NaN. -/
def JsVal.toNumber : JsVal → JsNum
  | .undefined => .nan
  | .number x => x

/-! ## Dates -/

/-- A JavaScript `Date`: a time value in integral milliseconds, or `Invalid Date`. -/
inductive JsDate where
  | valid (ms : Int)
  | invalid
  deriving DecidableEq

/-- Truncation of a rational towards zero (`ToIntegerOrInfinity`). -/
def truncQ (q : ℚ) : Int := if 0 ≤ q then ⌊q⌋ else ⌈q⌉

/-- Largest magnitude of a time value: 8.64e15 ms. -/
def maxTimeValue : ℚ := 8640000000000000

/-- Expression `new Date(x)` for a number `x` (`TimeClip`). -/
def JsDate.ofNumber : JsNum → JsDate
  | .num q => if |q| ≤ maxTimeValue then .valid (truncQ q) else .invalid
  | _ => .invalid

/-- Expression `d.getTime()`, also the value of a `Date` used as a number. -/
def JsDate.getTime : JsDate → JsNum
  | .valid ms => .num ms
  | .invalid => .nan

/-- Expression `new Date(d)` for a `Date` `d`: a copy with the same time value. -/
def JsDate.copy (d : JsDate) : JsDate := d

/-- Expression `new Date(v)` for a field that is a `Date` or `undefined`. -/
def JsDate.ofField : Option JsDate → JsDate
  | some d => d.copy
  | none => .invalid

/-- A `Date`-or-`undefined` field used as a number. -/
def dateFieldToNumber : Option JsDate → JsNum
  | some d => d.getTime
  | none => .nan

/-! ## The Task model (`models/Task.js`) -/

/-- The `priority` enum of the task schema. -/
inductive Priority where
  | low
  | medium
  | high
  deriving DecidableEq

/-- The string stored for a priority. -/
def Priority.toString : Priority → String
  | .low => "low"
  | .medium => "medium"
  | .high => "high"

/-- The `status` enum of the task schema. -/
inductive Status where
  | pending
  | in_progress
  | completed
  | cancelled
  deriving DecidableEq

/-- The `location` sub-object of a task. -/
structure Location where
  lat : ℚ
  lng : ℚ
  address : Option String := none
  deriving DecidableEq

/-- A task document.  Fields that the schema leaves optional are `Option`s
(`none` is `undefined`); `priority` and `status` have schema defaults.  The
fields from `subtasks` on are not declared in `models/Task.js`; the services
read or write them, so a document may or may not carry them. -/
structure Task where
  _id : String
  userId : String
  title : String
  description : Option String := none
  startTime : Option JsDate := none
  endTime : Option JsDate := none
  location : Option Location := none
  priority : Priority := .medium
  status : Status := .pending
  subtasks : Option (List String) := none
  attachments : Option (List String) := none
  dependencies : Option (List String) := none
  actualCompletionTime : Option ℚ := none
  optimized : Option Bool := none
  deriving DecidableEq

/-- The `length` of a JavaScript string: its number of UTF-16 code units. -/
def jsLength (s : String) : Nat :=
  (s.toList.map fun c => if c.val < 0x10000 then 1 else 2).sum

/-- Failure of an awaited call: the rejected promise carries a message. -/
abbrev Outcome (α : Type) := Except String α

/-! ## `mlService.js` -/

namespace MLService

/-- The state of the ML service: the `initialized` flag and the loaded model.
`model x` is the outcome of `this.model.predict(x).array()`: a rejection or a
nested array of numbers. -/
structure State where
  initialized : Bool
  model : JsVal → Outcome (List (List JsNum))

/-- Method `_extractFeatures`: the body is empty, so the call evaluates to `undefined`. -/
def _extractFeatures (_task : Task) : JsVal := .undefined

/-- Expression `xs.indexOf(x)`: first index holding a value strictly equal to `x`, else `-1`. -/
def indexOf (xs : List JsNum) (x : JsNum) : Int :=
  match xs.findIdx? (fun y => JsNum.strictEq y x) with
  | some i => (i : Int)
  | none => -1

/-- Expression `xs[i]` for an integer `i`: `undefined` outside the array. -/
def elemAt {α : Type} (xs : List α) (i : Int) : Option α :=
  if i < 0 then none else xs.get? i.toNat

/-- Method `_convertToPriority`: the label at the position of the largest entry. -/
def _convertToPriority (prediction : List JsNum) : Option String :=
  let priorities := ["low", "medium", "high"]
  elemAt priorities (indexOf prediction (JsNum.maxOf prediction))

/-- Method `predictTaskPriority`: throws when the service is not initialised or the
model call rejects; spreading `prediction[0]` throws when it is `undefined`. -/
def predictTaskPriority (ml : State) (task : Task) : Outcome (Option String) :=
  if !ml.initialized then
    throw "ML Service not initialized"
  else
    tryCatch
      (do
        let features := _extractFeatures task
        let prediction ← ml.model features
        match prediction.head? with
        | none => throw "TypeError: undefined is not iterable"
        | some row => pure (_convertToPriority row))
      (fun error => throw error)

end MLService

/-! ## `taskPriorityService.js` -/

namespace TaskPriorityService

open JsNum

/-- Method `_calculateDeadlineFactor`; `now` is the time value of `new Date()`. -/
def _calculateDeadlineFactor (now : Int) (task : Task) : JsNum :=
  match task.endTime with
  | none => num 0.5
  | some endTime =>
    let deadline := JsDate.copy endTime
    let timeLeft := sub deadline.getTime (num now)
    let daysDiff := div timeLeft (num (1000 * 60 * 60 * 24))
    if lt daysDiff (num 0) then num 1
    else if lt daysDiff (num 1) then num 0.9
    else if lt daysDiff (num 3) then num 0.7
    else if lt daysDiff (num 7) then num 0.5
    else num 0.3

/-- The guard `s && s.length > n` on an optional string. -/
def longerThan (s : Option String) (n : Nat) : Bool :=
  match s with
  | none => false
  | some d => decide (jsLength d > n)

/-- The guard `xs && xs.length > 0` on an optional array. -/
def nonEmpty {α : Type} (xs : Option (List α)) : Bool :=
  match xs with
  | none => false
  | some l => decide (l.length > 0)

/-- Method `_calculateComplexityFactor`. -/
def _calculateComplexityFactor (task : Task) : JsNum :=
  let complexity := num 0
  let complexity := if longerThan task.description 200 then add complexity (num 0.2) else complexity
  let complexity := if nonEmpty task.subtasks then add complexity (num 0.3) else complexity
  let complexity := if nonEmpty task.attachments then add complexity (num 0.2) else complexity
  let complexity := if nonEmpty task.dependencies then add complexity (num 0.3) else complexity
  JsNum.min complexity (num 1)

/-- Method `_calculateImportanceFactor`.  A rejected prediction yields `0.5`.  A
fulfilled one is the value `_convertToPriority` returned: reading `.confidence`
of `undefined` throws inside the `try` (again `0.5`); reading it of a string
gives `undefined`. -/
def _calculateImportanceFactor (ml : MLService.State) (task : Task) : JsVal :=
  match MLService.predictTaskPriority ml task with
  | .error _ => .number (num 0.5)
  | .ok mlPrediction =>
    match mlPrediction with
    | none => .number (num 0.5)
    | some _label => .undefined

/-- The table `values` of `_getPriorityValue`. -/
def priorityValues : Priority → JsNum
  | .low => num 0.3
  | .medium => num 0.6
  | .high => num 0.9

/-- Method `_getPriorityValue`: `values[priority] || 0.5`. -/
def _getPriorityValue (priority : Priority) : JsNum :=
  orElse (priorityValues priority) (num 0.5)

/-- Method `_getUserPreferenceFactor`; `found` is the outcome of
`Task.find(...).sort(...).limit(10)` for completed tasks of the user. -/
def _getUserPreferenceFactor (found : Outcome (List Task)) : JsNum :=
  match found with
  | .error _ => num 0.5
  | .ok userTasks =>
    if userTasks.length = 0 then num 0.5
    else
      let avgPriority :=
        div (userTasks.foldl (fun sum task => add sum (_getPriorityValue task.priority)) (num 0))
          (num userTasks.length)
      avgPriority

/-- The table `weights` of `_computePriorityScore`, indexed by property name. -/
def weights (factor : String) : JsVal :=
  if factor = "deadline" then .number (num 0.4)
  else if factor = "complexity" then .number (num 0.2)
  else if factor = "importance" then .number (num 0.3)
  else if factor = "userPreference" then .number (num 0.1)
  else .undefined

/-- Method `_computePriorityScore` in exact arithmetic; `factors` is
`Object.entries(factors)`.  The fold with every product and sum rounded is
`Binary64.TaskPriorityService._computePriorityScore`. -/
def _computePriorityScore (factors : List (String × JsVal)) : JsNum :=
  factors.foldl
    (fun score entry => add score (mul entry.2.toNumber (weights entry.1).toNumber))
    (num 0)

/-- Method `_mapPriorityToLevel`. -/
def _mapPriorityToLevel (score : JsNum) : String :=
  if ge score (num 0.8) then "high"
  else if ge score (num 0.4) then "medium"
  else "low"

/-- The `factors` object built by `calculateTaskPriority`, as its entries. -/
def priorityFactors (now : Int) (ml : MLService.State)
    (recentCompleted : String → Outcome (List Task)) (task : Task) : List (String × JsVal) :=
  [("deadline", .number (_calculateDeadlineFactor now task)),
   ("complexity", .number (_calculateComplexityFactor task)),
   ("importance", _calculateImportanceFactor ml task),
   ("userPreference", .number (_getUserPreferenceFactor (recentCompleted task.userId)))]

/-- Method `calculateTaskPriority`: an exception inside the `try` is logged and rethrown. -/
def calculateTaskPriority (now : Int) (ml : MLService.State)
    (recentCompleted : String → Outcome (List Task)) (task : Task) : Outcome String :=
  tryCatch
    (do
      let factors := priorityFactors now ml recentCompleted task
      let priority := _computePriorityScore factors
      pure (_mapPriorityToLevel priority))
    (fun error => throw error)

end TaskPriorityService

/-! ## Binary64 arithmetic

The scoring functions are embedded a second time over binary64 numbers, with
every operation rounded as the engine rounds it (to nearest, ties to even).
A result that sits on a threshold in exact arithmetic can fall on either side
of it after rounding. -/


namespace Binary64

/-- A binary64 number: the finite value `m * 2^e`, one of the two infinities,
or NaN.  The sign of zero is not represented. -/
inductive F64 where
  | finite (m : Int) (e : Int)
  | posInf
  | negInf
  | nan
  deriving DecidableEq

/-- The number of halvings that bring `n` below 2, counted with fuel. -/
def log2Fuel : Nat → Nat → Nat
  | 0, _ => 0
  | fuel + 1, n => if n < 2 then 0 else log2Fuel fuel (n / 2) + 1

/-- The integer `⌊log₂ n⌋` for a positive `n`. -/
def ilog2 (n : Nat) : Nat := log2Fuel n n

/-- The integer `⌊log₂ (n / d)⌋` for positive `n` and `d`. -/
def floorLog2 (n d : Nat) : Int :=
  let k : Int := (ilog2 n : Int) - (ilog2 d : Int)
  if d * 2 ^ k.toNat ≤ n * 2 ^ (-k).toNat then k else k - 1

/-- The quotient `a / b` rounded to the nearest integer, a tie to the even one. -/
def roundHalfEven (a b : Nat) : Nat :=
  let f := a / b
  let r := a % b
  if 2 * r < b then f
  else if b < 2 * r then f + 1
  else if f % 2 = 0 then f else f + 1

/-- The value `m * 2^e` with the sign given apart, as a binary64 number: a
significand that was rounded up to `2^53` moves to the next exponent, a value
beyond the largest finite one is an infinity. -/
def pack (negative : Bool) (m : Nat) (e : Int) : F64 :=
  if m = 0 then .finite 0 0
  else
    let e1 := if m = 2 ^ 53 then e + 1 else e
    let m1 := if m = 2 ^ 53 then 2 ^ 52 else m
    if 971 < e1 then (if negative then .negInf else .posInf)
    else .finite (if negative then -(m1 : Int) else (m1 : Int)) e1

/-- The positive rational `n / d * 2^s` rounded to binary64 (nearest, ties to
even; 53-bit significands, exponents of the last place from -1074 to 971). -/
def roundPos (negative : Bool) (n d : Nat) (s : Int) : F64 :=
  let e : Int := max (floorLog2 n d + s - 52) (-1074)
  pack negative (roundHalfEven (n * 2 ^ (s - e).toNat) (d * 2 ^ (e - s).toNat)) e

/-- The rational `n / d * 2^s`, `d` positive, rounded to binary64. -/
def round (n : Int) (d : Nat) (s : Int) : F64 :=
  if n = 0 then .finite 0 0
  else roundPos (decide (n < 0)) n.natAbs d s


namespace F64

/-- Unary minus. -/
def neg : F64 → F64
  | finite m e => finite (-m) e
  | posInf => negInf
  | negInf => posInf
  | nan => nan

/-- The value `m * 2^e` counted in units of `2^b`, for `b ≤ e`. -/
def units (m e b : Int) : Int := m * 2 ^ (e - b).toNat

/-- The `+` operator: the exact sum, rounded. -/
def add : F64 → F64 → F64
  | nan, _ => nan
  | _, nan => nan
  | posInf, negInf => nan
  | negInf, posInf => nan
  | posInf, _ => posInf
  | _, posInf => posInf
  | negInf, _ => negInf
  | _, negInf => negInf
  | finite m1 e1, finite m2 e2 =>
      round (units m1 e1 (min e1 e2) + units m2 e2 (min e1 e2)) 1 (min e1 e2)

/-- The `-` operator. -/
def sub (a b : F64) : F64 := add a (neg b)

/-- An infinity multiplied by a finite value with significand `m`. -/
def infTimes (positive : Bool) (m : Int) : F64 :=
  if m = 0 then nan
  else if decide (0 < m) = positive then posInf else negInf

/-- The `*` operator: the exact product, rounded. -/
def mul : F64 → F64 → F64
  | nan, _ => nan
  | _, nan => nan
  | finite m1 e1, finite m2 e2 => round (m1 * m2) 1 (e1 + e2)
  | posInf, finite m _ => infTimes true m
  | negInf, finite m _ => infTimes false m
  | finite m _, posInf => infTimes true m
  | finite m _, negInf => infTimes false m
  | posInf, posInf => posInf
  | negInf, negInf => posInf
  | posInf, negInf => negInf
  | negInf, posInf => negInf

/-- The `/` operator: the exact quotient, rounded (a zero divisor is taken to
be `+0`). -/
def div : F64 → F64 → F64
  | nan, _ => nan
  | _, nan => nan
  | finite m1 e1, finite m2 e2 =>
      if m2 = 0 then (if m1 = 0 then nan else if 0 < m1 then posInf else negInf)
      else round (if 0 < m2 then m1 else -m1) m2.natAbs (e1 - e2)
  | finite _ _, posInf => finite 0 0
  | finite _ _, negInf => finite 0 0
  | posInf, finite m _ => if 0 ≤ m then posInf else negInf
  | negInf, finite m _ => if 0 ≤ m then negInf else posInf
  | posInf, posInf => nan
  | posInf, negInf => nan
  | negInf, posInf => nan
  | negInf, negInf => nan

/-- The `<` operator; false as soon as one side is NaN. -/
def lt : F64 → F64 → Bool
  | finite m1 e1, finite m2 e2 =>
      decide (units m1 e1 (min e1 e2) < units m2 e2 (min e1 e2))
  | finite _ _, posInf => true
  | negInf, finite _ _ => true
  | negInf, posInf => true
  | _, _ => false

/-- The `>=` operator; false as soon as one side is NaN. -/
def ge : F64 → F64 → Bool
  | nan, _ => false
  | _, nan => false
  | a, b => !(lt a b)

/-- Expression `Math.min(a, b)`. -/
def min : F64 → F64 → F64
  | nan, _ => nan
  | _, nan => nan
  | a, b => if lt b a then b else a

/-- Truthiness of a number: `0` and NaN are falsy. -/
def truthy : F64 → Bool
  | finite m _ => decide (m ≠ 0)
  | nan => false
  | _ => true

/-- The `a || b` operator when `a` is a number. -/
def orElse (a b : F64) : F64 := if truthy a then a else b

/-- The integer `z` as a number. -/
def ofInt (z : Int) : F64 := round z 1 0

/-- The decimal literal whose exact value is `n / d`. -/
def lit (n : Int) (d : Nat) : F64 := round n d 0

/-- The exact value of a finite number; 0 for the infinities and NaN. -/
def toRat : F64 → ℚ
  | finite m e => (m : ℚ) * (2 : ℚ) ^ e
  | _ => 0

end F64


/-- A value that is either `undefined` or a number. -/
inductive Val where
  | undefined
  | number (x : F64)
  deriving DecidableEq

/-- Conversion `ToNumber`: `undefined` converts to NaN. -/
def Val.toNumber : Val → F64
  | .undefined => .nan
  | .number x => x

/-- A `Date` used as a number: its time value. -/
def dateToNumber : JsDate → F64
  | .valid ms => F64.ofInt ms
  | .invalid => .nan

/-! ### `taskPriorityService.js` over binary64 -/

namespace TaskPriorityService

open F64

/-- Method `_calculateDeadlineFactor`; `now` is the time value of `new Date()`. -/
def _calculateDeadlineFactor (now : Int) (task : Task) : F64 :=
  match task.endTime with
  | none => lit 5 10
  | some endTime =>
    let deadline := JsDate.copy endTime
    let timeLeft := sub (dateToNumber deadline) (ofInt now)
    let daysDiff := div timeLeft (ofInt (1000 * 60 * 60 * 24))
    if lt daysDiff (ofInt 0) then ofInt 1
    else if lt daysDiff (ofInt 1) then lit 9 10
    else if lt daysDiff (ofInt 3) then lit 7 10
    else if lt daysDiff (ofInt 7) then lit 5 10
    else lit 3 10

/-- Method `_calculateComplexityFactor`. -/
def _calculateComplexityFactor (task : Task) : F64 :=
  let complexity := ofInt 0
  let complexity :=
    if SmartReminder.TaskPriorityService.longerThan task.description 200
    then add complexity (lit 2 10) else complexity
  let complexity :=
    if SmartReminder.TaskPriorityService.nonEmpty task.subtasks
    then add complexity (lit 3 10) else complexity
  let complexity :=
    if SmartReminder.TaskPriorityService.nonEmpty task.attachments
    then add complexity (lit 2 10) else complexity
  let complexity :=
    if SmartReminder.TaskPriorityService.nonEmpty task.dependencies
    then add complexity (lit 3 10) else complexity
  F64.min complexity (ofInt 1)

/-- Method `_calculateImportanceFactor`.  A rejected prediction yields `0.5`.  A
fulfilled one is the value `_convertToPriority` returned: reading `.confidence`
of `undefined` throws inside the `try` (again `0.5`); reading it of a string
gives `undefined`. -/
def _calculateImportanceFactor (ml : MLService.State) (task : Task) : Val :=
  match MLService.predictTaskPriority ml task with
  | .error _ => .number (lit 5 10)
  | .ok mlPrediction =>
    match mlPrediction with
    | none => .number (lit 5 10)
    | some _label => .undefined

/-- The table `values` of `_getPriorityValue`. -/
def priorityValues : Priority → F64
  | .low => lit 3 10
  | .medium => lit 6 10
  | .high => lit 9 10

/-- Method `_getPriorityValue`: `values[priority] || 0.5`. -/
def _getPriorityValue (priority : Priority) : F64 :=
  orElse (priorityValues priority) (lit 5 10)

/-- Method `_getUserPreferenceFactor`; `found` is the outcome of
`Task.find(...).sort(...).limit(10)` for completed tasks of the user. -/
def _getUserPreferenceFactor (found : Outcome (List Task)) : F64 :=
  match found with
  | .error _ => lit 5 10
  | .ok userTasks =>
    if userTasks.length = 0 then lit 5 10
    else
      let avgPriority :=
        div (userTasks.foldl (fun sum task => add sum (_getPriorityValue task.priority))
            (ofInt 0))
          (ofInt userTasks.length)
      avgPriority

/-- The table `weights` of `_computePriorityScore`, indexed by property name. -/
def weights (factor : String) : Val :=
  if factor = "deadline" then .number (lit 4 10)
  else if factor = "complexity" then .number (lit 2 10)
  else if factor = "importance" then .number (lit 3 10)
  else if factor = "userPreference" then .number (lit 1 10)
  else .undefined

/-- Method `_computePriorityScore`; `factors` is `Object.entries(factors)`. -/
def _computePriorityScore (factors : List (String × Val)) : F64 :=
  factors.foldl
    (fun score entry => add score (mul entry.2.toNumber (weights entry.1).toNumber))
    (ofInt 0)

/-- Method `_mapPriorityToLevel`. -/
def _mapPriorityToLevel (score : F64) : String :=
  if ge score (lit 8 10) then "high"
  else if ge score (lit 4 10) then "medium"
  else "low"

/-- The `factors` object built by `calculateTaskPriority`, as its entries. -/
def priorityFactors (now : Int) (ml : MLService.State)
    (recentCompleted : String → Outcome (List Task)) (task : Task) : List (String × Val) :=
  [("deadline", .number (_calculateDeadlineFactor now task)),
   ("complexity", .number (_calculateComplexityFactor task)),
   ("importance", _calculateImportanceFactor ml task),
   ("userPreference", .number (_getUserPreferenceFactor (recentCompleted task.userId)))]

/-- Method `calculateTaskPriority`: an exception inside the `try` is logged and rethrown. -/
def calculateTaskPriority (now : Int) (ml : MLService.State)
    (recentCompleted : String → Outcome (List Task)) (task : Task) : Outcome String :=
  tryCatch
    (do
      let factors := priorityFactors now ml recentCompleted task
      let priority := _computePriorityScore factors
      pure (_mapPriorityToLevel priority))
    (fun error => throw error)

end TaskPriorityService

end Binary64

/-! ## `taskOptimizationService.js` -/

namespace TaskOptimizationService

open JsNum

/-- Order of two `startTime` values under an ascending sort key: a missing
value sorts before every date. -/
def dateKeyLe : Option JsDate → Option JsDate → Bool
  | some (.valid a), some (.valid b) => decide (a ≤ b)
  | some (.valid _), _ => false
  | _, _ => true

/-- Binary comparison of two stored strings: lexicographic on their code points. -/
def strLt (a b : String) : Bool := decide (a.toList < b.toList)

/-- The sort specification `{ priority: -1, startTime: 1 }`: the stored
`priority` strings in descending order, then `startTime` ascending. -/
def sortLe (a b : Task) : Prop :=
  strLt b.priority.toString a.priority.toString = true ∨
    (a.priority.toString = b.priority.toString ∧ dateKeyLe a.startTime b.startTime = true)

instance : DecidableRel sortLe := fun a b =>
  inferInstanceAs (Decidable (strLt b.priority.toString a.priority.toString = true ∨
    (a.priority.toString = b.priority.toString ∧ dateKeyLe a.startTime b.startTime = true)))

/-- The filter of `_getTasksForDate`: same user, `startTime` within the day,
status pending or in_progress. -/
def matchesDay (userId : String) (startOfDay endOfDay : Int) (t : Task) : Bool :=
  decide (t.userId = userId) &&
    (match t.startTime with
      | some (.valid ms) => decide (startOfDay ≤ ms) && decide (ms ≤ endOfDay)
      | _ => false) &&
    (decide (t.status = .pending) || decide (t.status = .in_progress))

/-- Method `_getTasksForDate`.  `documents` are the stored tasks; `setHours t h m s ms`
is the time value `Date.prototype.setHours` gives to a date holding `t`.  The
second `setHours` acts on the date the first one already moved. -/
def _getTasksForDate (documents : List Task) (setHours : Int → Int → Int → Int → Int → Int)
    (userId : String) (date : Int) : List Task :=
  let startOfDay := setHours date 0 0 0 0
  let endOfDay := setHours startOfDay 23 59 59 999
  (documents.filter (matchesDay userId startOfDay endOfDay)).insertionSort sortLe

/-- Expression `xs?.length || 0` on an optional array. -/
def countOf {α : Type} (xs : Option (List α)) : JsNum :=
  match xs with
  | none => num 0
  | some l => orElse (num l.length) (num 0)

/-- Expression `s?.length || 0` on an optional string. -/
def lengthOf (s : Option String) : JsNum :=
  match s with
  | none => num 0
  | some d => orElse (num (jsLength d)) (num 0)

/-- Method `_getComplexityFactor`. -/
def _getComplexityFactor (task : Task) : JsNum :=
  let subtasks := countOf task.subtasks
  let description := lengthOf task.description
  let attachments := countOf task.attachments
  let priority := task.priority.toString
  let complexityScore := num 1
  let complexityScore :=
    if gt subtasks (num 0) then add complexityScore (mul (num 0.1) subtasks) else complexityScore
  let complexityScore :=
    if gt description (num 200) then add complexityScore (num 0.1) else complexityScore
  let complexityScore :=
    if gt attachments (num 0) then add complexityScore (mul (num 0.05) attachments)
    else complexityScore
  let complexityScore :=
    if priority = "high" then add complexityScore (num 0.2) else complexityScore
  JsNum.min complexityScore (num 2)

/-- The `actualCompletionTime` field used as a number. -/
def actualToNumber : Option ℚ → JsNum
  | some q => num q
  | none => nan

/-- Method `_getUserPerformanceFactor`; `found` is the outcome of the query for
completed tasks of the user that record an actual completion time. -/
def _getUserPerformanceFactor (found : Outcome (List Task)) : JsNum :=
  match found with
  | .error _ => num 1
  | .ok completedTasks =>
    if completedTasks.length = 0 then num 1
    else
      let performanceRatio :=
        div
          (completedTasks.foldl
            (fun sum task =>
              let estimated := sub (dateFieldToNumber task.endTime) (dateFieldToNumber task.startTime)
              let actual := actualToNumber task.actualCompletionTime
              add sum (div actual estimated))
            (num 0))
          (num completedTasks.length)
      JsNum.max (num 0.5) (JsNum.min (num 1.5) performanceRatio)

/-- Method `_calculateOptimalDuration`; `history userId` is the outcome of the store
query issued by `_getUserPerformanceFactor`. -/
def _calculateOptimalDuration (history : String → Outcome (List Task)) (task : Task) : JsNum :=
  let baselineDuration := sub (dateFieldToNumber task.endTime) (dateFieldToNumber task.startTime)
  let complexityFactor := _getComplexityFactor task
  let userPerformanceFactor := _getUserPerformanceFactor (history task.userId)
  mul (mul baselineDuration complexityFactor) userPerformanceFactor

/-- The table `breakTimes` of `_calculateBreakTime`, in milliseconds. -/
def breakTimes : Priority → JsNum
  | .high => num (10 * 60000)
  | .medium => num (15 * 60000)
  | .low => num (20 * 60000)

/-- Method `_calculateBreakTime`; `travel a b` is the outcome of
`locationService.calculateTravelTime(a, b)`, reduced to its `duration` in
seconds. -/
def _calculateBreakTime (travel : Location → Location → Outcome JsNum)
    (currentTask nextTask : Task) : JsNum :=
  match currentTask.location, nextTask.location with
  | some origin, some destination =>
    match travel origin destination with
    | .ok duration => mul duration (num 1000)
    | .error _ => num (15 * 60000)
  | _, _ => orElse (breakTimes currentTask.priority) (breakTimes .medium)

/-- The loop of `_createOptimizedSchedule`, started with the cursor `currentTime`
on the tasks that remain to be placed. -/
def placeFrom (history : String → Outcome (List Task))
    (travel : Location → Location → Outcome JsNum) : JsDate → List Task → List Task
  | _, [] => []
  | currentTime, task :: rest =>
    let duration := _calculateOptimalDuration history task
    let breakTime :=
      match rest.head? with
      | some nextTask => _calculateBreakTime travel task nextTask
      | none => num 0
    let optimizedTask : Task :=
      { task with
        startTime := some (JsDate.copy currentTime)
        endTime := some (JsDate.ofNumber (add currentTime.getTime duration)) }
    let currentTime := JsDate.ofNumber (add (dateFieldToNumber optimizedTask.endTime) breakTime)
    optimizedTask :: placeFrom history travel currentTime rest

/-- Method `_createOptimizedSchedule`: reading `tasks[0].startTime` of an empty array
throws. -/
def _createOptimizedSchedule (history : String → Outcome (List Task))
    (travel : Location → Location → Outcome JsNum) (tasks : List Task) : Outcome (List Task) :=
  match tasks with
  | [] => throw "TypeError: cannot read properties of undefined"
  | first :: _ =>
    let currentTime := JsDate.ofField first.startTime
    pure (placeFrom history travel currentTime tasks)

/-- Whether the model layer can cast the value to a stored date: a `Date`
holding a valid time value. -/
def castsToDate : Option JsDate → Bool
  | some (.valid _) => true
  | _ => false

/-- An update document with the keys `startTime`, `endTime` and `optimized`. -/
structure Update where
  startTime : Option JsDate
  endTime : Option JsDate
  optimized : Bool
  deriving DecidableEq

/-- An update applied to the first stored document with the given `_id`.  The
schema of `models/Task.js` declares the paths `startTime` and `endTime` and no
path `optimized`, and it is strict: the two dates are set and the key
`optimized` is dropped. -/
def updateFirst (id : String) (update : Update) : List Task → List Task
  | [] => []
  | d :: rest =>
    if d._id = id then
      { d with startTime := update.startTime, endTime := update.endTime } :: rest
    else d :: updateFirst id update rest

/-- Call `Task.findByIdAndUpdate(id, update)` against the stored documents.  A
date that cannot be cast rejects the call and leaves the store as it was; an
unknown `_id` resolves without change. -/
def findByIdAndUpdate (documents : List Task) (id : String) (update : Update) :
    List Task × Outcome Unit :=
  if castsToDate update.startTime && castsToDate update.endTime then
    (updateFirst id update documents, .ok ())
  else (documents, .error "CastError: Cast to date failed")

/-- Method `_updateTaskSchedules`: one update
`{ startTime, endTime, optimized: true }` per placement, all of them issued;
`Promise.all` rejects as soon as one of them rejects. -/
def _updateTaskSchedules (documents : List Task) (optimizedSchedule : List Task) :
    List Task × Outcome Unit :=
  optimizedSchedule.foldl
    (fun acc task =>
      match findByIdAndUpdate acc.1 task._id
          { startTime := task.startTime, endTime := task.endTime, optimized := true } with
      | (documents', .ok _) => (documents', acc.2)
      | (documents', .error e) =>
        (documents', match acc.2 with
          | .ok _ => .error e
          | .error e0 => .error e0))
    (documents, .ok ())

/-- Method `optimizeTaskSchedule`, run against the stored documents: the store
after the call and the value the call resolves to or the error it rethrows. -/
def optimizeTaskSchedule (documents : List Task)
    (setHours : Int → Int → Int → Int → Int → Int)
    (history : String → Outcome (List Task))
    (travel : Location → Location → Outcome JsNum)
    (userId : String) (date : Int) : List Task × Outcome (List Task) :=
  let tasks := _getTasksForDate documents setHours userId date
  if tasks.length = 0 then (documents, .ok [])
  else
    match _createOptimizedSchedule history travel tasks with
    | .error e => (documents, .error e)
    | .ok optimizedSchedule =>
      match _updateTaskSchedules documents optimizedSchedule with
      | (documents', .ok _) => (documents', .ok optimizedSchedule)
      | (documents', .error e) => (documents', .error e)

end TaskOptimizationService

/-! ## `taskSchedulerService.js` -/

namespace TaskSchedulerService

/-- The two registry keys of a task: the string built from the task id and
`-start`, and the one built from the task id and `-end`. -/
inductive JobKind where
  | start
  | due
  deriving DecidableEq

/-- Modelled from the spec: the timer library (`node-schedule`) is not part of
the sources; a timed job is `pending` until it fires or is cancelled, and both
`fired` and `cancelled` are final. -/
inductive JobState where
  | pending
  | fired
  | cancelled
  deriving DecidableEq

/-- Modelled from the spec: a job object of the timer library, as returned by
`schedule.scheduleJob(date, callback)`.  `id` is the identity of the object,
`dueAt` the date it was given, `taskId` and `kind` what its callback closes
over. -/
structure Job where
  id : Nat
  taskId : String
  kind : JobKind
  dueAt : Option JsDate
  state : JobState
  deriving DecidableEq

/-- What a job callback does that is visible outside: it is invoked (and asks
the notification service to send), and it may ask the store for a status. -/
inductive Event where
  | invoked (taskId : String) (kind : JobKind)
  | statusRequested (taskId : String) (status : Status)
  deriving DecidableEq

/-- The scheduler service together with the timer library it drives: the map
`this.jobs` from key to job, every job object created so far, and the record
of what the callbacks did. -/
structure Scheduler where
  jobs : String → JobKind → Option Nat
  timers : List Job
  log : List Event

/-- The service right after construction: an empty map, no job. -/
def Scheduler.empty : Scheduler :=
  { jobs := fun _ _ => none, timers := [], log := [] }

/-- Call `this.jobs.set(key, job)`. -/
def mapSet (jobs : String → JobKind → Option Nat) (taskId : String) (kind : JobKind)
    (job : Nat) : String → JobKind → Option Nat :=
  fun i k => if i = taskId ∧ k = kind then some job else jobs i k

/-- Call `this.jobs.delete(key)`. -/
def mapDelete (jobs : String → JobKind → Option Nat) (taskId : String) (kind : JobKind) :
    String → JobKind → Option Nat :=
  fun i k => if i = taskId ∧ k = kind then none else jobs i k

/-- Modelled from the spec: `schedule.scheduleJob(date, callback)` creates a new
pending job due at `date` and returns it. -/
def scheduleJob (s : Scheduler) (date : Option JsDate) (taskId : String) (kind : JobKind) :
    Scheduler × Nat :=
  ({ s with timers := s.timers ++
      [{ id := s.timers.length, taskId := taskId, kind := kind, dueAt := date,
         state := .pending }] },
    s.timers.length)

/-- Modelled from the spec: `job.cancel()` makes a pending job cancelled and
leaves a job that already fired as it is. -/
def cancelJob (timers : List Job) (job : Nat) : List Job :=
  timers.map fun j =>
    if j.id = job ∧ j.state = .pending then { j with state := .cancelled } else j

/-- The body of the `try` of `scheduleTask`: the start job is created first,
the end job only when `task.endTime` is set, and the map entries are written. -/
def afterSchedule (s : Scheduler) (task : Task) : Scheduler :=
  let (s1, startJob) := scheduleJob s task.startTime task._id .start
  let s2 :=
    match task.endTime with
    | some endTime =>
      let (s', endJob) := scheduleJob s1 (some endTime) task._id .due
      { s' with jobs := mapSet s'.jobs task._id .due endJob }
    | none => s1
  { s2 with jobs := mapSet s2.jobs task._id .start startJob }

/-- Method `scheduleTask`: an exception inside the `try` is logged and rethrown. -/
def scheduleTask (s : Scheduler) (task : Task) : Outcome Scheduler :=
  tryCatch (pure (afterSchedule s task)) (fun error => throw error)

/-- The body of the `try` of `cancelTaskSchedule`: both entries are read first,
then each job found is cancelled and its entry deleted. -/
def afterCancel (s : Scheduler) (taskId : String) : Scheduler :=
  let startJob := s.jobs taskId .start
  let endJob := s.jobs taskId .due
  let s1 :=
    match startJob with
    | some job =>
      { s with timers := cancelJob s.timers job, jobs := mapDelete s.jobs taskId .start }
    | none => s
  match endJob with
  | some job =>
    { s1 with timers := cancelJob s1.timers job, jobs := mapDelete s1.jobs taskId .due }
  | none => s1

/-- Method `cancelTaskSchedule`. -/
def cancelTaskSchedule (s : Scheduler) (taskId : String) : Outcome Scheduler :=
  tryCatch (pure (afterCancel s taskId)) (fun error => throw error)

/-- Method `rescheduleTask`: cancel, then schedule. -/
def rescheduleTask (s : Scheduler) (task : Task) : Outcome Scheduler :=
  tryCatch
    (do
      let s1 ← cancelTaskSchedule s task._id
      let s2 ← scheduleTask s1 task
      pure s2)
    (fun error => throw error)

/-- Modelled from the spec: a job fires when the clock reaches `t` if it is
pending and its due date is a valid date not after `t`. -/
def isDue (t : Int) (j : Job) : Bool :=
  decide (j.state = .pending) &&
    (match j.dueAt with
      | some (.valid ms) => decide (ms ≤ t)
      | _ => false)

/-- The callbacks given to `scheduleJob` in `scheduleTask`.  Both await the
notification first; the start callback then asks the store for the status
`in_progress`.  `deliver j` is the outcome of the awaited
`this.notificationService.sendNotification(...)`; a rejection ends the callback. -/
def callback (deliver : Job → Outcome Unit) (j : Job) : List Event :=
  Event.invoked j.taskId j.kind ::
    (match deliver j with
      | .ok _ =>
        (match j.kind with
          | .start => [Event.statusRequested j.taskId .in_progress]
          | .due => [])
      | .error _ => [])

/-- Modelled from the spec: the clock is advanced to `t`; every job that is due
fires once, which makes it `fired` and runs its callback. -/
def advance (deliver : Job → Outcome Unit) (t : Int) (s : Scheduler) : Scheduler :=
  { s with
    timers := s.timers.map fun j => if isDue t j then { j with state := .fired } else j
    log := s.log ++ (s.timers.filter (isDue t)).flatMap (callback deliver) }

/-- The clock advanced through a sequence of times. -/
def advanceAll (deliver : Job → Outcome Unit) (ts : List Int) (s : Scheduler) : Scheduler :=
  ts.foldl (fun acc t => advance deliver t acc) s

/-- The call `this.notificationService.sendNotification(...)` as the sources
have it: the class in `notificationService.js` defines `scheduleTaskReminders`
and `scheduleNotification` only, so calling `sendNotification` throws. -/
def sendNotification : Job → Outcome Unit :=
  fun _ => .error "TypeError: this.notificationService.sendNotification is not a function"

/-- How many times the callback of the key was invoked. -/
def invocations (s : Scheduler) (taskId : String) (kind : JobKind) : Nat :=
  s.log.count (Event.invoked taskId kind)

/-- The jobs of a key that can still fire. -/
def pendingFor (s : Scheduler) (taskId : String) (kind : JobKind) : List Job :=
  s.timers.filter fun j =>
    decide (j.taskId = taskId) && decide (j.kind = kind) && decide (j.state = .pending)

/-- Whether the map holds, under the key, a job that can still fire. -/
def hasLiveJob (s : Scheduler) (taskId : String) (kind : JobKind) : Bool :=
  match s.jobs taskId kind with
  | some job => s.timers.any fun j => decide (j.id = job) && decide (j.state = .pending)
  | none => false

/-- The states the service can reach when `scheduleTask` is only called for a
task that has no live job under either of its keys. -/
inductive Reachable : Scheduler → Prop where
  | init : Reachable Scheduler.empty
  | schedule (s s' : Scheduler) (task : Task) :
      Reachable s → hasLiveJob s task._id .start = false → hasLiveJob s task._id .due = false →
      scheduleTask s task = .ok s' → Reachable s'
  | cancel (s s' : Scheduler) (taskId : String) :
      Reachable s → cancelTaskSchedule s taskId = .ok s' → Reachable s'
  | reschedule (s s' : Scheduler) (task : Task) :
      Reachable s → rescheduleTask s task = .ok s' → Reachable s'
  | fire (s : Scheduler) (deliver : Job → Outcome Unit) (t : Int) :
      Reachable s → Reachable (advance deliver t s)

/-- The states the service can reach by any calls and firings. -/
inductive ReachableAny : Scheduler → Prop where
  | init : ReachableAny Scheduler.empty
  | schedule (s s' : Scheduler) (task : Task) :
      ReachableAny s → scheduleTask s task = .ok s' → ReachableAny s'
  | cancel (s s' : Scheduler) (taskId : String) :
      ReachableAny s → cancelTaskSchedule s taskId = .ok s' → ReachableAny s'
  | reschedule (s s' : Scheduler) (task : Task) :
      ReachableAny s → rescheduleTask s task = .ok s' → ReachableAny s'
  | fire (s : Scheduler) (deliver : Job → Outcome Unit) (t : Int) :
      ReachableAny s → ReachableAny (advance deliver t s)

end TaskSchedulerService

/-! ## Reference notions and sample inputs -/

namespace TaskPriorityService

/-- Indicator of a signal: 1 when present, 0 when absent. -/
def signal (b : Bool) : ℚ := if b then 1 else 0

/-- The numeric value the specification assigns to a priority level:
low 0.3, medium 0.6, high 0.9. -/
def specPriorityValue : Priority → ℚ
  | .low => 0.3
  | .medium => 0.6
  | .high => 0.9

end TaskPriorityService

/-- A service whose model is loaded and whose prediction favours the third class. -/
def mlReady : MLService.State :=
  { initialized := true
    model := fun _ => .ok [[.num 0.1, .num 0.2, .num 0.7]] }

/-- A service that was never initialised. -/
def mlDown : MLService.State :=
  { initialized := false
    model := fun _ => .error "no model" }

/-- Function `setHours` for a host whose local time is UTC. -/
def utcSetHours (t h m s ms : Int) : Int :=
  t - t % 86400000 + ((h * 60 + m) * 60 + s) * 1000 + ms

/-- Midnight (UTC) of the sample day, 2024-01-01. -/
def day0 : Int := 1704067200000

/-- Task A: 09:00 to 10:00, high priority. -/
def taskA : Task :=
  { _id := "A", userId := "u1", title := "A", priority := .high
    startTime := some (.valid (day0 + 9 * 3600000))
    endTime := some (.valid (day0 + 10 * 3600000)) }

/-- Task B: 09:00 to 10:00, medium priority. -/
def taskB : Task :=
  { _id := "B", userId := "u1", title := "B", priority := .medium
    startTime := some (.valid (day0 + 9 * 3600000))
    endTime := some (.valid (day0 + 10 * 3600000)) }

/-- Task C: 11:00 to 12:00, high priority. -/
def taskC : Task :=
  { _id := "C", userId := "u1", title := "C", priority := .high
    startTime := some (.valid (day0 + 11 * 3600000))
    endTime := some (.valid (day0 + 12 * 3600000)) }

/-- A user without any completed task. -/
def noHistory : String → Outcome (List Task) := fun _ => .ok []

/-- A travel service that answers ten minutes for every pair of places. -/
def tenMinutes : Location → Location → Outcome JsNum := fun _ _ => .ok (.num 600)

/-- A task on the sample day that starts at 09:00 and has no `endTime`. -/
def taskOpen : Task :=
  { _id := "O", userId := "u1", title := "O"
    startTime := some (.valid (day0 + 9 * 3600000)) }

/-- A task on the sample day whose `endTime` equals its `startTime`, 09:00. -/
def taskZero : Task :=
  { _id := "Z", userId := "u1", title := "Z"
    startTime := some (.valid (day0 + 9 * 3600000))
    endTime := some (.valid (day0 + 9 * 3600000)) }

/-- The placements expected for B, A, C on the sample day without history:
B 09:00 to 10:00, A 10:15 to 11:27, C 11:37 to 12:49. -/
def samplePlacements : List Task :=
  [{ taskB with startTime := some (.valid (day0 + 32400000)),
                endTime := some (.valid (day0 + 36000000)) },
   { taskA with startTime := some (.valid (day0 + 36900000)),
                endTime := some (.valid (day0 + 41220000)) },
   { taskC with startTime := some (.valid (day0 + 41820000)),
                endTime := some (.valid (day0 + 46140000)) }]

/-- A history of one completed task that took half of its estimated second. -/
def halfTimeHistory : String → Outcome (List Task) := fun _ =>
  .ok [{ _id := "H", userId := "u1", title := "H", status := .completed
         startTime := some (.valid day0)
         endTime := some (.valid (day0 + 1000))
         actualCompletionTime := some 500 }]

/-- A task on the sample day that asks for one millisecond, from 09:00. -/
def taskTiny : Task :=
  { _id := "T", userId := "u1", title := "T"
    startTime := some (.valid (day0 + 32400000))
    endTime := some (.valid (day0 + 32400001)) }

/-- A task on the sample day whose `endTime`, 08:00, lies before its `startTime`, 09:00. -/
def taskBack : Task :=
  { _id := "K", userId := "u1", title := "K"
    startTime := some (.valid (day0 + 32400000))
    endTime := some (.valid (day0 + 28800000)) }

namespace TaskOptimizationService

/-- A completed task with a positive estimated duration: valid `startTime` and
`endTime`, the end later than the start, and a recorded actual completion time. -/
def PositiveEstimate (t : Task) : Prop :=
  ∃ (a b : Int) (actual : ℚ), t.startTime = some (.valid a) ∧ t.endTime = some (.valid b) ∧
    a < b ∧ t.actualCompletionTime = some actual

/-- The quotient actual / estimated of a completed task, as the specification
words it; 0 where a time is missing. -/
def specPerformanceRatio (t : Task) : ℚ :=
  match t.actualCompletionTime, t.startTime, t.endTime with
  | some actual, some (.valid a), some (.valid b) => actual / ((b : ℚ) - a)
  | _, _, _ => 0

/-- The number of elements of an optional array, 0 when it is absent. -/
def specCount {α : Type} (xs : Option (List α)) : ℕ :=
  match xs with
  | some l => l.length
  | none => 0

/-- The length of an optional description, 0 when it is absent. -/
def specDescriptionLength (s : Option String) : ℕ :=
  match s with
  | some d => jsLength d
  | none => 0

end TaskOptimizationService

/-- A completed task estimated at one second that took half a second. -/
def taskHalf : Task :=
  { _id := "H", userId := "u1", title := "H", status := .completed
    startTime := some (.valid day0)
    endTime := some (.valid (day0 + 1000))
    actualCompletionTime := some 500 }

/-- Task D: 13:00 to 14:00, medium priority. -/
def taskD : Task :=
  { _id := "D", userId := "u1", title := "D", priority := .medium
    startTime := some (.valid (day0 + 46800000))
    endTime := some (.valid (day0 + 50400000)) }

/-- Task A as stored after a first optimisation of a day on which it is alone:
09:00 to 10:12. -/
def taskAPlaced : Task :=
  { taskA with startTime := some (.valid (day0 + 32400000)),
               endTime := some (.valid (day0 + 36720000)) }

/-- Task D as stored after a first optimisation of a day holding B and D:
10:15 to 11:15. -/
def taskDPlaced : Task :=
  { taskD with startTime := some (.valid (day0 + 36900000)),
               endTime := some (.valid (day0 + 40500000)) }

/-- The placements of B and D on a day holding only these two medium tasks:
B 09:00 to 10:00, D 10:15 to 11:15. -/
def quietPlacements : List Task :=
  [{ taskB with startTime := some (.valid (day0 + 32400000)),
                endTime := some (.valid (day0 + 36000000)) },
   { taskD with startTime := some (.valid (day0 + 36900000)),
                endTime := some (.valid (day0 + 40500000)) }]

/-- A task on the sample day carrying all four complexity signals: a
description of 201 characters, one subtask, one attachment, one dependency. -/
def taskFull : Task :=
  { _id := "F", userId := "u1", title := "F"
    description := some (String.mk (List.replicate 201 'x'))
    startTime := some (.valid (day0 + 9 * 3600000))
    subtasks := some ["s1"], attachments := some ["a1"], dependencies := some ["d1"] }

/-- A task on the sample day whose description has exactly 200 characters and
whose three arrays are present but empty. -/
def taskPlain : Task :=
  { _id := "P", userId := "u1", title := "P"
    description := some (String.mk (List.replicate 200 'x'))
    startTime := some (.valid (day0 + 9 * 3600000))
    subtasks := some [], attachments := some [], dependencies := some [] }

/-- A task on the sample day whose only complexity signal is one subtask. -/
def taskSub : Task :=
  { _id := "S", userId := "u1", title := "S"
    startTime := some (.valid (day0 + 9 * 3600000))
    subtasks := some ["s1"] }

namespace TaskSchedulerService

/-- The job objects are numbered in the order of their creation. -/
def WellFormed (s : Scheduler) : Prop :=
  s.timers.map (fun j => j.id) = List.range s.timers.length

/-- Every job that can still fire is the job the map holds under its key. -/
def Registered (s : Scheduler) : Prop :=
  ∀ j ∈ s.timers, j.state = .pending → s.jobs j.taskId j.kind = some j.id

/-- No job of the task can still fire. -/
def Quiet (s : Scheduler) (taskId : String) : Prop :=
  ∀ j ∈ s.timers, j.taskId = taskId → j.state ≠ .pending

/-- Every job of the task that can still fire is the job the map holds under
its key. -/
def Covered (s : Scheduler) (taskId : String) : Prop :=
  ∀ j ∈ s.timers, j.taskId = taskId → j.state = .pending → s.jobs taskId j.kind = some j.id

/-- Task A scheduled twice in a row on a fresh service. -/
def scheduledTwice : Scheduler :=
  afterSchedule (afterSchedule Scheduler.empty taskA) taskA

/-- A fresh service after: A scheduled, B scheduled, A rescheduled, and the
clock advanced to 09:00. -/
def busyScheduler : Scheduler :=
  advance sendNotification (day0 + 9 * 3600000)
    (afterSchedule (afterCancel (afterSchedule (afterSchedule Scheduler.empty taskA) taskB) "A")
      taskA)

/-- Task A moved to 11:00 to 12:00. -/
def taskAMoved : Task :=
  { taskA with startTime := some (.valid (day0 + 11 * 3600000)),
               endTime := some (.valid (day0 + 12 * 3600000)) }

/-- A notification sender that always delivers. -/
def delivered : Job → Outcome Unit :=
  fun _ => .ok ()

/-- The date at which the job of a kind is due for a task: `startTime` for the
start job, `endTime` for the end job. -/
def dueOf (task : Task) : JobKind → Option JsDate
  | .start => task.startTime
  | .due => task.endTime

end TaskSchedulerService

namespace Binary64

/-- The weight the specification gives to a factor: deadline 0.4, complexity
0.2, importance 0.3, userPreference 0.1. -/
def specWeight (factor : String) : ℚ :=
  if factor = "deadline" then 0.4
  else if factor = "complexity" then 0.2
  else if factor = "importance" then 0.3
  else if factor = "userPreference" then 0.1
  else 0

/-- A finite number whose value lies in `[0, 1]`. -/
def UnitFactor (x : F64) : Prop :=
  ∃ m e, x = .finite m e ∧ 0 ≤ x.toRat ∧ x.toRat ≤ 1

/-- An entry of the factor record: one of the four keys with a finite number in
`[0, 1]`. -/
def FactorEntry (entry : String × Val) : Prop :=
  (entry.1 = "deadline" ∨ entry.1 = "complexity" ∨ entry.1 = "importance" ∨
    entry.1 = "userPreference") ∧
  ∃ x, entry.2 = .number x ∧ UnitFactor x

/-- The exact contribution of an entry to the weighted sum: value times weight. -/
def specTerm (entry : String × Val) : ℚ :=
  entry.2.toNumber.toRat * specWeight entry.1

end Binary64
/-! ## Basic facts about number operations -/

namespace JsNum

@[simp] theorem add_num (a b : ℚ) : add (num a) (num b) = num (a + b) := rfl

@[simp] theorem mul_num (a b : ℚ) : mul (num a) (num b) = num (a * b) := rfl

@[simp] theorem neg_num (a : ℚ) : neg (num a) = num (-a) := rfl

@[simp] theorem sub_num (a b : ℚ) : sub (num a) (num b) = num (a - b) := by
  simp [sub, sub_eq_add_neg]

@[simp] theorem lt_num (a b : ℚ) : lt (num a) (num b) = decide (a < b) := rfl

@[simp] theorem ge_num (a b : ℚ) : ge (num a) (num b) = decide (b ≤ a) := by
  by_cases h : a < b
  · simp [ge, h, not_le.mpr h]
  · simp [ge, h, not_lt.mp h]

theorem div_num (a b : ℚ) (hb : b ≠ 0) : div (num a) (num b) = num (a / b) := by
  simp [div, hb]

@[simp] theorem min_num (a b : ℚ) : JsNum.min (num a) (num b) = num (Min.min a b) := by
  by_cases h : b < a
  · simp [JsNum.min, h, min_eq_right h.le]
  · simp [JsNum.min, h, min_eq_left (not_lt.mp h)]

@[simp] theorem max_num (a b : ℚ) : JsNum.max (num a) (num b) = num (Max.max a b) := by
  by_cases h : a < b
  · simp [JsNum.max, h, max_eq_right h.le]
  · simp [JsNum.max, h, max_eq_left (not_lt.mp h)]

@[simp] theorem add_nan_left (x : JsNum) : add nan x = nan := by
  cases x <;> rfl

@[simp] theorem add_nan_right (x : JsNum) : add x nan = nan := by
  cases x <;> rfl

@[simp] theorem mul_nan_left (x : JsNum) : mul nan x = nan := by
  cases x <;> rfl

@[simp] theorem mul_nan_right (x : JsNum) : mul x nan = nan := by
  cases x <;> rfl

end JsNum

/-! ## Priority scoring -/

namespace TaskPriorityService

open JsNum

/-- Whatever the score, NaN included, the level is low, medium or high. -/
theorem mapPriorityToLevel_level (x : JsNum) :
    _mapPriorityToLevel x ∈ ["low", "medium", "high"] := by
  unfold _mapPriorityToLevel
  split_ifs <;> simp

/-- C1: `_mapPriorityToLevel` is total into low/medium/high and, on every
rational score `s`, answers high iff `s ≥ 0.8`, medium iff `0.4 ≤ s < 0.8` and
low iff `s < 0.4`; the boundary scores 0.8 and 0.4 give high and medium, and
equal scores give equal levels. -/
theorem mapPriorityToLevel_thresholds :
    (∀ x : JsNum, _mapPriorityToLevel x ∈ ["low", "medium", "high"]) ∧
    (∀ s : ℚ, (_mapPriorityToLevel (num s) = "high" ↔ 0.8 ≤ s) ∧
      (_mapPriorityToLevel (num s) = "medium" ↔ 0.4 ≤ s ∧ s < 0.8) ∧
      (_mapPriorityToLevel (num s) = "low" ↔ s < 0.4)) ∧
    _mapPriorityToLevel (num 0.8) = "high" ∧
    _mapPriorityToLevel (num 0.4) = "medium" ∧
    (∀ s t : ℚ, s = t → _mapPriorityToLevel (num s) = _mapPriorityToLevel (num t)) := by
  have key : ∀ s : ℚ, (_mapPriorityToLevel (num s) = "high" ↔ 0.8 ≤ s) ∧
      (_mapPriorityToLevel (num s) = "medium" ↔ 0.4 ≤ s ∧ s < 0.8) ∧
      (_mapPriorityToLevel (num s) = "low" ↔ s < 0.4) := by
    intro s
    unfold _mapPriorityToLevel
    by_cases h1 : (0.8 : ℚ) ≤ s
    · have h2 : (0.4 : ℚ) ≤ s := le_trans (by norm_num) h1
      simp [h1, h2, not_lt.mpr h1, not_lt.mpr h2]
    · by_cases h2 : (0.4 : ℚ) ≤ s
      · simp [h1, h2, not_lt.mpr h2, not_le.mp h1]
      · simp [h1, h2, not_le.mp h2]
  refine ⟨mapPriorityToLevel_level, key, (key 0.8).1.mpr le_rfl,
    (key 0.4).2.1.mpr ⟨le_rfl, by norm_num⟩, ?_⟩
  rintro s t rfl
  rfl

/-- C3: `_calculateDeadlineFactor` is 0.5 without a deadline; with a deadline
`e` and `r = (e - now)` in days it is 1 for `r < 0`, 0.9 for `0 ≤ r < 1`,
0.7 for `1 ≤ r < 3`, 0.5 for `3 ≤ r < 7` and 0.3 for `r ≥ 7`. -/
theorem calculateDeadlineFactor_table (now : Int) (task : Task) :
    (task.endTime = none → _calculateDeadlineFactor now task = num 0.5) ∧
    (∀ e : Int, task.endTime = some (.valid e) →
      (((e : ℚ) - now) / 86400000 < 0 → _calculateDeadlineFactor now task = num 1) ∧
      (0 ≤ ((e : ℚ) - now) / 86400000 → ((e : ℚ) - now) / 86400000 < 1 →
        _calculateDeadlineFactor now task = num 0.9) ∧
      (1 ≤ ((e : ℚ) - now) / 86400000 → ((e : ℚ) - now) / 86400000 < 3 →
        _calculateDeadlineFactor now task = num 0.7) ∧
      (3 ≤ ((e : ℚ) - now) / 86400000 → ((e : ℚ) - now) / 86400000 < 7 →
        _calculateDeadlineFactor now task = num 0.5) ∧
      (7 ≤ ((e : ℚ) - now) / 86400000 → _calculateDeadlineFactor now task = num 0.3)) := by
  refine ⟨fun h => by simp [_calculateDeadlineFactor, h], fun e h => ?_⟩
  have hd : (1000 * 60 * 60 * 24 : ℚ) = 86400000 := by norm_num
  have hne : (86400000 : ℚ) ≠ 0 := by norm_num
  simp only [_calculateDeadlineFactor, h, JsDate.copy, JsDate.getTime, sub_num, hd,
    div_num _ _ hne, lt_num]
  refine ⟨fun h0 => ?_, fun h0 h1 => ?_, fun h1 h3 => ?_, fun h3 h7 => ?_, fun h7 => ?_⟩
  · simp [h0]
  · simp [not_lt.mpr h0, h1]
  · have h0 : ¬ ((e : ℚ) - now) / 86400000 < 0 := not_lt.mpr (le_trans (by norm_num) h1)
    simp [h0, not_lt.mpr h1, h3]
  · have h0 : ¬ ((e : ℚ) - now) / 86400000 < 0 := not_lt.mpr (le_trans (by norm_num) h3)
    have h1 : ¬ ((e : ℚ) - now) / 86400000 < 1 := not_lt.mpr (le_trans (by norm_num) h3)
    simp [h0, h1, not_lt.mpr h3, h7]
  · have h0 : ¬ ((e : ℚ) - now) / 86400000 < 0 := not_lt.mpr (le_trans (by norm_num) h7)
    have h1 : ¬ ((e : ℚ) - now) / 86400000 < 1 := not_lt.mpr (le_trans (by norm_num) h7)
    have h3 : ¬ ((e : ℚ) - now) / 86400000 < 3 := not_lt.mpr (le_trans (by norm_num) h7)
    simp [h0, h1, h3, not_lt.mpr h7]

/-- C3, instance: on the sample day at midnight, task A (due at 10:00) has
less than a day left and gets 0.9; a task without deadline gets 0.5. -/
theorem calculateDeadlineFactor_table_witness :
    _calculateDeadlineFactor day0 taskA = num 0.9 ∧
    _calculateDeadlineFactor day0 taskOpen = num 0.5 :=
  ⟨((calculateDeadlineFactor_table day0 taskA).2 (day0 + 10 * 3600000) rfl).2.1
      (by simp [day0]; norm_num) (by simp [day0]; norm_num),
    (calculateDeadlineFactor_table day0 taskOpen).1 rfl⟩

theorem longerThan_iff (s : Option String) (n : Nat) :
    longerThan s n = decide (n < TaskOptimizationService.specDescriptionLength s) := by
  cases s <;> simp [longerThan, TaskOptimizationService.specDescriptionLength]

theorem nonEmpty_iff {α : Type} (xs : Option (List α)) :
    nonEmpty xs = decide (0 < TaskOptimizationService.specCount xs) := by
  cases xs <;> simp [nonEmpty, TaskOptimizationService.specCount]

/-- C4: `_calculateComplexityFactor` is
`min(1, 0.2*[description longer than 200] + 0.3*[at least one subtask]
+ 0.2*[at least one attachment] + 0.3*[at least one dependency])`, where an
absent description has length 0 and an absent array has no element; it lies in
`[0, 1]`, is 0 when the description has at most 200 code units and the three
arrays hold nothing, and is 1 when all four signals are present. -/
theorem calculateComplexityFactor_formula (task : Task) :
    _calculateComplexityFactor task =
      num (Min.min 1
        (0.2 * signal (decide (200 < TaskOptimizationService.specDescriptionLength
            task.description))
          + 0.3 * signal (decide (0 < TaskOptimizationService.specCount task.subtasks))
          + 0.2 * signal (decide (0 < TaskOptimizationService.specCount task.attachments))
          + 0.3 * signal (decide (0 < TaskOptimizationService.specCount task.dependencies)))) ∧
    Within 0 1 (_calculateComplexityFactor task) ∧
    (TaskOptimizationService.specDescriptionLength task.description ≤ 200 →
      TaskOptimizationService.specCount task.subtasks = 0 →
      TaskOptimizationService.specCount task.attachments = 0 →
      TaskOptimizationService.specCount task.dependencies = 0 →
      _calculateComplexityFactor task = num 0) ∧
    (200 < TaskOptimizationService.specDescriptionLength task.description →
      0 < TaskOptimizationService.specCount task.subtasks →
      0 < TaskOptimizationService.specCount task.attachments →
      0 < TaskOptimizationService.specCount task.dependencies →
      _calculateComplexityFactor task = num 1) := by
  have hformula : _calculateComplexityFactor task =
      num (Min.min 1
        (0.2 * signal (longerThan task.description 200) + 0.3 * signal (nonEmpty task.subtasks)
          + 0.2 * signal (nonEmpty task.attachments)
          + 0.3 * signal (nonEmpty task.dependencies))) := by
    unfold _calculateComplexityFactor signal
    rw [min_comm]
    cases longerThan task.description 200 <;> cases nonEmpty task.subtasks <;>
      cases nonEmpty task.attachments <;> cases nonEmpty task.dependencies <;>
      simp
  refine ⟨?_, ?_, ?_, ?_⟩
  · rw [hformula, longerThan_iff, nonEmpty_iff, nonEmpty_iff, nonEmpty_iff]
  · unfold _calculateComplexityFactor
    cases longerThan task.description 200 <;> cases nonEmpty task.subtasks <;>
      cases nonEmpty task.attachments <;> cases nonEmpty task.dependencies <;>
      simp [Within] <;> norm_num
  · intro h1 h2 h3 h4
    have g1 : longerThan task.description 200 = false := by
      rw [longerThan_iff]
      simpa using h1
    have g2 : nonEmpty task.subtasks = false := by rw [nonEmpty_iff, h2]; rfl
    have g3 : nonEmpty task.attachments = false := by rw [nonEmpty_iff, h3]; rfl
    have g4 : nonEmpty task.dependencies = false := by rw [nonEmpty_iff, h4]; rfl
    simp [_calculateComplexityFactor, g1, g2, g3, g4]
  · intro h1 h2 h3 h4
    have g1 : longerThan task.description 200 = true := by
      rw [longerThan_iff]
      simpa using h1
    have g2 : nonEmpty task.subtasks = true := by rw [nonEmpty_iff]; simpa using h2
    have g3 : nonEmpty task.attachments = true := by rw [nonEmpty_iff]; simpa using h3
    have g4 : nonEmpty task.dependencies = true := by rw [nonEmpty_iff]; simpa using h4
    simp [_calculateComplexityFactor, g1, g2, g3, g4]
    norm_num

set_option maxRecDepth 20000 in
/-- C4, instances: all four signals give 1; a description of exactly 200
characters beside three empty arrays gives 0; one subtask alone gives 0.3. -/
theorem calculateComplexityFactor_formula_witness :
    _calculateComplexityFactor taskFull = num 1 ∧
    _calculateComplexityFactor taskPlain = num 0 ∧
    _calculateComplexityFactor taskSub = num 0.3 := by
  refine ⟨(calculateComplexityFactor_formula taskFull).2.2.2 (by decide) (by decide)
      (by decide) (by decide),
    (calculateComplexityFactor_formula taskPlain).2.2.1 (by decide) (by decide) (by decide)
      (by decide), ?_⟩
  rw [(calculateComplexityFactor_formula taskSub).1]
  simp [signal, taskSub, TaskOptimizationService.specCount,
    TaskOptimizationService.specDescriptionLength]
  norm_num

theorem getPriorityValue_eq (p : Priority) : _getPriorityValue p = num (specPriorityValue p) := by
  cases p <;> simp [_getPriorityValue, priorityValues, specPriorityValue, orElse, truthy] <;>
    norm_num

theorem foldl_priorityValue (l : List Task) (a : ℚ) :
    l.foldl (fun sum task => add sum (_getPriorityValue task.priority)) (num a) =
      num (a + (l.map fun t => specPriorityValue t.priority).sum) := by
  induction l generalizing a with
  | nil => simp
  | cons t l ih =>
    simp only [List.foldl_cons, List.map_cons, List.sum_cons]
    rw [getPriorityValue_eq, add_num, ih, add_assoc]

theorem specPriorityValue_sum_bounds (l : List Task) :
    0 ≤ (l.map fun t => specPriorityValue t.priority).sum ∧
      (l.map fun t => specPriorityValue t.priority).sum ≤ l.length := by
  induction l with
  | nil => simp
  | cons t l ih =>
    have h : 0 ≤ specPriorityValue t.priority ∧ specPriorityValue t.priority ≤ 1 := by
      cases t.priority <;> simp [specPriorityValue] <;> norm_num
    simp only [List.map_cons, List.sum_cons, List.length_cons, Nat.cast_add, Nat.cast_one]
    constructor <;> linarith [ih.1, ih.2, h.1, h.2]

/-- C5: `_getUserPreferenceFactor` is 0.5 on an empty list and otherwise the
arithmetic mean of the mapped priority values of the listed tasks; the result
lies in `[0, 1]`, also for lists of at most 10 tasks. -/
theorem getUserPreferenceFactor_mean (userTasks : List Task) :
    _getUserPreferenceFactor (.ok []) = num 0.5 ∧
    (userTasks ≠ [] → _getUserPreferenceFactor (.ok userTasks) =
      num ((userTasks.map fun t => specPriorityValue t.priority).sum / userTasks.length)) ∧
    Within 0 1 (_getUserPreferenceFactor (.ok userTasks)) := by
  have hmean : userTasks ≠ [] → _getUserPreferenceFactor (.ok userTasks) =
      num ((userTasks.map fun t => specPriorityValue t.priority).sum / userTasks.length) := by
    intro hne
    have hlen : userTasks.length ≠ 0 := by simpa using hne
    have hq : ((userTasks.length : ℕ) : ℚ) ≠ 0 := by exact_mod_cast hlen
    simp only [_getUserPreferenceFactor, hlen, if_false, foldl_priorityValue, zero_add]
    exact div_num _ _ hq
  refine ⟨by simp [_getUserPreferenceFactor], hmean, ?_⟩
  by_cases hne : userTasks = []
  · subst hne
    simp [_getUserPreferenceFactor, Within]
    norm_num
  · rw [hmean hne]
    have hlen : (0 : ℚ) < userTasks.length := by
      have : 0 < userTasks.length := List.length_pos.mpr hne
      exact_mod_cast this
    obtain ⟨h0, h1⟩ := specPriorityValue_sum_bounds userTasks
    exact ⟨div_nonneg h0 hlen.le, (div_le_one hlen).mpr h1⟩

/-- C6: `calculateTaskPriority` returns one of low/medium/high for every task,
every state of the ML service and every outcome of the store lookup; and when
the prediction fails, the `importance` entry of the weighted sum is 0.5. -/
theorem calculateTaskPriority_never_fails (now : Int) (ml : MLService.State)
    (recentCompleted : String → Outcome (List Task)) (task : Task) :
    (∃ level, calculateTaskPriority now ml recentCompleted task = .ok level ∧
      level ∈ ["low", "medium", "high"]) ∧
    (∀ msg, MLService.predictTaskPriority ml task = .error msg →
      _calculateImportanceFactor ml task = .number (num 0.5) ∧
      ("importance", JsVal.number (num 0.5)) ∈ priorityFactors now ml recentCompleted task) := by
  refine ⟨⟨_, rfl, mapPriorityToLevel_level _⟩, fun msg h => ?_⟩
  have hi : _calculateImportanceFactor ml task = .number (num 0.5) := by
    simp [_calculateImportanceFactor, h]
  exact ⟨hi, by simp [priorityFactors, hi]⟩

/-- C6, instance: with a service that was never initialised the prediction is
rejected, and the importance entry of the sum for the open task is 0.5. -/
theorem calculateTaskPriority_never_fails_witness :
    MLService.predictTaskPriority mlDown taskOpen = .error "ML Service not initialized" ∧
    _calculateImportanceFactor mlDown taskOpen = .number (num 0.5) ∧
    ("importance", JsVal.number (num 0.5)) ∈ priorityFactors day0 mlDown noHistory taskOpen :=
  ⟨rfl, (calculateTaskPriority_never_fails day0 mlDown noHistory taskOpen).2
    "ML Service not initialized" rfl⟩

/-- A fulfilled prediction is a label, and a label has no `confidence`. -/
theorem calculateImportanceFactor_of_label (ml : MLService.State) (task : Task) (label : String)
    (h : MLService.predictTaskPriority ml task = .ok (some label)) :
    _calculateImportanceFactor ml task = .undefined := by
  simp [_calculateImportanceFactor, h]

theorem predictTaskPriority_mlReady (task : Task) :
    MLService.predictTaskPriority mlReady task = .ok (some "high") := by
  have hmax : JsNum.maxOf [num 0.1, num 0.2, num 0.7] = num 0.7 := by
    simp [JsNum.maxOf, JsNum.max, JsNum.lt]
    norm_num
  have hidx : MLService.indexOf [num 0.1, num 0.2, num 0.7] (num 0.7) = 2 := by
    simp [MLService.indexOf, List.findIdx?_cons, JsNum.strictEq]
    norm_num
  have hconv : MLService._convertToPriority [num 0.1, num 0.2, num 0.7] = some "high" := by
    simp [MLService._convertToPriority, hmax, hidx, MLService.elemAt]
  simp [MLService.predictTaskPriority, mlReady, hconv, tryCatch, tryCatchThe,
    MonadExceptOf.tryCatch, Except.tryCatch, bind, Except.bind, pure, Except.pure]

/-- C7, at a service whose prediction succeeds: the prediction is the label
`high`, the importance factor is `undefined` rather than a number, the weighted
sum is NaN and the task is classified low. -/
theorem importance_undefined_when_prediction_succeeds :
    MLService.predictTaskPriority mlReady taskA = .ok (some "high") ∧
    _calculateImportanceFactor mlReady taskA = .undefined ∧
    _computePriorityScore (priorityFactors day0 mlReady noHistory taskA) = nan ∧
    calculateTaskPriority day0 mlReady noHistory taskA = .ok "low" := by
  have hp := predictTaskPriority_mlReady taskA
  have hi := calculateImportanceFactor_of_label mlReady taskA "high" hp
  have hs : _computePriorityScore (priorityFactors day0 mlReady noHistory taskA) = nan := by
    simp only [_computePriorityScore, priorityFactors, hi, List.foldl, JsVal.toNumber, weights]
    simp
  refine ⟨hp, hi, hs, ?_⟩
  show Except.ok (_mapPriorityToLevel (_computePriorityScore
    (priorityFactors day0 mlReady noHistory taskA))) = _
  rw [hs]
  rfl

end TaskPriorityService

/-! ## Schedule optimisation -/

@[simp] theorem JsDate.ofNumber_nan : JsDate.ofNumber .nan = .invalid := rfl

@[simp] theorem JsDate.getTime_invalid : JsDate.invalid.getTime = .nan := rfl

@[simp] theorem JsDate.getTime_valid (ms : Int) : (JsDate.valid ms).getTime = .num ms := rfl

@[simp] theorem dateFieldToNumber_some (d : JsDate) : dateFieldToNumber (some d) = d.getTime := rfl

@[simp] theorem dateFieldToNumber_none : dateFieldToNumber none = .nan := rfl

/-- Truncation never falls below an integer that the argument has reached. -/
theorem le_truncQ (z : Int) (q : ℚ) (h : (z : ℚ) ≤ q) : z ≤ truncQ q := by
  unfold truncQ
  split_ifs
  · exact Int.le_floor.mpr h
  · exact_mod_cast le_trans h (Int.le_ceil q)

/-- A date built from a number is valid only if the number is a rational. -/
theorem JsDate.ofNumber_eq_valid (x : JsNum) (s : Int) (h : JsDate.ofNumber x = .valid s) :
    ∃ q : ℚ, x = .num q ∧ truncQ q = s := by
  cases x with
  | num q =>
    refine ⟨q, rfl, ?_⟩
    simp only [JsDate.ofNumber] at h
    split_ifs at h
    simpa using h
  | posInf => simp [JsDate.ofNumber] at h
  | negInf => simp [JsDate.ofNumber] at h
  | nan => simp [JsDate.ofNumber] at h

/-- A sum is a rational only if both summands are. -/
theorem JsNum.add_eq_num (x y : JsNum) (q : ℚ) (h : JsNum.add x y = .num q) :
    ∃ a b : ℚ, x = .num a ∧ y = .num b ∧ a + b = q := by
  cases x <;> cases y <;> simp [JsNum.add] at h
  exact ⟨_, _, rfl, rfl, h⟩

/-- A date read as a number is a rational only if the date is valid. -/
theorem JsDate.getTime_eq_num (d : JsDate) (q : ℚ) (h : d.getTime = .num q) :
    ∃ ms : Int, d = .valid ms ∧ (ms : ℚ) = q := by
  cases d with
  | valid ms => exact ⟨ms, rfl, by simpa [JsDate.getTime] using h⟩
  | invalid => simp [JsDate.getTime] at h

namespace TaskOptimizationService

open JsNum

theorem placeFrom_cons (history : String → Outcome (List Task))
    (travel : Location → Location → Outcome JsNum) (cur : JsDate) (task : Task)
    (rest : List Task) :
    placeFrom history travel cur (task :: rest) =
      { task with
        startTime := some cur
        endTime := some (JsDate.ofNumber (add cur.getTime (_calculateOptimalDuration history task))) }
      :: placeFrom history travel
        (JsDate.ofNumber
          (add (JsDate.ofNumber (add cur.getTime (_calculateOptimalDuration history task))).getTime
            (match rest.head? with
              | some nextTask => _calculateBreakTime travel task nextTask
              | none => num 0)))
        rest := rfl

theorem placeFrom_length (history : String → Outcome (List Task))
    (travel : Location → Location → Outcome JsNum) (tasks : List Task) (cur : JsDate) :
    (placeFrom history travel cur tasks).length = tasks.length := by
  induction tasks generalizing cur with
  | nil => rfl
  | cons t rest ih => simp [placeFrom_cons, ih]

/-- Placement `i` belongs to task `i`, starts at some cursor and ends at the
cursor advanced by the duration computed for the task. -/
theorem placeFrom_at (history : String → Outcome (List Task))
    (travel : Location → Location → Outcome JsNum) (tasks : List Task) (cur : JsDate)
    (i : Nat) (p : Task) (hp : (placeFrom history travel cur tasks)[i]? = some p) :
    ∃ t c, tasks[i]? = some t ∧ p.startTime = some c ∧
      p.endTime = some (JsDate.ofNumber (add c.getTime (_calculateOptimalDuration history t))) := by
  induction tasks generalizing cur i with
  | nil => simp [placeFrom] at hp
  | cons t rest ih =>
    rw [placeFrom_cons] at hp
    cases i with
    | zero =>
      simp only [List.getElem?_cons_zero, Option.some.injEq] at hp
      subst hp
      exact ⟨t, cur, by simp, rfl, rfl⟩
    | succ i =>
      simp only [List.getElem?_cons_succ] at hp ⊢
      exact ih _ i hp

/-- Placement `i + 1` starts at the end of placement `i` advanced by the break
computed for tasks `i` and `i + 1`. -/
theorem placeFrom_next (history : String → Outcome (List Task))
    (travel : Location → Location → Outcome JsNum) (tasks : List Task) (cur : JsDate)
    (i : Nat) (p p' : Task) (hp : (placeFrom history travel cur tasks)[i]? = some p)
    (hp' : (placeFrom history travel cur tasks)[i + 1]? = some p') :
    ∃ t t', tasks[i]? = some t ∧ tasks[i + 1]? = some t' ∧
      p'.startTime = some (JsDate.ofNumber
        (add (dateFieldToNumber p.endTime) (_calculateBreakTime travel t t'))) := by
  induction tasks generalizing cur i with
  | nil => simp [placeFrom] at hp
  | cons t rest ih =>
    rw [placeFrom_cons] at hp hp'
    cases i with
    | zero =>
      simp only [List.getElem?_cons_zero, Option.some.injEq] at hp
      simp only [zero_add, List.getElem?_cons_succ] at hp'
      cases rest with
      | nil => simp [placeFrom] at hp'
      | cons t' rest' =>
        rw [placeFrom_cons] at hp'
        simp only [List.getElem?_cons_zero, Option.some.injEq] at hp'
        subst hp hp'
        exact ⟨t, t', by simp, by simp, rfl⟩
    | succ i =>
      simp only [List.getElem?_cons_succ] at hp hp' ⊢
      exact ih _ i hp hp'

/-- With a travel service that answers non-negative durations, every break is a
non-negative number of milliseconds. -/
theorem calculateBreakTime_nonneg (travel : Location → Location → Outcome JsNum)
    (htravel : ∀ a b v, travel a b = .ok v → ∃ q : ℚ, v = num q ∧ 0 ≤ q) (t t' : Task) :
    ∃ b : ℚ, _calculateBreakTime travel t t' = num b ∧ 0 ≤ b := by
  have hdefault : ∃ b : ℚ, orElse (breakTimes t.priority) (breakTimes .medium) = num b ∧ 0 ≤ b := by
    cases t.priority <;> simp [breakTimes, orElse, truthy]
  unfold _calculateBreakTime
  cases h1 : t.location with
  | none => simpa using hdefault
  | some origin =>
    cases h2 : t'.location with
    | none => simpa using hdefault
    | some destination =>
      cases h3 : travel origin destination with
      | error e => exact ⟨15 * 60000, by simp [h3], by norm_num⟩
      | ok v =>
        obtain ⟨q, rfl, hq⟩ := htravel _ _ _ h3
        exact ⟨q * 1000, by simp [h3], by positivity⟩

theorem placeFrom_ids (history : String → Outcome (List Task))
    (travel : Location → Location → Outcome JsNum) (tasks : List Task) (cur : JsDate) :
    (placeFrom history travel cur tasks).map (fun p => p._id) = tasks.map (fun t => t._id) := by
  induction tasks generalizing cur with
  | nil => rfl
  | cons t rest ih => simp [placeFrom_cons, ih]

/-- C8, at the three sample tasks A (09:00, high), B (09:00, medium) and
C (11:00, high): the query returns them in the order B, A, C, because the
stored strings are compared (`medium` after `low` after `high`), and that is
the order in which they are placed. -/
theorem getTasksForDate_places_medium_first :
    _getTasksForDate [taskA, taskB, taskC] utcSetHours "u1" (day0 + 5000) = [taskB, taskA, taskC] ∧
    (∀ placements,
      _createOptimizedSchedule noHistory tenMinutes
        (_getTasksForDate [taskA, taskB, taskC] utcSetHours "u1" (day0 + 5000)) = .ok placements →
      placements.map (fun p => p._id) = ["B", "A", "C"]) ∧
    sortLe { taskA with priority := .medium } { taskA with priority := .low } ∧
    sortLe { taskA with priority := .low } { taskA with priority := .high } := by
  have h : _getTasksForDate [taskA, taskB, taskC] utcSetHours "u1" (day0 + 5000)
      = [taskB, taskA, taskC] := by decide
  refine ⟨h, ?_, by decide, by decide⟩
  intro placements hrun
  rw [h] at hrun
  simp only [_createOptimizedSchedule, pure, Except.pure, Except.ok.injEq] at hrun
  rw [← hrun, placeFrom_ids]
  decide

theorem truncQ_intCast (z : Int) : truncQ (z : ℚ) = z := by
  unfold truncQ
  split_ifs <;> simp

/-- C9 fails as stated: the first of two same-day tasks has a start but no
`endTime`; its placement ends at an invalid date, the next placement starts at
an invalid date, and `start >= end` is false for the pair. -/
theorem no_overlap_fails_without_endTime :
    taskOpen.startTime = some (.valid (day0 + 9 * 3600000)) ∧
    taskC.startTime = some (.valid (day0 + 11 * 3600000)) ∧
    (∀ a b v, tenMinutes a b = .ok v → ∃ q : ℚ, v = num q ∧ 0 ≤ q) ∧
    _createOptimizedSchedule noHistory tenMinutes [taskOpen, taskC] =
      .ok [{ taskOpen with startTime := some (.valid (day0 + 9 * 3600000)),
                           endTime := some .invalid },
           { taskC with startTime := some .invalid, endTime := some .invalid }] ∧
    JsNum.ge (dateFieldToNumber (some JsDate.invalid)) (dateFieldToNumber (some JsDate.invalid))
      = false := by
  refine ⟨rfl, rfl, ?_, ?_, rfl⟩
  · intro a b v h
    simp only [tenMinutes, Except.ok.injEq] at h
    exact ⟨600, h.symm, by norm_num⟩
  · have hd : _calculateOptimalDuration noHistory taskOpen = nan := by
      simp [_calculateOptimalDuration, taskOpen, JsNum.sub]
    simp [_createOptimizedSchedule, placeFrom_cons, placeFrom, hd, JsDate.ofField, JsDate.copy,
      pure, Except.pure]
    simp [taskOpen]

/-- C9, amended: for a non-empty task list and a travel service with
non-negative durations the schedule is produced, one placement per task, and
for every consecutive pair whose later placement starts at a valid date, the
earlier placement ends at a valid date not after that start. -/
theorem createOptimizedSchedule_no_overlap (history : String → Outcome (List Task))
    (travel : Location → Location → Outcome JsNum) (tasks : List Task)
    (hne : tasks ≠ [])
    (htravel : ∀ a b v, travel a b = .ok v → ∃ q : ℚ, v = num q ∧ 0 ≤ q) :
    ∃ placements, _createOptimizedSchedule history travel tasks = .ok placements ∧
      placements.length = tasks.length ∧
      ∀ (i : Nat) (p p' : Task), placements[i]? = some p → placements[i + 1]? = some p' →
        ∀ s' : Int, p'.startTime = some (.valid s') →
          ∃ e : Int, p.endTime = some (.valid e) ∧ e ≤ s' := by
  cases tasks with
  | nil => exact absurd rfl hne
  | cons first rest =>
    refine ⟨_, rfl, placeFrom_length _ _ _ _, ?_⟩
    intro i p p' hp hp' s' hs
    obtain ⟨t, t', -, -, hstart⟩ := placeFrom_next _ _ _ _ i p p' hp hp'
    obtain ⟨_, c, _, _, hend⟩ := placeFrom_at _ _ _ _ i p hp
    obtain ⟨b, hb, hb0⟩ := calculateBreakTime_nonneg travel htravel t t'
    rw [hs, Option.some.injEq] at hstart
    obtain ⟨q, hq, hqs⟩ := JsDate.ofNumber_eq_valid _ _ hstart.symm
    obtain ⟨x, y, hx, hy, hxy⟩ := JsNum.add_eq_num _ _ _ hq
    rw [hend, dateFieldToNumber_some] at hx
    obtain ⟨e, he, hex⟩ := JsDate.getTime_eq_num _ _ hx
    refine ⟨e, by rw [hend, he], ?_⟩
    rw [hb, JsNum.num.injEq] at hy
    rw [← hqs]
    apply le_truncQ
    rw [← hxy, hex, ← hy]
    linarith

theorem countOf_eq {α : Type} (xs : Option (List α)) : ∃ n : ℕ, countOf xs = num n := by
  cases xs with
  | none => exact ⟨0, by simp [countOf]⟩
  | some l =>
    refine ⟨l.length, ?_⟩
    by_cases h : l.length = 0
    · simp [countOf, orElse, truthy, h]
    · simp [countOf, orElse, truthy, h]

theorem lengthOf_eq (s : Option String) : ∃ n : ℕ, lengthOf s = num n := by
  cases s with
  | none => exact ⟨0, by simp [lengthOf]⟩
  | some d =>
    refine ⟨jsLength d, ?_⟩
    by_cases h : jsLength d = 0
    · simp [lengthOf, orElse, truthy, h]
    · simp [lengthOf, orElse, truthy, h]

/-- The duration multiplier is a rational between 1 and 2. -/
theorem getComplexityFactor_range (task : Task) :
    ∃ c : ℚ, _getComplexityFactor task = num c ∧ 1 ≤ c ∧ c ≤ 2 := by
  obtain ⟨n, hn⟩ := countOf_eq task.subtasks
  obtain ⟨m, hm⟩ := lengthOf_eq task.description
  obtain ⟨k, hk⟩ := countOf_eq task.attachments
  have hn0 : (0 : ℚ) ≤ n := Nat.cast_nonneg n
  have hk0 : (0 : ℚ) ≤ k := Nat.cast_nonneg k
  simp only [_getComplexityFactor, hn, hm, hk, JsNum.gt, lt_num, mul_num, add_num]
  split_ifs <;> simp only [add_num, min_num] <;>
    refine ⟨_, rfl, le_min ?_ (by norm_num), min_le_right _ _⟩ <;> nlinarith

/-- The performance factor is NaN or a rational between 0.5 and 1.5. -/
theorem getUserPerformanceFactor_range (found : Outcome (List Task)) :
    _getUserPerformanceFactor found = nan ∨
      ∃ f : ℚ, _getUserPerformanceFactor found = num f ∧ 1 / 2 ≤ f ∧ f ≤ 3 / 2 := by
  have clamp : ∀ r : JsNum, JsNum.max (num 0.5) (JsNum.min (num 1.5) r) = nan ∨
      ∃ f : ℚ, JsNum.max (num 0.5) (JsNum.min (num 1.5) r) = num f ∧ 1 / 2 ≤ f ∧ f ≤ 3 / 2 := by
    intro r
    cases r with
    | num q =>
      right
      refine ⟨Max.max 0.5 (Min.min 1.5 q), by simp, ?_, ?_⟩
      · exact le_trans (by norm_num) (le_max_left _ _)
      · exact max_le (by norm_num) (le_trans (min_le_left _ _) (by norm_num))
    | posInf => right; exact ⟨1.5, by simp [JsNum.min, JsNum.max, JsNum.lt]; norm_num, by norm_num, by norm_num⟩
    | negInf => right; exact ⟨0.5, by simp [JsNum.min, JsNum.max, JsNum.lt], by norm_num, by norm_num⟩
    | nan => left; simp [JsNum.min, JsNum.max]
  unfold _getUserPerformanceFactor
  cases found with
  | error e => right; exact ⟨1, rfl, by norm_num, by norm_num⟩
  | ok l =>
    by_cases h : l.length = 0
    · right; exact ⟨1, by simp [h], by norm_num, by norm_num⟩
    · simp only [h, if_false]
      exact clamp _

theorem JsDate.ofNumber_intCast (z : Int) (h : |(z : ℚ)| ≤ maxTimeValue) :
    JsDate.ofNumber (num z) = .valid z := by
  simp [JsDate.ofNumber, h, truncQ_intCast]

/-- C10 fails as stated: a single task whose `endTime` equals its `startTime`
is placed with an end equal to its start. -/
theorem end_not_after_start_for_empty_interval :
    taskZero.startTime = some (.valid (day0 + 9 * 3600000)) ∧
    taskZero.endTime = some (.valid (day0 + 9 * 3600000)) ∧
    _createOptimizedSchedule noHistory tenMinutes [taskZero] = .ok [taskZero] ∧
    JsNum.gt (dateFieldToNumber taskZero.endTime) (dateFieldToNumber taskZero.startTime)
      = false := by
  refine ⟨rfl, rfl, ?_, by simp [taskZero, JsNum.gt]⟩
  obtain ⟨c, hc, -, -⟩ := getComplexityFactor_range taskZero
  have hd : _calculateOptimalDuration noHistory taskZero = num 0 := by
    simp [_calculateOptimalDuration, hc, _getUserPerformanceFactor, noHistory]
    simp [taskZero]
  have hr : |((day0 + 9 * 3600000 : Int) : ℚ)| ≤ maxTimeValue := by
    simp [day0, maxTimeValue]
    norm_num
  have he : JsDate.ofNumber (add (JsDate.ofField taskZero.startTime).getTime
      (_calculateOptimalDuration noHistory taskZero)) = .valid (day0 + 9 * 3600000) := by
    rw [hd]
    simp only [taskZero, JsDate.ofField, JsDate.copy, JsDate.getTime_valid, add_num, add_zero]
    exact JsDate.ofNumber_intCast _ hr
  simp only [_createOptimizedSchedule, placeFrom_cons, placeFrom, he, pure, Except.pure]
  rfl

/-- A task asking for a single millisecond, with a history that halves the
estimate, is placed with an end equal to its start: the half millisecond is
truncated away. -/
theorem end_equals_start_for_one_millisecond :
    _createOptimizedSchedule halfTimeHistory tenMinutes [taskTiny] =
      .ok [{ taskTiny with endTime := some (.valid (day0 + 32400000)) }] := by
  have hf : _getUserPerformanceFactor (halfTimeHistory taskTiny.userId) = num (1 / 2) := by
    simp [_getUserPerformanceFactor, halfTimeHistory, actualToNumber, JsNum.div]
    norm_num
  have hc : _getComplexityFactor taskTiny = num 1 := by
    simp [_getComplexityFactor, countOf, lengthOf, JsNum.gt, taskTiny, Priority.toString]
    norm_num
  have hd : _calculateOptimalDuration halfTimeHistory taskTiny = num (1 / 2) := by
    simp only [_calculateOptimalDuration, hf, hc]
    simp [taskTiny]
    norm_num
  have ht : truncQ (((day0 + 32400000 : Int) : ℚ) + 1 / 2) = day0 + 32400000 := by
    have h0 : (0 : ℚ) ≤ ((day0 + 32400000 : Int) : ℚ) + 1 / 2 := by
      simp [day0]
      norm_num
    simp only [truncQ, h0, if_true]
    rw [Int.floor_eq_iff]
    constructor <;> linarith
  have hr : |((day0 + 32400000 : Int) : ℚ) + 1 / 2| ≤ maxTimeValue := by
    rw [abs_le]
    constructor <;> simp [day0, maxTimeValue] <;> norm_num
  have he : JsDate.ofNumber (add (JsDate.ofField taskTiny.startTime).getTime
      (_calculateOptimalDuration halfTimeHistory taskTiny)) = .valid (day0 + 32400000) := by
    rw [hd]
    simp only [taskTiny, JsDate.ofField, JsDate.copy, JsDate.getTime_valid, add_num]
    simp only [JsDate.ofNumber, hr, if_true, ht]
  simp only [_createOptimizedSchedule, placeFrom_cons, placeFrom, he, pure, Except.pure]
  rfl

/-- C10, amended: for a non-empty task list the schedule is produced, and every
placement that ends at a valid date and whose task asks for an end at least
2 ms after its start ends strictly after the placement's start. -/
theorem createOptimizedSchedule_end_after_start (history : String → Outcome (List Task))
    (travel : Location → Location → Outcome JsNum) (tasks : List Task) (hne : tasks ≠ []) :
    ∃ placements, _createOptimizedSchedule history travel tasks = .ok placements ∧
      placements.length = tasks.length ∧
      ∀ (i : Nat) (t p : Task), tasks[i]? = some t → placements[i]? = some p →
        ∀ a b : Int, t.startTime = some (.valid a) → t.endTime = some (.valid b) → a + 2 ≤ b →
          ∀ e : Int, p.endTime = some (.valid e) →
            ∃ s : Int, p.startTime = some (.valid s) ∧ s < e := by
  cases tasks with
  | nil => exact absurd rfl hne
  | cons first rest =>
    refine ⟨_, rfl, placeFrom_length _ _ _ _, ?_⟩
    intro i t p ht hp a b ha hb hab e he
    obtain ⟨t', c, ht', hstart, hend⟩ := placeFrom_at _ _ _ _ i p hp
    rw [ht, Option.some.injEq] at ht'
    subst ht'
    rw [he, Option.some.injEq] at hend
    obtain ⟨q, hq, hqe⟩ := JsDate.ofNumber_eq_valid _ _ hend.symm
    obtain ⟨x, d, hx, hd, hxd⟩ := JsNum.add_eq_num _ _ _ hq
    obtain ⟨s, hs, hsx⟩ := JsDate.getTime_eq_num _ _ hx
    refine ⟨s, by rw [hstart, hs], ?_⟩
    obtain ⟨cf, hcf, hcf1, hcf2⟩ := getComplexityFactor_range t
    have hd1 : 1 ≤ d := by
      simp only [_calculateOptimalDuration, ha, hb, dateFieldToNumber_some, JsDate.getTime_valid,
        sub_num, hcf, mul_num] at hd
      rcases getUserPerformanceFactor_range (history t.userId) with hf | ⟨f, hf, hf1, hf2⟩
      · rw [hf] at hd
        simp at hd
      · rw [hf, mul_num, JsNum.num.injEq] at hd
        have hba : (2 : ℚ) ≤ (b : ℚ) - a := by
          have : ((a + 2 : Int) : ℚ) ≤ (b : ℚ) := by exact_mod_cast hab
          push_cast at this
          linarith
        have h1 : (2 : ℚ) ≤ ((b : ℚ) - a) * cf := by nlinarith
        rw [← hd]
        nlinarith
    have : s + 1 ≤ e := by
      rw [← hqe]
      apply le_truncQ
      push_cast
      rw [← hxd, hsx]
      linarith
    omega

theorem JsDate.ofNumber_advance (z d : Int) (h : |((z + d : Int) : ℚ)| ≤ maxTimeValue) :
    JsDate.ofNumber (JsNum.add (num z) (num d)) = .valid (z + d) := by
  rw [add_num, ← Int.cast_add]
  exact JsDate.ofNumber_intCast _ h

/-- The sample day: B is placed 09:00 to 10:00, A 10:15 to 11:27 and C 11:37 to 12:49. -/
theorem sample_schedule :
    _createOptimizedSchedule noHistory tenMinutes [taskB, taskA, taskC] = .ok samplePlacements := by
  have hB : _calculateOptimalDuration noHistory taskB = num ((3600000 : Int) : ℚ) := by
    simp [_calculateOptimalDuration, _getUserPerformanceFactor, noHistory, _getComplexityFactor,
      countOf, lengthOf, JsNum.gt, taskB, Priority.toString, day0]
    norm_num
  have hA : _calculateOptimalDuration noHistory taskA = num ((4320000 : Int) : ℚ) := by
    simp [_calculateOptimalDuration, _getUserPerformanceFactor, noHistory, _getComplexityFactor,
      countOf, lengthOf, JsNum.gt, taskA, Priority.toString, day0]
    norm_num
  have hC : _calculateOptimalDuration noHistory taskC = num ((4320000 : Int) : ℚ) := by
    simp [_calculateOptimalDuration, _getUserPerformanceFactor, noHistory, _getComplexityFactor,
      countOf, lengthOf, JsNum.gt, taskC, Priority.toString, day0]
    norm_num
  have hBA : _calculateBreakTime tenMinutes taskB taskA = num ((900000 : Int) : ℚ) := by
    simp [_calculateBreakTime, taskB, breakTimes, orElse, truthy]
    norm_num
  have hAC : _calculateBreakTime tenMinutes taskA taskC = num ((600000 : Int) : ℚ) := by
    simp [_calculateBreakTime, taskA, breakTimes, orElse, truthy]
    norm_num
  have s0 : JsDate.ofField taskB.startTime = .valid (day0 + 32400000) := rfl
  simp only [_createOptimizedSchedule, placeFrom_cons, placeFrom, List.head?_cons, hB, hA, hC,
    hBA, hAC, pure, Except.pure, s0, JsDate.getTime_valid]
  rw [JsDate.ofNumber_advance (day0 + 32400000) 3600000 (by simp [day0, maxTimeValue]; norm_num)]
  simp only [JsDate.getTime_valid, dateFieldToNumber_some, JsDate.copy]
  rw [JsDate.ofNumber_advance (day0 + 32400000 + 3600000) 900000
    (by simp [day0, maxTimeValue]; norm_num)]
  simp only [JsDate.getTime_valid, dateFieldToNumber_some, JsDate.copy]
  rw [JsDate.ofNumber_advance (day0 + 32400000 + 3600000 + 900000) 4320000
    (by simp [day0, maxTimeValue]; norm_num)]
  simp only [JsDate.getTime_valid, dateFieldToNumber_some, JsDate.copy]
  rw [JsDate.ofNumber_advance (day0 + 32400000 + 3600000 + 900000 + 4320000) 600000
    (by simp [day0, maxTimeValue]; norm_num)]
  simp only [JsDate.getTime_valid, dateFieldToNumber_some, JsDate.copy]
  rw [JsDate.ofNumber_advance (day0 + 32400000 + 3600000 + 900000 + 4320000 + 600000) 4320000
    (by simp [day0, maxTimeValue]; norm_num)]
  rfl

/-- C9, amended, at the sample day: tasks B, A, C with a travel service that
always answers ten minutes are placed at valid dates, and the amended property
holds of the placements. -/
theorem createOptimizedSchedule_no_overlap_witness :
    _createOptimizedSchedule noHistory tenMinutes [taskB, taskA, taskC] = .ok samplePlacements ∧
    ∃ placements, _createOptimizedSchedule noHistory tenMinutes [taskB, taskA, taskC]
        = .ok placements ∧
      placements.length = [taskB, taskA, taskC].length ∧
      ∀ (i : Nat) (p p' : Task), placements[i]? = some p → placements[i + 1]? = some p' →
        ∀ s' : Int, p'.startTime = some (.valid s') →
          ∃ e : Int, p.endTime = some (.valid e) ∧ e ≤ s' :=
  ⟨sample_schedule,
    createOptimizedSchedule_no_overlap noHistory tenMinutes [taskB, taskA, taskC]
      (by simp)
      (fun _ _ v h => ⟨600, by simpa [tenMinutes] using h.symm, by norm_num⟩)⟩

/-- C10, amended, at the sample day: tasks B, A, C are placed at valid dates,
and the amended property holds of the placements. -/
theorem createOptimizedSchedule_end_after_start_witness :
    _createOptimizedSchedule noHistory tenMinutes [taskB, taskA, taskC] = .ok samplePlacements ∧
    ∃ placements, _createOptimizedSchedule noHistory tenMinutes [taskB, taskA, taskC]
        = .ok placements ∧
      placements.length = [taskB, taskA, taskC].length ∧
      ∀ (i : Nat) (t p : Task), [taskB, taskA, taskC][i]? = some t → placements[i]? = some p →
        ∀ a b : Int, t.startTime = some (.valid a) → t.endTime = some (.valid b) → a + 2 ≤ b →
          ∀ e : Int, p.endTime = some (.valid e) →
            ∃ s : Int, p.startTime = some (.valid s) ∧ s < e :=
  ⟨sample_schedule,
    createOptimizedSchedule_end_after_start noHistory tenMinutes [taskB, taskA, taskC] (by simp)⟩

/-- Truncation never rises above an integer that bounds the argument. -/
theorem truncQ_le (z : Int) (q : ℚ) (h : q ≤ (z : ℚ)) : truncQ q ≤ z := by
  unfold truncQ
  split_ifs
  · exact_mod_cast le_trans (Int.floor_le q) h
  · exact Int.ceil_le.mpr h

/-- C11 fails as stated: in the batch K (09:00 to 08:00), C the run reports no
error and emits for K a placement that ends an hour before it starts. -/
theorem backward_task_is_placed_without_error :
    taskBack.startTime = some (.valid (day0 + 32400000)) ∧
    taskBack.endTime = some (.valid (day0 + 28800000)) ∧
    _createOptimizedSchedule noHistory tenMinutes [taskBack, taskC] =
      .ok [{ taskBack with startTime := some (.valid (day0 + 32400000)),
                           endTime := some (.valid (day0 + 28800000)) },
           { taskC with startTime := some (.valid (day0 + 29700000)),
                        endTime := some (.valid (day0 + 34020000)) }] ∧
    JsNum.le (JsNum.num ((day0 + 28800000 : Int) : ℚ)) (JsNum.num ((day0 + 32400000 : Int) : ℚ))
      = true := by
  refine ⟨rfl, rfl, ?_, (by simp [JsNum.le, day0]; norm_num)⟩
  have hK : _calculateOptimalDuration noHistory taskBack = num ((-3600000 : Int) : ℚ) := by
    simp [_calculateOptimalDuration, _getUserPerformanceFactor, noHistory, _getComplexityFactor,
      countOf, lengthOf, JsNum.gt, taskBack, Priority.toString, day0]
    norm_num
  have hC : _calculateOptimalDuration noHistory taskC = num ((4320000 : Int) : ℚ) := by
    simp [_calculateOptimalDuration, _getUserPerformanceFactor, noHistory, _getComplexityFactor,
      countOf, lengthOf, JsNum.gt, taskC, Priority.toString, day0]
    norm_num
  have hKC : _calculateBreakTime tenMinutes taskBack taskC = num ((900000 : Int) : ℚ) := by
    simp [_calculateBreakTime, taskBack, breakTimes, orElse, truthy]
    norm_num
  have s0 : JsDate.ofField taskBack.startTime = .valid (day0 + 32400000) := rfl
  simp only [_createOptimizedSchedule, placeFrom_cons, placeFrom, List.head?_cons, hK, hC,
    hKC, pure, Except.pure, s0, JsDate.getTime_valid]
  rw [JsDate.ofNumber_advance (day0 + 32400000) (-3600000)
    (by simp [day0, maxTimeValue]; norm_num)]
  simp only [JsDate.getTime_valid, dateFieldToNumber_some, JsDate.copy]
  rw [JsDate.ofNumber_advance (day0 + 32400000 + -3600000) 900000
    (by simp [day0, maxTimeValue]; norm_num)]
  simp only [JsDate.getTime_valid, dateFieldToNumber_some, JsDate.copy]
  rw [JsDate.ofNumber_advance (day0 + 32400000 + -3600000 + 900000) 4320000
    (by simp [day0, maxTimeValue]; norm_num)]
  rfl

/-- C11, amended: for a non-empty batch the run reports no error and emits one
placement per task, in the order of the tasks; a task whose `endTime` is not
later than its `startTime` gets a placement whose end, when it is a valid
date, is not later than its start. -/
theorem createOptimizedSchedule_places_every_task (history : String → Outcome (List Task))
    (travel : Location → Location → Outcome JsNum) (tasks : List Task) (hne : tasks ≠ []) :
    ∃ placements, _createOptimizedSchedule history travel tasks = .ok placements ∧
      placements.length = tasks.length ∧
      placements.map (fun p => p._id) = tasks.map (fun t => t._id) ∧
      ∀ (i : Nat) (t p : Task), tasks[i]? = some t → placements[i]? = some p →
        ∀ a b : Int, t.startTime = some (.valid a) → t.endTime = some (.valid b) → b ≤ a →
          ∀ e : Int, p.endTime = some (.valid e) →
            ∃ s : Int, p.startTime = some (.valid s) ∧ e ≤ s := by
  cases tasks with
  | nil => exact absurd rfl hne
  | cons first rest =>
    refine ⟨_, rfl, placeFrom_length _ _ _ _, placeFrom_ids _ _ _ _, ?_⟩
    intro i t p ht hp a b ha hb hab e he
    obtain ⟨t', c, ht', hstart, hend⟩ := placeFrom_at _ _ _ _ i p hp
    rw [ht, Option.some.injEq] at ht'
    subst ht'
    rw [he, Option.some.injEq] at hend
    obtain ⟨q, hq, hqe⟩ := JsDate.ofNumber_eq_valid _ _ hend.symm
    obtain ⟨x, d, hx, hd, hxd⟩ := JsNum.add_eq_num _ _ _ hq
    obtain ⟨s, hs, hsx⟩ := JsDate.getTime_eq_num _ _ hx
    refine ⟨s, by rw [hstart, hs], ?_⟩
    obtain ⟨cf, hcf, hcf1, hcf2⟩ := getComplexityFactor_range t
    have hd0 : d ≤ 0 := by
      simp only [_calculateOptimalDuration, ha, hb, dateFieldToNumber_some, JsDate.getTime_valid,
        sub_num, hcf, mul_num] at hd
      rcases getUserPerformanceFactor_range (history t.userId) with hf | ⟨f, hf, hf1, hf2⟩
      · rw [hf] at hd
        simp at hd
      · rw [hf, mul_num, JsNum.num.injEq] at hd
        have hba : (b : ℚ) - a ≤ 0 := by
          have : (b : ℚ) ≤ (a : ℚ) := by exact_mod_cast hab
          linarith
        have h1 : ((b : ℚ) - a) * cf ≤ 0 := mul_nonpos_of_nonpos_of_nonneg hba (by linarith)
        rw [← hd]
        exact mul_nonpos_of_nonpos_of_nonneg h1 (by linarith)
    rw [← hqe]
    apply truncQ_le
    rw [← hxd, hsx]
    linarith

/-- C11, amended, at the batch K, C of the sample day. -/
theorem createOptimizedSchedule_places_every_task_witness :
    ∃ placements, _createOptimizedSchedule noHistory tenMinutes [taskBack, taskC]
        = .ok placements ∧
      placements.length = [taskBack, taskC].length ∧
      placements.map (fun p => p._id) = [taskBack, taskC].map (fun t => t._id) ∧
      ∀ (i : Nat) (t p : Task), [taskBack, taskC][i]? = some t → placements[i]? = some p →
        ∀ a b : Int, t.startTime = some (.valid a) → t.endTime = some (.valid b) → b ≤ a →
          ∀ e : Int, p.endTime = some (.valid e) →
            ∃ s : Int, p.startTime = some (.valid s) ∧ e ≤ s :=
  createOptimizedSchedule_places_every_task noHistory tenMinutes [taskBack, taskC] (by simp)

/-- C12 fails as stated: for the open task, which has no `endTime`, the
computed duration is NaN, not a positive number. -/
theorem duration_of_open_task_is_nan :
    taskOpen.endTime = none ∧
    _calculateOptimalDuration noHistory taskOpen = nan ∧
    ¬ ∃ d : ℚ, 0 < d ∧ _calculateOptimalDuration noHistory taskOpen = num d := by
  have h : _calculateOptimalDuration noHistory taskOpen = nan := by
    simp [_calculateOptimalDuration, taskOpen, JsNum.sub]
  refine ⟨rfl, h, ?_⟩
  rintro ⟨d, -, hd⟩
  rw [h] at hd
  exact JsNum.noConfusion hd

/-- C12, amended: there is no default baseline; for every task without
`endTime`, whatever its shape and the user's history, the baseline
`endTime - startTime` and the computed duration are NaN. -/
theorem calculateOptimalDuration_without_endTime (history : String → Outcome (List Task))
    (task : Task) (h : task.endTime = none) :
    sub (dateFieldToNumber task.endTime) (dateFieldToNumber task.startTime) = nan ∧
    _calculateOptimalDuration history task = nan := by
  simp [_calculateOptimalDuration, h, JsNum.sub]

/-- C12, amended, at the open task with a history that halves estimates. -/
theorem calculateOptimalDuration_without_endTime_witness :
    sub (dateFieldToNumber taskOpen.endTime) (dateFieldToNumber taskOpen.startTime) = nan ∧
    _calculateOptimalDuration halfTimeHistory taskOpen = nan :=
  calculateOptimalDuration_without_endTime halfTimeHistory taskOpen rfl

theorem countOf_spec {α : Type} (xs : Option (List α)) : countOf xs = num (specCount xs) := by
  cases xs with
  | none => simp [countOf, specCount]
  | some l =>
    by_cases h : l.length = 0
    · simp [countOf, specCount, orElse, truthy, h]
    · simp [countOf, specCount, orElse, truthy, h]

theorem lengthOf_spec (s : Option String) : lengthOf s = num (specDescriptionLength s) := by
  cases s with
  | none => simp [lengthOf, specDescriptionLength]
  | some d =>
    by_cases h : jsLength d = 0
    · simp [lengthOf, specDescriptionLength, orElse, truthy, h]
    · simp [lengthOf, specDescriptionLength, orElse, truthy, h]

/-- C25: `_getComplexityFactor` is
`min(2, 1 + 0.1*subtasks + 0.1*[description length > 200] + 0.05*attachments + 0.2*[priority is high])`
and lies in `[1, 2]`. -/
theorem getComplexityFactor_formula (task : Task) :
    _getComplexityFactor task =
      num (Min.min 2
        (1 + 0.1 * (specCount task.subtasks : ℚ)
          + 0.1 * (if 200 < specDescriptionLength task.description then 1 else 0)
          + 0.05 * (specCount task.attachments : ℚ)
          + 0.2 * (if task.priority = .high then 1 else 0))) ∧
    Within 1 2 (_getComplexityFactor task) := by
  have hform : _getComplexityFactor task =
      num (Min.min 2
        (1 + 0.1 * (specCount task.subtasks : ℚ)
          + 0.1 * (if 200 < specDescriptionLength task.description then 1 else 0)
          + 0.05 * (specCount task.attachments : ℚ)
          + 0.2 * (if task.priority = .high then 1 else 0))) := by
    have hp : (task.priority.toString = "high") = (task.priority = .high) := by
      cases task.priority <;> simp [Priority.toString]
    simp only [_getComplexityFactor, countOf_spec, lengthOf_spec, JsNum.gt, lt_num, mul_num,
      add_num, hp]
    rw [min_comm]
    have e200 : ((200 : ℚ) < (specDescriptionLength task.description : ℚ)) =
        (200 < specDescriptionLength task.description) := by
      simp only [eq_iff_iff]
      exact_mod_cast Iff.rfl
    simp only [e200, Nat.cast_pos]
    by_cases h1 : 0 < specCount task.subtasks <;>
      by_cases h2 : 200 < specDescriptionLength task.description <;>
      by_cases h3 : 0 < specCount task.attachments <;>
      by_cases h4 : task.priority = .high <;>
      simp [h1, h2, h3, h4, Nat.eq_zero_of_not_pos]
  refine ⟨hform, ?_⟩
  obtain ⟨c, hc, h1, h2⟩ := getComplexityFactor_range task
  rw [hc]
  exact ⟨h1, h2⟩

/-- C24: the break is the travel time in milliseconds when both tasks carry a
location and the travel service answers `s` seconds; 15 minutes when both carry
a location and the travel service fails, whatever the priority; otherwise 10,
15 or 20 minutes for a current task of high, medium or low priority. -/
theorem calculateBreakTime_cases (travel : Location → Location → Outcome JsNum)
    (currentTask nextTask : Task) :
    (∀ (origin destination : Location) (s : ℚ), currentTask.location = some origin →
      nextTask.location = some destination → travel origin destination = .ok (num s) →
      _calculateBreakTime travel currentTask nextTask = num (s * 1000)) ∧
    (∀ (origin destination : Location) (e : String), currentTask.location = some origin →
      nextTask.location = some destination → travel origin destination = .error e →
      _calculateBreakTime travel currentTask nextTask = num (15 * 60000)) ∧
    (currentTask.location = none ∨ nextTask.location = none →
      (currentTask.priority = .high →
        _calculateBreakTime travel currentTask nextTask = num (10 * 60000)) ∧
      (currentTask.priority = .medium →
        _calculateBreakTime travel currentTask nextTask = num (15 * 60000)) ∧
      (currentTask.priority = .low →
        _calculateBreakTime travel currentTask nextTask = num (20 * 60000))) := by
  refine ⟨?_, ?_, ?_⟩
  · intro origin destination s h1 h2 h3
    simp [_calculateBreakTime, h1, h2, h3]
  · intro origin destination e h1 h2 h3
    simp [_calculateBreakTime, h1, h2, h3]
  · intro hloc
    have hdef : _calculateBreakTime travel currentTask nextTask =
        orElse (breakTimes currentTask.priority) (breakTimes .medium) := by
      unfold _calculateBreakTime
      rcases hloc with h | h
      · simp [h]
      · cases h1 : currentTask.location <;> simp [h]
    refine ⟨fun hp => ?_, fun hp => ?_, fun hp => ?_⟩ <;>
      simp [hdef, hp, breakTimes, orElse, truthy]

/-- C24, instance: after the high-priority task A, which carries no location,
the break is 10 minutes; after the medium-priority task B it is 15 minutes. -/
theorem calculateBreakTime_cases_witness :
    _calculateBreakTime tenMinutes taskA taskC = num (10 * 60000) ∧
    _calculateBreakTime tenMinutes taskB taskA = num (15 * 60000) :=
  ⟨((calculateBreakTime_cases tenMinutes taskA taskC).2.2 (Or.inl rfl)).1 rfl,
    ((calculateBreakTime_cases tenMinutes taskB taskA).2.2 (Or.inl rfl)).2.1 rfl⟩

theorem foldl_performanceRatio (l : List Task) (h : ∀ t ∈ l, PositiveEstimate t) (a : ℚ) :
    l.foldl
      (fun sum task =>
        add sum (div (actualToNumber task.actualCompletionTime)
          (sub (dateFieldToNumber task.endTime) (dateFieldToNumber task.startTime))))
      (num a) = num (a + (l.map specPerformanceRatio).sum) := by
  induction l generalizing a with
  | nil => simp
  | cons t l ih =>
    obtain ⟨x, y, actual, hx, hy, hxy, hact⟩ := h t (List.mem_cons_self _ _)
    have hne : (y : ℚ) - x ≠ 0 := by
      have : (x : ℚ) < y := by exact_mod_cast hxy
      linarith
    have hr : specPerformanceRatio t = actual / ((y : ℚ) - x) := by
      simp [specPerformanceRatio, hx, hy, hact]
    have hstep : add (num a) (div (actualToNumber t.actualCompletionTime)
        (sub (dateFieldToNumber t.endTime) (dateFieldToNumber t.startTime))) =
          num (a + specPerformanceRatio t) := by
      simp only [hx, hy, hact, dateFieldToNumber_some, JsDate.getTime_valid, sub_num,
        actualToNumber, div_num _ _ hne, add_num, hr]
    simp only [List.foldl_cons, List.map_cons, List.sum_cons]
    rw [hstep, ih (fun t ht => h t (List.mem_cons_of_mem _ ht)), add_assoc]

/-- With positive estimates the performance factor is the clamped mean. -/
theorem getUserPerformanceFactor_of_estimates (l : List Task) (hne : l ≠ [])
    (h : ∀ t ∈ l, PositiveEstimate t) :
    _getUserPerformanceFactor (.ok l) =
      num (Max.max 0.5 (Min.min 1.5 ((l.map specPerformanceRatio).sum / l.length))) := by
  have hlen : l.length ≠ 0 := by simpa using hne
  have hq : ((l.length : ℕ) : ℚ) ≠ 0 := by exact_mod_cast hlen
  simp only [_getUserPerformanceFactor, hlen, if_false, foldl_performanceRatio l h, zero_add,
    div_num _ _ hq, min_num, max_num]

/-- C26: `_getUserPerformanceFactor` is 1 when the lookup fails or finds no
task; on a history of tasks with positive estimated durations it is the mean of
actual/estimated clamped to `[0.5, 1.5]`, and it lies in `[0.5, 1.5]`. -/
theorem getUserPerformanceFactor_clamped_mean (l : List Task)
    (h : ∀ t ∈ l, PositiveEstimate t) :
    (∀ e : String, _getUserPerformanceFactor (.error e) = num 1) ∧
    _getUserPerformanceFactor (.ok []) = num 1 ∧
    (l ≠ [] → _getUserPerformanceFactor (.ok l) =
      num (Max.max 0.5 (Min.min 1.5 ((l.map specPerformanceRatio).sum / l.length)))) ∧
    Within 0.5 1.5 (_getUserPerformanceFactor (.ok l)) := by
  refine ⟨fun e => rfl, by simp [_getUserPerformanceFactor],
    fun hne => getUserPerformanceFactor_of_estimates l hne h, ?_⟩
  by_cases hne : l = []
  · subst hne
    simp [_getUserPerformanceFactor, Within]
    norm_num
  · rw [getUserPerformanceFactor_of_estimates l hne h]
    exact ⟨le_max_left _ _, max_le (by norm_num) (le_trans (min_le_left _ _) le_rfl)⟩

theorem taskHalf_positiveEstimate : ∀ t ∈ [taskHalf], PositiveEstimate t := by
  intro t ht
  rw [List.mem_singleton] at ht
  subst ht
  exact ⟨day0, day0 + 1000, 500, rfl, rfl, by decide, rfl⟩

/-- C26, at a history of one task estimated at a second and done in half. -/
theorem getUserPerformanceFactor_clamped_mean_witness :
    (∀ e : String, _getUserPerformanceFactor (.error e) = num 1) ∧
    _getUserPerformanceFactor (.ok []) = num 1 ∧
    ([taskHalf] ≠ [] → _getUserPerformanceFactor (.ok [taskHalf]) =
      num (Max.max 0.5 (Min.min 1.5
        (([taskHalf].map specPerformanceRatio).sum / [taskHalf].length)))) ∧
    Within 0.5 1.5 (_getUserPerformanceFactor (.ok [taskHalf])) :=
  getUserPerformanceFactor_clamped_mean [taskHalf] taskHalf_positiveEstimate

/-- With a failed lookup, an empty history or positive estimates the
performance factor is a rational between 0.5 and 1.5. -/
theorem getUserPerformanceFactor_num (found : Outcome (List Task))
    (h : ∀ l, found = .ok l → ∀ t ∈ l, PositiveEstimate t) :
    ∃ f : ℚ, _getUserPerformanceFactor found = num f ∧ 1 / 2 ≤ f ∧ f ≤ 3 / 2 := by
  cases found with
  | error e => exact ⟨1, rfl, by norm_num, by norm_num⟩
  | ok l =>
    by_cases hne : l = []
    · subst hne
      exact ⟨1, by simp [_getUserPerformanceFactor], by norm_num, by norm_num⟩
    · refine ⟨_, getUserPerformanceFactor_of_estimates l hne (h l rfl), ?_, ?_⟩
      · exact le_trans (by norm_num) (le_max_left _ _)
      · exact max_le (by norm_num) (le_trans (min_le_left _ _) (by norm_num))

/-- C29: for a task asking for a positive duration `b = endTime - startTime`
and a history with positive estimated durations, the computed duration is a
number `d` with `0.5 * b ≤ d ≤ 3 * b`. -/
theorem calculateOptimalDuration_bounds (history : String → Outcome (List Task)) (task : Task)
    (a b : Int) (ha : task.startTime = some (.valid a)) (hb : task.endTime = some (.valid b))
    (hab : a < b)
    (hhist : ∀ l, history task.userId = .ok l → ∀ t ∈ l, PositiveEstimate t) :
    ∃ d : ℚ, _calculateOptimalDuration history task = num d ∧
      0.5 * ((b : ℚ) - a) ≤ d ∧ d ≤ 3 * ((b : ℚ) - a) := by
  obtain ⟨cf, hcf, hcf1, hcf2⟩ := getComplexityFactor_range task
  obtain ⟨f, hf, hf1, hf2⟩ := getUserPerformanceFactor_num (history task.userId) hhist
  have hpos : (0 : ℚ) < (b : ℚ) - a := by
    have : (a : ℚ) < b := by exact_mod_cast hab
    linarith
  refine ⟨((b : ℚ) - a) * cf * f, ?_, ?_, ?_⟩
  · simp only [_calculateOptimalDuration, ha, hb, dateFieldToNumber_some, JsDate.getTime_valid,
      sub_num, hcf, hf, mul_num]
  · have h1 : ((b : ℚ) - a) ≤ ((b : ℚ) - a) * cf := by nlinarith
    have h2 : ((b : ℚ) - a) * cf * (1 / 2) ≤ ((b : ℚ) - a) * cf * f :=
      mul_le_mul_of_nonneg_left hf1 (by positivity)
    norm_num at h2 ⊢
    nlinarith
  · have h1 : ((b : ℚ) - a) * cf ≤ ((b : ℚ) - a) * 2 := mul_le_mul_of_nonneg_left hcf2 hpos.le
    have h2 : ((b : ℚ) - a) * cf * f ≤ ((b : ℚ) - a) * cf * (3 / 2) :=
      mul_le_mul_of_nonneg_left hf2 (by positivity)
    nlinarith

/-- C29, at task A (one hour) with a history that halves estimates. -/
theorem calculateOptimalDuration_bounds_witness :
    ∃ d : ℚ, _calculateOptimalDuration (fun _ => .ok [taskHalf]) taskA = num d ∧
      0.5 * (((day0 + 10 * 3600000 : Int) : ℚ) - ((day0 + 9 * 3600000 : Int) : ℚ)) ≤ d ∧
      d ≤ 3 * (((day0 + 10 * 3600000 : Int) : ℚ) - ((day0 + 9 * 3600000 : Int) : ℚ)) :=
  calculateOptimalDuration_bounds (fun _ => .ok [taskHalf]) taskA
    (day0 + 9 * 3600000) (day0 + 10 * 3600000) rfl rfl (by decide)
    (fun l hl => by
      simp only [Except.ok.injEq] at hl
      subst hl
      exact taskHalf_positiveEstimate)

/-- C30: for a non-empty list the output has the length of the input, and
placement `i` is task `i` with only `startTime` and `endTime` replaced: same
`_id` and every other field unchanged. -/
theorem createOptimizedSchedule_changes_only_times (history : String → Outcome (List Task))
    (travel : Location → Location → Outcome JsNum) (tasks : List Task) (hne : tasks ≠ []) :
    ∃ placements, _createOptimizedSchedule history travel tasks = .ok placements ∧
      placements.length = tasks.length ∧
      placements.map (fun p => p._id) = tasks.map (fun t => t._id) ∧
      ∀ (i : Nat) (t p : Task), tasks[i]? = some t → placements[i]? = some p →
        p = { t with startTime := p.startTime, endTime := p.endTime } ∧ p._id = t._id := by
  cases tasks with
  | nil => exact absurd rfl hne
  | cons first rest =>
    refine ⟨_, rfl, placeFrom_length _ _ _ _, placeFrom_ids _ _ _ _, ?_⟩
    generalize JsDate.ofField first.startTime = cur
    generalize first :: rest = tasks
    intro i t p ht hp
    induction tasks generalizing cur i with
    | nil => simp at ht
    | cons t0 rest0 ih =>
      rw [placeFrom_cons] at hp
      cases i with
      | zero =>
        simp only [List.getElem?_cons_zero, Option.some.injEq] at hp ht
        subst hp ht
        exact ⟨rfl, rfl⟩
      | succ i =>
        simp only [List.getElem?_cons_succ] at hp ht
        exact ih _ i ht hp

/-- C30, at the sample day. -/
theorem createOptimizedSchedule_changes_only_times_witness :
    ∃ placements, _createOptimizedSchedule noHistory tenMinutes [taskB, taskA, taskC]
        = .ok placements ∧
      placements.length = [taskB, taskA, taskC].length ∧
      placements.map (fun p => p._id) = [taskB, taskA, taskC].map (fun t => t._id) ∧
      ∀ (i : Nat) (t p : Task), [taskB, taskA, taskC][i]? = some t → placements[i]? = some p →
        p = { t with startTime := p.startTime, endTime := p.endTime } ∧ p._id = t._id :=
  createOptimizedSchedule_changes_only_times noHistory tenMinutes [taskB, taskA, taskC] (by simp)

/-- C23 fails as stated: for the one-millisecond task with a history that
halves estimates the duration is half a millisecond, and the placement ends at
its start, 09:00, not at its start plus the duration. -/
theorem placement_end_is_truncated :
    _calculateOptimalDuration halfTimeHistory taskTiny = num (1 / 2) ∧
    _createOptimizedSchedule halfTimeHistory tenMinutes [taskTiny] =
      .ok [{ taskTiny with startTime := some (.valid (day0 + 32400000)),
                           endTime := some (.valid (day0 + 32400000)) }] ∧
    add (num ((day0 + 32400000 : Int) : ℚ)) (num (1 / 2)) ≠ num ((day0 + 32400000 : Int) : ℚ) := by
  have hf : _getUserPerformanceFactor (halfTimeHistory taskTiny.userId) = num (1 / 2) := by
    simp [_getUserPerformanceFactor, halfTimeHistory, actualToNumber, JsNum.div]
    norm_num
  have hc : _getComplexityFactor taskTiny = num 1 := by
    simp [_getComplexityFactor, countOf, lengthOf, JsNum.gt, taskTiny, Priority.toString]
    norm_num
  have hd : _calculateOptimalDuration halfTimeHistory taskTiny = num (1 / 2) := by
    simp only [_calculateOptimalDuration, hf, hc]
    simp [taskTiny]
    norm_num
  refine ⟨hd, end_equals_start_for_one_millisecond, ?_⟩
  simp

/-- C23, amended: the cursor recurrence holds with every date passed through
`new Date(...)`.  Placement 0 starts at the first task's `startTime`; placement
`i` ends at the date built from its start plus
`(endTime - startTime) * complexityFactor * userPerformanceFactor` of task `i`;
placement `i + 1` starts at the date built from the end of placement `i` plus
the break of tasks `i` and `i + 1`; a date built from a number is that number
truncated towards zero. -/
theorem createOptimizedSchedule_recurrence (history : String → Outcome (List Task))
    (travel : Location → Location → Outcome JsNum) (tasks : List Task) (first : Task)
    (hfirst : tasks.head? = some first) :
    ∃ placements, _createOptimizedSchedule history travel tasks = .ok placements ∧
      placements.length = tasks.length ∧
      (∃ p, placements[0]? = some p ∧ p.startTime = some (JsDate.ofField first.startTime)) ∧
      (∀ (i : Nat) (p : Task), placements[i]? = some p →
        ∃ t c, tasks[i]? = some t ∧ p.startTime = some c ∧
          p.endTime = some (JsDate.ofNumber (add c.getTime
            (mul (mul (sub (dateFieldToNumber t.endTime) (dateFieldToNumber t.startTime))
              (_getComplexityFactor t)) (_getUserPerformanceFactor (history t.userId)))))) ∧
      (∀ (i : Nat) (p p' : Task), placements[i]? = some p → placements[i + 1]? = some p' →
        ∃ t t', tasks[i]? = some t ∧ tasks[i + 1]? = some t' ∧
          p'.startTime = some (JsDate.ofNumber
            (add (dateFieldToNumber p.endTime) (_calculateBreakTime travel t t')))) ∧
      (∀ (x : JsNum) (ms : Int), JsDate.ofNumber x = .valid ms →
        ∃ q : ℚ, x = num q ∧ truncQ q = ms) ∧
      (∀ z : Int, |(z : ℚ)| ≤ maxTimeValue → JsDate.ofNumber (num z) = .valid z) := by
  cases tasks with
  | nil => simp at hfirst
  | cons t0 rest =>
    simp only [List.head?_cons, Option.some.injEq] at hfirst
    subst hfirst
    refine ⟨_, rfl, placeFrom_length _ _ _ _, ?_,
      fun i p hp => placeFrom_at _ _ _ _ i p hp,
      fun i p p' hp hp' => placeFrom_next _ _ _ _ i p p' hp hp',
      JsDate.ofNumber_eq_valid, JsDate.ofNumber_intCast⟩
    rw [placeFrom_cons]
    exact ⟨_, List.getElem?_cons_zero, rfl⟩

/-- C23, amended, at the sample day. -/
theorem createOptimizedSchedule_recurrence_witness :
    _createOptimizedSchedule noHistory tenMinutes [taskB, taskA, taskC] = .ok samplePlacements ∧
    ∃ placements, _createOptimizedSchedule noHistory tenMinutes [taskB, taskA, taskC]
        = .ok placements ∧
      placements.length = [taskB, taskA, taskC].length ∧
      (∃ p, placements[0]? = some p ∧ p.startTime = some (JsDate.ofField taskB.startTime)) ∧
      (∀ (i : Nat) (p : Task), placements[i]? = some p →
        ∃ t c, [taskB, taskA, taskC][i]? = some t ∧ p.startTime = some c ∧
          p.endTime = some (JsDate.ofNumber (add c.getTime
            (mul (mul (sub (dateFieldToNumber t.endTime) (dateFieldToNumber t.startTime))
              (_getComplexityFactor t)) (_getUserPerformanceFactor (noHistory t.userId)))))) ∧
      (∀ (i : Nat) (p p' : Task), placements[i]? = some p → placements[i + 1]? = some p' →
        ∃ t t', [taskB, taskA, taskC][i]? = some t ∧ [taskB, taskA, taskC][i + 1]? = some t' ∧
          p'.startTime = some (JsDate.ofNumber
            (add (dateFieldToNumber p.endTime) (_calculateBreakTime tenMinutes t t')))) ∧
      (∀ (x : JsNum) (ms : Int), JsDate.ofNumber x = .valid ms →
        ∃ q : ℚ, x = num q ∧ truncQ q = ms) ∧
      (∀ z : Int, |(z : ℚ)| ≤ maxTimeValue → JsDate.ofNumber (num z) = .valid z) :=
  ⟨sample_schedule,
    createOptimizedSchedule_recurrence noHistory tenMinutes [taskB, taskA, taskC] taskB rfl⟩

end TaskOptimizationService

/-! ## Priority scoring: bounds on the score -/

namespace TaskPriorityService

open JsNum

theorem computePriorityScore_four (d c i u : ℚ) :
    _computePriorityScore
      [("deadline", .number (num d)), ("complexity", .number (num c)),
       ("importance", .number (num i)), ("userPreference", .number (num u))]
      = num (0.4 * d + 0.2 * c + 0.3 * i + 0.1 * u) := by
  simp [_computePriorityScore, weights, JsVal.toNumber]
  ring

theorem calculateComplexityFactor_range (task : Task) :
    ∃ c : ℚ, _calculateComplexityFactor task = num c ∧ 0 ≤ c ∧ c ≤ 1 := by
  unfold _calculateComplexityFactor
  cases longerThan task.description 200 <;> cases nonEmpty task.subtasks <;>
    cases nonEmpty task.attachments <;> cases nonEmpty task.dependencies <;>
    simp <;> norm_num

theorem calculateDeadlineFactor_far (now : Int) (task : Task)
    (h : task.endTime = none ∨
      ∃ e : Int, task.endTime = some (.valid e) ∧ 3 ≤ ((e : ℚ) - now) / 86400000) :
    ∃ d : ℚ, _calculateDeadlineFactor now task = num d ∧ d ≤ 0.5 := by
  rcases h with h | ⟨e, h, hr⟩
  · exact ⟨0.5, by simp [_calculateDeadlineFactor, h], le_rfl⟩
  · have hd : (1000 * 60 * 60 * 24 : ℚ) = 86400000 := by norm_num
    have hne : (86400000 : ℚ) ≠ 0 := by norm_num
    have h0 : ¬ ((e : ℚ) - now) / 86400000 < 0 := not_lt.mpr (le_trans (by norm_num) hr)
    have h1 : ¬ ((e : ℚ) - now) / 86400000 < 1 := not_lt.mpr (le_trans (by norm_num) hr)
    have h3 : ¬ ((e : ℚ) - now) / 86400000 < 3 := not_lt.mpr hr
    simp only [_calculateDeadlineFactor, h, JsDate.copy, JsDate.getTime, sub_num, hd,
      div_num _ _ hne, lt_num]
    by_cases h7 : ((e : ℚ) - now) / 86400000 < 7
    · exact ⟨0.5, by simp [h0, h1, h3, h7], le_rfl⟩
    · exact ⟨0.3, by simp [h0, h1, h3, h7], by norm_num⟩

theorem specPriorityValue_sum_le (l : List Task) :
    (l.map fun t => specPriorityValue t.priority).sum ≤ 0.9 * l.length := by
  induction l with
  | nil => simp
  | cons t l ih =>
    have h : specPriorityValue t.priority ≤ 0.9 := by
      cases t.priority <;> simp [specPriorityValue] <;> norm_num
    simp only [List.map_cons, List.sum_cons, List.length_cons, Nat.cast_add, Nat.cast_one]
    linarith

theorem getUserPreferenceFactor_le (found : Outcome (List Task)) :
    ∃ u : ℚ, _getUserPreferenceFactor found = num u ∧ 0 ≤ u ∧ u ≤ 0.9 := by
  cases found with
  | error e => exact ⟨0.5, rfl, by norm_num, by norm_num⟩
  | ok l =>
    by_cases hne : l = []
    · subst hne
      exact ⟨0.5, by simp [_getUserPreferenceFactor], by norm_num, by norm_num⟩
    · have hlen : l.length ≠ 0 := by simpa using hne
      have hq : ((l.length : ℕ) : ℚ) ≠ 0 := by exact_mod_cast hlen
      have hpos : (0 : ℚ) < l.length := by
        have : 0 < l.length := List.length_pos.mpr hne
        exact_mod_cast this
      refine ⟨(l.map fun t => specPriorityValue t.priority).sum / l.length, ?_, ?_, ?_⟩
      · simp only [_getUserPreferenceFactor, hlen, if_false, foldl_priorityValue, zero_add]
        exact div_num _ _ hq
      · exact div_nonneg (specPriorityValue_sum_bounds l).1 hpos.le
      · rw [div_le_iff₀ hpos]
        exact specPriorityValue_sum_le l

theorem mapPriorityToLevel_below (q : ℚ) (h : q < 0.8) :
    _mapPriorityToLevel (num q) = "medium" ∨ _mapPriorityToLevel (num q) = "low" := by
  unfold _mapPriorityToLevel
  by_cases h2 : (0.4 : ℚ) ≤ q
  · left; simp [not_le.mpr h, h2]
  · right; simp [not_le.mpr h, h2]

/-- C27: for a task whose deadline is absent or at least 3 days away, every
importance factor in `[0, 1]` and every outcome of the history lookup, the
weighted score is at most 0.79, and `calculateTaskPriority` answers medium or
low whatever the ML service and the store do. -/
theorem far_deadline_never_high (now : Int) (task : Task)
    (hdeadline : task.endTime = none ∨
      ∃ e : Int, task.endTime = some (.valid e) ∧ 3 ≤ ((e : ℚ) - now) / 86400000) :
    (∀ (i : ℚ) (found : Outcome (List Task)), 0 ≤ i → i ≤ 1 →
      ∃ q : ℚ, _computePriorityScore
          [("deadline", .number (_calculateDeadlineFactor now task)),
           ("complexity", .number (_calculateComplexityFactor task)),
           ("importance", .number (num i)),
           ("userPreference", .number (_getUserPreferenceFactor found))] = num q ∧
        q ≤ 0.79 ∧
        (_mapPriorityToLevel (num q) = "medium" ∨ _mapPriorityToLevel (num q) = "low")) ∧
    (∀ (ml : MLService.State) (recentCompleted : String → Outcome (List Task)),
      calculateTaskPriority now ml recentCompleted task = .ok "medium" ∨
      calculateTaskPriority now ml recentCompleted task = .ok "low") := by
  obtain ⟨d, hd, hd1⟩ := calculateDeadlineFactor_far now task hdeadline
  obtain ⟨c, hc, hc0, hc1⟩ := calculateComplexityFactor_range task
  have hscore : ∀ (i : ℚ) (found : Outcome (List Task)), 0 ≤ i → i ≤ 1 →
      ∃ q : ℚ, _computePriorityScore
          [("deadline", .number (_calculateDeadlineFactor now task)),
           ("complexity", .number (_calculateComplexityFactor task)),
           ("importance", .number (num i)),
           ("userPreference", .number (_getUserPreferenceFactor found))] = num q ∧
        q ≤ 0.79 ∧
        (_mapPriorityToLevel (num q) = "medium" ∨ _mapPriorityToLevel (num q) = "low") := by
    intro i found hi0 hi1
    obtain ⟨u, hu, hu0, hu1⟩ := getUserPreferenceFactor_le found
    have hq : 0.4 * d + 0.2 * c + 0.3 * i + 0.1 * u ≤ 0.79 := by
      norm_num at hd1 hu1 ⊢
      linarith
    refine ⟨_, by rw [hd, hc, hu, computePriorityScore_four], hq, ?_⟩
    exact mapPriorityToLevel_below _ (lt_of_le_of_lt hq (by norm_num))
  refine ⟨hscore, fun ml recentCompleted => ?_⟩
  have hrun : calculateTaskPriority now ml recentCompleted task =
      .ok (_mapPriorityToLevel (_computePriorityScore
        (priorityFactors now ml recentCompleted task))) := rfl
  rw [hrun]
  cases himp : _calculateImportanceFactor ml task with
  | undefined =>
    right
    have : _computePriorityScore (priorityFactors now ml recentCompleted task) = nan := by
      simp [_computePriorityScore, priorityFactors, himp, JsVal.toNumber]
    rw [this]
    rfl
  | number x =>
    have hx : x = num 0.5 := by
      unfold _calculateImportanceFactor at himp
      split at himp
      · simpa using himp.symm
      · split at himp
        · simpa using himp.symm
        · simp at himp
    obtain ⟨q, hq, -, hl⟩ := hscore 0.5 (recentCompleted task.userId) (by norm_num) (by norm_num)
    have : _computePriorityScore (priorityFactors now ml recentCompleted task) = num q := by
      rw [← hq]
      simp [priorityFactors, himp, hx]
    rw [this]
    rcases hl with hl | hl
    · left; rw [hl]
    · right; rw [hl]

/-- C27, at the open task (no deadline) on the sample day. -/
theorem far_deadline_never_high_witness :
    (∀ (i : ℚ) (found : Outcome (List Task)), 0 ≤ i → i ≤ 1 →
      ∃ q : ℚ, _computePriorityScore
          [("deadline", .number (_calculateDeadlineFactor day0 taskOpen)),
           ("complexity", .number (_calculateComplexityFactor taskOpen)),
           ("importance", .number (num i)),
           ("userPreference", .number (_getUserPreferenceFactor found))] = num q ∧
        q ≤ 0.79 ∧
        (_mapPriorityToLevel (num q) = "medium" ∨ _mapPriorityToLevel (num q) = "low")) ∧
    (∀ (ml : MLService.State) (recentCompleted : String → Outcome (List Task)),
      calculateTaskPriority day0 ml recentCompleted taskOpen = .ok "medium" ∨
      calculateTaskPriority day0 ml recentCompleted taskOpen = .ok "low") :=
  far_deadline_never_high day0 taskOpen (Or.inl rfl)

end TaskPriorityService

/-! ## Write-back to the store -/

namespace TaskOptimizationService

open JsNum

theorem updateFirst_ids (id : String) (u : Update) (documents : List Task) :
    (updateFirst id u documents).map (fun d => d._id) = documents.map (fun d => d._id) := by
  induction documents with
  | nil => rfl
  | cons d rest ih =>
    unfold updateFirst
    split_ifs with h
    · simp
    · simp [ih]

theorem updateFirst_optimized (id : String) (u : Update) (documents : List Task) :
    (updateFirst id u documents).map (fun d => d.optimized) =
      documents.map (fun d => d.optimized) := by
  induction documents with
  | nil => rfl
  | cons d rest ih =>
    unfold updateFirst
    split_ifs with h
    · simp
    · simp [ih]

/-- The write-back, placement by placement: it succeeds exactly when every
date can be cast, and it keeps the `_id` and the `optimized` value of every
stored document. -/
theorem updateTaskSchedules_fold (schedule : List Task) :
    ∀ (documents : List Task) (res : Outcome Unit),
      let fin := schedule.foldl
        (fun acc task =>
          match findByIdAndUpdate acc.1 task._id
              { startTime := task.startTime, endTime := task.endTime, optimized := true } with
          | (documents', .ok _) => (documents', acc.2)
          | (documents', .error e) =>
            (documents', match acc.2 with
              | .ok _ => .error e
              | .error e0 => .error e0))
        (documents, res)
      (fin.2 = .ok () ↔ res = .ok () ∧
        ∀ p ∈ schedule, castsToDate p.startTime = true ∧ castsToDate p.endTime = true) ∧
      fin.1.map (fun d => d._id) = documents.map (fun d => d._id) ∧
      fin.1.map (fun d => d.optimized) = documents.map (fun d => d.optimized) := by
  induction schedule with
  | nil =>
    intro documents res
    simp
  | cons p rest ih =>
    intro documents res
    simp only [List.foldl_cons]
    by_cases hc : (castsToDate p.startTime && castsToDate p.endTime) = true
    · have hstep : findByIdAndUpdate documents p._id
          { startTime := p.startTime, endTime := p.endTime, optimized := true } =
          (updateFirst p._id
            { startTime := p.startTime, endTime := p.endTime, optimized := true } documents,
            .ok ()) := by
        simp [findByIdAndUpdate, hc]
      simp only [hstep]
      obtain ⟨h1, h2, h3⟩ := ih (updateFirst p._id
        { startTime := p.startTime, endTime := p.endTime, optimized := true } documents) res
      have hc' : castsToDate p.startTime = true ∧ castsToDate p.endTime = true := by
        simpa using hc
      refine ⟨?_, ?_, ?_⟩
      · rw [h1]
        constructor
        · rintro ⟨hr, hall⟩
          exact ⟨hr, fun q hq => by
            rcases List.mem_cons.mp hq with rfl | hq
            · exact hc'
            · exact hall q hq⟩
        · rintro ⟨hr, hall⟩
          exact ⟨hr, fun q hq => hall q (List.mem_cons_of_mem _ hq)⟩
      · rw [h2, updateFirst_ids]
      · rw [h3, updateFirst_optimized]
    · have hstep : findByIdAndUpdate documents p._id
          { startTime := p.startTime, endTime := p.endTime, optimized := true } =
          (documents, .error "CastError: Cast to date failed") := by
        simp [findByIdAndUpdate, hc]
      simp only [hstep]
      obtain ⟨h1, h2, h3⟩ := ih documents
        (match res with
          | .ok _ => .error "CastError: Cast to date failed"
          | .error e0 => .error e0)
      have hbad : ¬ ((match res with
          | .ok _ => (.error "CastError: Cast to date failed" : Outcome Unit)
          | .error e0 => .error e0) = .ok ()) := by
        cases res <;> simp
      have hfin : ¬ _ := fun h => hbad (h1.mp h).1
      refine ⟨?_, h2, h3⟩
      constructor
      · intro h
        exact absurd h hfin
      · rintro ⟨-, hall⟩
        have := hall p (List.mem_cons_self _ _)
        simp [this.1, this.2] at hc

theorem updateTaskSchedules_spec (documents schedule : List Task) :
    ((_updateTaskSchedules documents schedule).2 = .ok () ↔
      ∀ p ∈ schedule, castsToDate p.startTime = true ∧ castsToDate p.endTime = true) ∧
    (_updateTaskSchedules documents schedule).1.map (fun d => d._id)
      = documents.map (fun d => d._id) ∧
    (_updateTaskSchedules documents schedule).1.map (fun d => d.optimized)
      = documents.map (fun d => d.optimized) := by
  obtain ⟨h1, h2, h3⟩ := updateTaskSchedules_fold schedule documents (.ok ())
  exact ⟨by simpa using h1, h2, h3⟩

/-- The value and the store of `optimizeTaskSchedule` when the query finds tasks. -/
theorem optimizeTaskSchedule_eq (documents : List Task)
    (setHours : Int → Int → Int → Int → Int → Int)
    (history : String → Outcome (List Task)) (travel : Location → Location → Outcome JsNum)
    (userId : String) (date : Int) (schedule : List Task)
    (hne : _getTasksForDate documents setHours userId date ≠ [])
    (hrun : _createOptimizedSchedule history travel
      (_getTasksForDate documents setHours userId date) = .ok schedule) :
    optimizeTaskSchedule documents setHours history travel userId date =
      ((_updateTaskSchedules documents schedule).1,
        match (_updateTaskSchedules documents schedule).2 with
        | .ok _ => .ok schedule
        | .error e => .error e) := by
  have hlen : (_getTasksForDate documents setHours userId date).length ≠ 0 := by
    simpa using hne
  simp only [optimizeTaskSchedule, hlen, if_false, hrun]
  rcases hU : _updateTaskSchedules documents schedule with ⟨docs', res⟩
  cases res <;> rfl

theorem getTasksForDate_subset (documents : List Task)
    (setHours : Int → Int → Int → Int → Int → Int) (userId : String) (date : Int) (t : Task)
    (h : t ∈ _getTasksForDate documents setHours userId date) : t ∈ documents := by
  unfold _getTasksForDate at h
  have := (List.perm_insertionSort sortLe _).mem_iff.mp h
  exact (List.mem_filter.mp this).1

theorem placeFrom_optimized_flag (history : String → Outcome (List Task))
    (travel : Location → Location → Outcome JsNum) (tasks : List Task) (cur : JsDate)
    (i : Nat) (t p : Task) (ht : tasks[i]? = some t)
    (hp : (placeFrom history travel cur tasks)[i]? = some p) :
    p.optimized = t.optimized ∧ p._id = t._id := by
  induction tasks generalizing cur i with
  | nil => simp at ht
  | cons t0 rest ih =>
    rw [placeFrom_cons] at hp
    cases i with
    | zero =>
      simp only [List.getElem?_cons_zero, Option.some.injEq] at hp ht
      subst hp ht
      exact ⟨rfl, rfl⟩
    | succ i =>
      simp only [List.getElem?_cons_succ] at hp ht
      exact ih _ i ht hp

/-- C13 fails as stated: on the sample day the call resolves to the three
placements, none of which carries a tag; no stored document carries one
either. -/
theorem returned_placements_carry_no_tag :
    (optimizeTaskSchedule [taskA, taskB, taskC] utcSetHours noHistory tenMinutes "u1"
      (day0 + 5000)).2 = .ok samplePlacements ∧
    (∀ p ∈ samplePlacements, p.optimized = none) ∧
    (optimizeTaskSchedule [taskA, taskB, taskC] utcSetHours noHistory tenMinutes "u1"
      (day0 + 5000)).1.map (fun d => (d._id, d.optimized)) =
        [("A", none), ("B", none), ("C", none)] := by
  have hq : _getTasksForDate [taskA, taskB, taskC] utcSetHours "u1" (day0 + 5000)
      = [taskB, taskA, taskC] := by decide
  have hrun := optimizeTaskSchedule_eq [taskA, taskB, taskC] utcSetHours noHistory tenMinutes
    "u1" (day0 + 5000) samplePlacements (by rw [hq]; simp) (by rw [hq]; exact sample_schedule)
  rw [hrun]
  refine ⟨rfl, by decide, by decide⟩

/-- C13, amended: the call tags no placement.  Whenever it resolves to a list
of placements, that list has one placement per task read, and each placement
carries the `optimized` value and the `_id` its task had when it was read; the
call resolves to the placements whenever all their dates are valid. -/
theorem optimizeTaskSchedule_sets_no_tag (documents : List Task)
    (setHours : Int → Int → Int → Int → Int → Int)
    (history : String → Outcome (List Task)) (travel : Location → Location → Outcome JsNum)
    (userId : String) (date : Int) :
    (∀ schedule, _getTasksForDate documents setHours userId date ≠ [] →
      _createOptimizedSchedule history travel (_getTasksForDate documents setHours userId date)
        = .ok schedule →
      (∀ p ∈ schedule, castsToDate p.startTime = true ∧ castsToDate p.endTime = true) →
      (optimizeTaskSchedule documents setHours history travel userId date).2 = .ok schedule) ∧
    (∀ placements,
      (optimizeTaskSchedule documents setHours history travel userId date).2 = .ok placements →
      placements.length = (_getTasksForDate documents setHours userId date).length ∧
      (∀ (i : Nat) (t p : Task),
        (_getTasksForDate documents setHours userId date)[i]? = some t →
        placements[i]? = some p → p.optimized = t.optimized ∧ p._id = t._id)) := by
  constructor
  · intro schedule hne hrun hcast
    rw [optimizeTaskSchedule_eq _ _ _ _ _ _ schedule hne hrun]
    have := (updateTaskSchedules_spec documents schedule).1.mpr hcast
    simp only [this]
  · intro placements hres
    by_cases hne : _getTasksForDate documents setHours userId date = []
    · have hlen : (_getTasksForDate documents setHours userId date).length = 0 := by
        simp [hne]
      simp only [optimizeTaskSchedule, hlen, if_true, Except.ok.injEq] at hres
      subst hres
      simp [hne]
    · obtain ⟨first, rest, hcons⟩ := List.exists_cons_of_ne_nil hne
      have hrun : _createOptimizedSchedule history travel
          (_getTasksForDate documents setHours userId date) =
            .ok (placeFrom history travel (JsDate.ofField first.startTime)
              (_getTasksForDate documents setHours userId date)) := by
        rw [hcons]
        rfl
      rw [optimizeTaskSchedule_eq _ _ _ _ _ _ _ hne hrun] at hres
      cases hU : (_updateTaskSchedules documents
        (placeFrom history travel (JsDate.ofField first.startTime)
          (_getTasksForDate documents setHours userId date))).2 with
      | error e => simp [hU] at hres
      | ok u =>
        simp only [hU, Except.ok.injEq] at hres
        subst hres
        refine ⟨placeFrom_length _ _ _ _, ?_⟩
        intro i t p ht hp
        exact placeFrom_optimized_flag _ _ _ _ i t p ht hp

/-- C13, amended, at the sample day. -/
theorem optimizeTaskSchedule_sets_no_tag_witness :
    (optimizeTaskSchedule [taskA, taskB, taskC] utcSetHours noHistory tenMinutes "u1"
      (day0 + 5000)).2 = .ok samplePlacements ∧
    samplePlacements.length =
      (_getTasksForDate [taskA, taskB, taskC] utcSetHours "u1" (day0 + 5000)).length ∧
    (∀ (i : Nat) (t p : Task),
      (_getTasksForDate [taskA, taskB, taskC] utcSetHours "u1" (day0 + 5000))[i]? = some t →
      samplePlacements[i]? = some p → p.optimized = t.optimized ∧ p._id = t._id) := by
  have hq : _getTasksForDate [taskA, taskB, taskC] utcSetHours "u1" (day0 + 5000)
      = [taskB, taskA, taskC] := by decide
  have hok := (optimizeTaskSchedule_sets_no_tag [taskA, taskB, taskC] utcSetHours noHistory
    tenMinutes "u1" (day0 + 5000)).1 samplePlacements (by rw [hq]; simp)
    (by rw [hq]; exact sample_schedule) (by decide)
  exact ⟨hok, (optimizeTaskSchedule_sets_no_tag [taskA, taskB, taskC] utcSetHours noHistory
    tenMinutes "u1" (day0 + 5000)).2 samplePlacements hok⟩

theorem abs_truncQ_le (q : ℚ) : |((truncQ q : Int) : ℚ)| ≤ |q| := by
  unfold truncQ
  split_ifs with h
  · have h0 : (0 : ℚ) ≤ ((⌊q⌋ : Int) : ℚ) := by exact_mod_cast Int.floor_nonneg.mpr h
    rw [abs_of_nonneg h0, abs_of_nonneg h]
    exact Int.floor_le q
  · have hq : q < 0 := not_le.mp h
    have h0 : ((⌈q⌉ : Int) : ℚ) ≤ 0 := by
      have : ⌈q⌉ ≤ 0 := Int.ceil_le.mpr (by simpa using hq.le)
      exact_mod_cast this
    rw [abs_of_nonpos h0, abs_of_neg hq]
    linarith [Int.le_ceil q]

/-- A date rebuilt from its own time value is the same date. -/
theorem JsDate.ofNumber_of_valid (x : JsNum) (e : Int) (h : JsDate.ofNumber x = .valid e) :
    JsDate.ofNumber (num e) = .valid e := by
  cases x with
  | num q =>
    simp only [JsDate.ofNumber] at h
    split_ifs at h with hq
    simp only [JsDate.valid.injEq] at h
    subst h
    exact JsDate.ofNumber_intCast _ (le_trans (abs_truncQ_le q) hq)
  | posInf => simp [JsDate.ofNumber] at h
  | negInf => simp [JsDate.ofNumber] at h
  | nan => simp [JsDate.ofNumber] at h

theorem castsToDate_eq_true (d : Option JsDate) (h : castsToDate d = true) :
    ∃ ms : Int, d = some (.valid ms) := by
  cases d with
  | none => simp [castsToDate] at h
  | some x =>
    cases x with
    | valid ms => exact ⟨ms, rfl⟩
    | invalid => simp [castsToDate] at h

/-- Placing again the output of a placement run reproduces it, when the two
duration factors of every task multiply to 1 and all placed dates are valid. -/
theorem placeFrom_rerun (history : String → Outcome (List Task))
    (travel : Location → Location → Outcome JsNum) (tasks : List Task) (cur : JsDate)
    (hmult : ∀ t ∈ tasks, ∃ c f : ℚ, _getComplexityFactor t = num c ∧
      _getUserPerformanceFactor (history t.userId) = num f ∧ c * f = 1)
    (hvalid : ∀ p ∈ placeFrom history travel cur tasks,
      castsToDate p.startTime = true ∧ castsToDate p.endTime = true) :
    placeFrom history travel cur (placeFrom history travel cur tasks) =
      placeFrom history travel cur tasks := by
  induction tasks generalizing cur with
  | nil => rfl
  | cons t rest ih =>
    obtain ⟨c, f, hc, hf, hcf⟩ := hmult t (List.mem_cons_self _ _)
    rw [placeFrom_cons] at hvalid ⊢
    generalize hE : JsDate.ofNumber (add cur.getTime (_calculateOptimalDuration history t)) = E
      at hvalid ⊢
    obtain ⟨hcs, hce⟩ := hvalid _ (List.mem_cons_self _ _)
    obtain ⟨s, hs⟩ := castsToDate_eq_true _ hcs
    obtain ⟨e, he⟩ := castsToDate_eq_true _ hce
    simp only [Option.some.injEq] at hs he
    clear hcs hce
    subst hs he
    have hdur : _calculateOptimalDuration history
        { t with
          startTime := some (JsDate.valid s)
          endTime := some (JsDate.valid e) } = num ((e : ℚ) - s) := by
      show mul (mul (sub (num e) (num s)) (_getComplexityFactor t))
        (_getUserPerformanceFactor (history t.userId)) = _
      rw [hc, hf, sub_num, mul_num, mul_num, mul_assoc, hcf, mul_one]
    have hend : JsDate.ofNumber (add (JsDate.valid s).getTime (num ((e : ℚ) - s))) =
        JsDate.valid e := by
      have : (s : ℚ) + ((e : ℚ) - s) = e := by ring
      rw [JsDate.getTime_valid, add_num, this]
      exact JsDate.ofNumber_of_valid _ _ hE
    have hbreak : ∀ (x : JsDate) (l : List Task),
        (match (placeFrom history travel x l).head? with
          | some nextTask => _calculateBreakTime travel
              { t with
                startTime := some (JsDate.valid s)
                endTime := some (JsDate.valid e) }
              nextTask
          | none => num 0) =
        (match l.head? with
          | some nextTask => _calculateBreakTime travel t nextTask
          | none => num 0) := by
      intro x l
      cases l with
      | nil => rfl
      | cons t1 l1 => rfl
    rw [placeFrom_cons, hdur, hend, hbreak]
    congr 1
    exact ih _ (fun t' ht' => hmult t' (List.mem_cons_of_mem _ ht'))
      (fun p hp => hvalid p (List.mem_cons_of_mem _ hp))

theorem schedule_of_taskA :
    _createOptimizedSchedule noHistory tenMinutes [taskA] =
      .ok [{ taskA with startTime := some (.valid (day0 + 32400000)),
                        endTime := some (.valid (day0 + 36720000)) }] := by
  have hA : _calculateOptimalDuration noHistory taskA = num ((4320000 : Int) : ℚ) := by
    simp [_calculateOptimalDuration, _getUserPerformanceFactor, noHistory, _getComplexityFactor,
      countOf, lengthOf, JsNum.gt, taskA, Priority.toString, day0]
    norm_num
  have s0 : JsDate.ofField taskA.startTime = .valid (day0 + 32400000) := rfl
  simp only [_createOptimizedSchedule, placeFrom_cons, placeFrom, hA, pure, Except.pure, s0,
    JsDate.getTime_valid]
  rw [JsDate.ofNumber_advance (day0 + 32400000) 4320000 (by simp [day0, maxTimeValue]; norm_num)]
  rfl

theorem schedule_of_taskAPlaced :
    _createOptimizedSchedule noHistory tenMinutes [taskAPlaced] =
      .ok [{ taskAPlaced with endTime := some (.valid (day0 + 37584000)) }] := by
  have hA : _calculateOptimalDuration noHistory taskAPlaced = num ((5184000 : Int) : ℚ) := by
    simp [_calculateOptimalDuration, _getUserPerformanceFactor, noHistory, _getComplexityFactor,
      countOf, lengthOf, JsNum.gt, taskAPlaced, taskA, Priority.toString, day0]
    norm_num
  have s0 : JsDate.ofField taskAPlaced.startTime = .valid (day0 + 32400000) := rfl
  simp only [_createOptimizedSchedule, placeFrom_cons, placeFrom, hA, pure, Except.pure, s0,
    JsDate.getTime_valid]
  rw [JsDate.ofNumber_advance (day0 + 32400000) 5184000 (by simp [day0, maxTimeValue]; norm_num)]
  rfl

/-- C14 fails as stated: with task A alone on the sample day and fixed
oracles, the first call places A from 09:00 to 10:12 and writes that back; the
second call, on the written-back store, places A from 09:00 to 10:26:24. -/
theorem second_call_moves_the_end :
    optimizeTaskSchedule [taskA] utcSetHours noHistory tenMinutes "u1" (day0 + 5000) =
      ([taskAPlaced],
        .ok [{ taskA with startTime := some (.valid (day0 + 32400000)),
                          endTime := some (.valid (day0 + 36720000)) }]) ∧
    optimizeTaskSchedule [taskAPlaced] utcSetHours noHistory tenMinutes "u1" (day0 + 5000) =
      ([{ taskAPlaced with endTime := some (.valid (day0 + 37584000)) }],
        .ok [{ taskAPlaced with endTime := some (.valid (day0 + 37584000)) }]) ∧
    JsDate.valid (day0 + 36720000) ≠ JsDate.valid (day0 + 37584000) := by
  have hq1 : _getTasksForDate [taskA] utcSetHours "u1" (day0 + 5000) = [taskA] := by decide
  have hq2 : _getTasksForDate [taskAPlaced] utcSetHours "u1" (day0 + 5000) = [taskAPlaced] := by
    decide
  refine ⟨?_, ?_, by decide⟩
  · rw [optimizeTaskSchedule_eq [taskA] utcSetHours noHistory tenMinutes "u1" (day0 + 5000) _
      (by rw [hq1]; simp) (by rw [hq1]; exact schedule_of_taskA)]
    rfl
  · rw [optimizeTaskSchedule_eq [taskAPlaced] utcSetHours noHistory tenMinutes "u1" (day0 + 5000) _
      (by rw [hq2]; simp) (by rw [hq2]; exact schedule_of_taskAPlaced)]
    rfl

/-- C14, amended: when the first call resolves to its placements, the two
duration factors of every placed task multiply to 1, and the query of the
second call returns the written-back tasks in the same order, the second call
resolves to the same placements: same `_id`, start and end for every task. -/
theorem optimizeTaskSchedule_rerun (documents documents1 placements : List Task)
    (setHours : Int → Int → Int → Int → Int → Int)
    (history : String → Outcome (List Task)) (travel : Location → Location → Outcome JsNum)
    (userId : String) (date : Int)
    (hfirst : optimizeTaskSchedule documents setHours history travel userId date =
      (documents1, .ok placements))
    (hmult : ∀ t ∈ _getTasksForDate documents setHours userId date, ∃ c f : ℚ,
      _getComplexityFactor t = num c ∧ _getUserPerformanceFactor (history t.userId) = num f ∧
        c * f = 1)
    (hsame : _getTasksForDate documents1 setHours userId date = placements) :
    ∃ placements2,
      (optimizeTaskSchedule documents1 setHours history travel userId date).2 = .ok placements2 ∧
      placements2.length = placements.length ∧
      ∀ (i : Nat) (p p2 : Task), placements[i]? = some p → placements2[i]? = some p2 →
        p2._id = p._id ∧ p2.startTime = p.startTime ∧ p2.endTime = p.endTime := by
  refine ⟨placements, ?_, rfl, ?_⟩
  · by_cases hne : _getTasksForDate documents setHours userId date = []
    · have hlen : (_getTasksForDate documents setHours userId date).length = 0 := by
        simp [hne]
      simp only [optimizeTaskSchedule, hlen, if_true, Prod.mk.injEq, Except.ok.injEq] at hfirst
      obtain ⟨-, hp⟩ := hfirst
      subst hp
      have hlen2 : (_getTasksForDate documents1 setHours userId date).length = 0 := by
        simp [hsame]
      simp [optimizeTaskSchedule, hlen2]
    · obtain ⟨first, rest, hcons⟩ := List.exists_cons_of_ne_nil hne
      have hrun : _createOptimizedSchedule history travel
          (_getTasksForDate documents setHours userId date) =
            .ok (placeFrom history travel (JsDate.ofField first.startTime)
              (_getTasksForDate documents setHours userId date)) := by
        rw [hcons]
        rfl
      rw [optimizeTaskSchedule_eq _ _ _ _ _ _ _ hne hrun] at hfirst
      simp only [Prod.mk.injEq] at hfirst
      obtain ⟨-, hres⟩ := hfirst
      cases hU : (_updateTaskSchedules documents
        (placeFrom history travel (JsDate.ofField first.startTime)
          (_getTasksForDate documents setHours userId date))).2 with
      | error e => simp [hU] at hres
      | ok u =>
        simp only [hU, Except.ok.injEq] at hres
        have hcast := (updateTaskSchedules_spec documents _).1.mp hU
        rw [hres] at hcast
        have hfix := placeFrom_rerun history travel _ (JsDate.ofField first.startTime) hmult
          (by rw [hres]; exact hcast)
        rw [hres] at hfix
        have hne2 : _getTasksForDate documents1 setHours userId date ≠ [] := by
          rw [hsame, ← hres, hcons, placeFrom_cons]
          simp
        have hrun2 : _createOptimizedSchedule history travel
            (_getTasksForDate documents1 setHours userId date) = .ok placements := by
          rw [hsame]
          conv_rhs => rw [← hfix]
          rw [← hres, hcons, placeFrom_cons]
          rfl
        rw [optimizeTaskSchedule_eq _ _ _ _ _ _ _ hne2 hrun2]
        have := (updateTaskSchedules_spec documents1 placements).1.mpr hcast
        simp only [this]
  · intro i p p2 hp hp2
    rw [hp] at hp2
    simp only [Option.some.injEq] at hp2
    subst hp2
    exact ⟨rfl, rfl, rfl⟩

theorem quiet_schedule :
    _createOptimizedSchedule noHistory tenMinutes [taskB, taskD] = .ok quietPlacements := by
  have hB : _calculateOptimalDuration noHistory taskB = num ((3600000 : Int) : ℚ) := by
    simp [_calculateOptimalDuration, _getUserPerformanceFactor, noHistory, _getComplexityFactor,
      countOf, lengthOf, JsNum.gt, taskB, Priority.toString, day0]
    norm_num
  have hD : _calculateOptimalDuration noHistory taskD = num ((3600000 : Int) : ℚ) := by
    simp [_calculateOptimalDuration, _getUserPerformanceFactor, noHistory, _getComplexityFactor,
      countOf, lengthOf, JsNum.gt, taskD, Priority.toString, day0]
    norm_num
  have hBD : _calculateBreakTime tenMinutes taskB taskD = num ((900000 : Int) : ℚ) := by
    simp [_calculateBreakTime, taskB, breakTimes, orElse, truthy]
    norm_num
  have s0 : JsDate.ofField taskB.startTime = .valid (day0 + 32400000) := rfl
  simp only [_createOptimizedSchedule, placeFrom_cons, placeFrom, List.head?_cons, hB, hD,
    hBD, pure, Except.pure, s0, JsDate.getTime_valid]
  rw [JsDate.ofNumber_advance (day0 + 32400000) 3600000 (by simp [day0, maxTimeValue]; norm_num)]
  simp only [JsDate.getTime_valid, dateFieldToNumber_some, JsDate.copy]
  rw [JsDate.ofNumber_advance (day0 + 32400000 + 3600000) 900000
    (by simp [day0, maxTimeValue]; norm_num)]
  simp only [JsDate.getTime_valid, dateFieldToNumber_some, JsDate.copy]
  rw [JsDate.ofNumber_advance (day0 + 32400000 + 3600000 + 900000) 3600000
    (by simp [day0, maxTimeValue]; norm_num)]
  rfl

theorem quiet_factors : ∀ t ∈ [taskB, taskD], ∃ c f : ℚ,
    _getComplexityFactor t = num c ∧ _getUserPerformanceFactor (noHistory t.userId) = num f ∧
      c * f = 1 := by
  intro t ht
  have hf : _getUserPerformanceFactor (noHistory t.userId) = num 1 := by
    simp [_getUserPerformanceFactor, noHistory]
  simp only [List.mem_cons, List.mem_singleton, List.not_mem_nil, or_false] at ht
  rcases ht with rfl | rfl
  · refine ⟨1, 1, ?_, hf, by norm_num⟩
    simp [_getComplexityFactor, countOf, lengthOf, JsNum.gt, taskB, Priority.toString]
    norm_num
  · refine ⟨1, 1, ?_, hf, by norm_num⟩
    simp [_getComplexityFactor, countOf, lengthOf, JsNum.gt, taskD, Priority.toString]
    norm_num

/-- C14, amended, at a day holding the medium tasks D and B: the first call
places B 09:00 to 10:00 and D 10:15 to 11:15, and the second call resolves to
the same times. -/
theorem optimizeTaskSchedule_rerun_witness :
    optimizeTaskSchedule [taskD, taskB] utcSetHours noHistory tenMinutes "u1" (day0 + 5000) =
      ([taskDPlaced, taskB], .ok quietPlacements) ∧
    ∃ placements2,
      (optimizeTaskSchedule [taskDPlaced, taskB] utcSetHours noHistory tenMinutes "u1"
        (day0 + 5000)).2 = .ok placements2 ∧
      placements2.length = quietPlacements.length ∧
      ∀ (i : Nat) (p p2 : Task), quietPlacements[i]? = some p → placements2[i]? = some p2 →
        p2._id = p._id ∧ p2.startTime = p.startTime ∧ p2.endTime = p.endTime := by
  have hq : _getTasksForDate [taskD, taskB] utcSetHours "u1" (day0 + 5000) = [taskB, taskD] := by
    decide
  have hfirst : optimizeTaskSchedule [taskD, taskB] utcSetHours noHistory tenMinutes "u1"
      (day0 + 5000) = ([taskDPlaced, taskB], .ok quietPlacements) := by
    rw [optimizeTaskSchedule_eq [taskD, taskB] utcSetHours noHistory tenMinutes "u1"
      (day0 + 5000) _ (by rw [hq]; simp) (by rw [hq]; exact quiet_schedule)]
    rfl
  exact ⟨hfirst, optimizeTaskSchedule_rerun _ _ _ utcSetHours noHistory tenMinutes "u1"
    (day0 + 5000) hfirst (by rw [hq]; exact quiet_factors) (by decide)⟩

end TaskOptimizationService

/-! ## The job registry -/

namespace TaskSchedulerService

theorem scheduleTask_eq (s : Scheduler) (task : Task) :
    scheduleTask s task = .ok (afterSchedule s task) := rfl

theorem cancelTaskSchedule_eq (s : Scheduler) (taskId : String) :
    cancelTaskSchedule s taskId = .ok (afterCancel s taskId) := rfl

theorem rescheduleTask_eq (s : Scheduler) (task : Task) :
    rescheduleTask s task = .ok (afterSchedule (afterCancel s task._id) task) := rfl

/-- The start job that `scheduleTask` creates for a task. -/
theorem afterSchedule_timers (s : Scheduler) (task : Task) :
    (afterSchedule s task).timers =
      s.timers ++
        ({ id := s.timers.length, taskId := task._id, kind := .start, dueAt := task.startTime,
           state := .pending } ::
          (match task.endTime with
            | some endTime =>
              [{ id := s.timers.length + 1, taskId := task._id, kind := .due,
                 dueAt := some endTime, state := .pending }]
            | none => [])) := by
  unfold afterSchedule scheduleJob
  cases task.endTime <;> simp

theorem afterSchedule_jobs (s : Scheduler) (task : Task) :
    (afterSchedule s task).jobs =
      mapSet
        (match task.endTime with
          | some _ => mapSet s.jobs task._id .due (s.timers.length + 1)
          | none => s.jobs)
        task._id .start s.timers.length := by
  unfold afterSchedule scheduleJob
  cases task.endTime <;> simp

theorem afterSchedule_log (s : Scheduler) (task : Task) :
    (afterSchedule s task).log = s.log := by
  unfold afterSchedule scheduleJob
  cases task.endTime <;> rfl

theorem afterCancel_jobs (s : Scheduler) (taskId : String) :
    (afterCancel s taskId).jobs =
      fun i k => if i = taskId then none else s.jobs i k := by
  unfold afterCancel
  funext i k
  cases h1 : s.jobs taskId .start <;> cases h2 : s.jobs taskId .due <;>
    cases k <;> by_cases hi : i = taskId <;> simp [mapDelete, hi, h1, h2]

theorem afterCancel_log (s : Scheduler) (taskId : String) :
    (afterCancel s taskId).log = s.log := by
  unfold afterCancel
  cases s.jobs taskId .start <;> cases s.jobs taskId .due <;> rfl

/-- The jobs after `cancelTaskSchedule`: the ones found under the two keys are
cancelled if they were pending; all others are as before. -/
theorem afterCancel_timers (s : Scheduler) (taskId : String) :
    (afterCancel s taskId).timers =
      s.timers.map fun j =>
        if (s.jobs taskId .start = some j.id ∨ s.jobs taskId .due = some j.id) ∧
            j.state = .pending
        then { j with state := .cancelled } else j := by
  unfold afterCancel
  rcases h1 : s.jobs taskId .start with _ | a <;> rcases h2 : s.jobs taskId .due with _ | b
  · simp
  · simp only [cancelJob]
    apply List.map_congr_left
    rintro ⟨jid, tid, kind, due, st⟩ -
    by_cases hb : jid = b
    · subst hb
      cases st <;> simp
    · have hb' : ¬ b = jid := fun h => hb h.symm
      cases st <;> simp [hb, hb']
  · simp only [cancelJob]
    apply List.map_congr_left
    rintro ⟨jid, tid, kind, due, st⟩ -
    by_cases ha : jid = a
    · subst ha
      cases st <;> simp
    · have ha' : ¬ a = jid := fun h => ha h.symm
      cases st <;> simp [ha, ha']
  · simp only [cancelJob, List.map_map]
    apply List.map_congr_left
    rintro ⟨jid, tid, kind, due, st⟩ -
    simp only [Function.comp]
    by_cases ha : jid = a
    · subst ha
      by_cases hb : jid = b
      · subst hb
        cases st <;> simp
      · have hb' : ¬ b = jid := fun h => hb h.symm
        cases st <;> simp [hb, hb']
    · have ha' : ¬ a = jid := fun h => ha h.symm
      by_cases hb : jid = b
      · subst hb
        cases st <;> simp [ha, ha']
      · have hb' : ¬ b = jid := fun h => hb h.symm
        cases st <;> simp [ha, ha', hb, hb']

theorem afterCancel_of_none (s : Scheduler) (taskId : String)
    (h1 : s.jobs taskId .start = none) (h2 : s.jobs taskId .due = none) :
    afterCancel s taskId = s := by
  simp [afterCancel, h1, h2]

/-- C17: `cancelTaskSchedule` never raises; afterwards neither key of the task
is in the map, the other keys are as before, the jobs that were found under the
two keys are cancelled if they were pending and no longer pending in any case;
without an entry for the task the state is unchanged, and a second cancel
changes nothing. -/
theorem cancelTaskSchedule_clears (s : Scheduler) (taskId : String) :
    ∃ s', cancelTaskSchedule s taskId = .ok s' ∧
      s'.jobs taskId .start = none ∧ s'.jobs taskId .due = none ∧
      (∀ i k, i ≠ taskId → s'.jobs i k = s.jobs i k) ∧
      s'.timers = (s.timers.map fun j =>
        if (s.jobs taskId .start = some j.id ∨ s.jobs taskId .due = some j.id) ∧
            j.state = .pending
        then { j with state := .cancelled } else j) ∧
      (∀ kind job, s.jobs taskId kind = some job →
        ∀ j ∈ s'.timers, j.id = job → j.state ≠ .pending) ∧
      (s.jobs taskId .start = none → s.jobs taskId .due = none → s' = s) ∧
      cancelTaskSchedule s' taskId = .ok s' := by
  refine ⟨afterCancel s taskId, rfl, ?_, ?_, ?_, afterCancel_timers s taskId, ?_,
    afterCancel_of_none s taskId, ?_⟩
  · simp [afterCancel_jobs]
  · simp [afterCancel_jobs]
  · intro i k hi
    simp [afterCancel_jobs, hi]
  · intro kind job hjob j hj hid
    rw [afterCancel_timers] at hj
    obtain ⟨j0, -, rfl⟩ := List.mem_map.mp hj
    have hreg : s.jobs taskId .start = some j0.id ∨ s.jobs taskId .due = some j0.id := by
      have hid0 : j0.id = job := by
        split_ifs at hid <;> exact hid
      cases kind
      · left; rw [hjob, hid0]
      · right; rw [hjob, hid0]
    by_cases hp : j0.state = .pending
    · simp [hreg, hp]
    · simp [hp]
  · rw [cancelTaskSchedule_eq]
    congr 1
    exact afterCancel_of_none _ _ (by simp [afterCancel_jobs]) (by simp [afterCancel_jobs])

/-- C18: for a task without an entry under either key, `scheduleTask` puts
under the start key a new pending job due at `task.startTime`; it puts under
the end key a new pending job due at `task.endTime` exactly when `endTime` is
set; no other key changes and the existing jobs stay as they are. -/
theorem scheduleTask_registers (s : Scheduler) (task : Task)
    (_hstart : s.jobs task._id .start = none) (h2 : s.jobs task._id .due = none) :
    ∃ s', scheduleTask s task = .ok s' ∧
      (∃ job, s'.jobs task._id .start = some job ∧
        { id := job, taskId := task._id, kind := JobKind.start, dueAt := task.startTime,
          state := JobState.pending } ∈ s'.timers) ∧
      (∀ endTime, task.endTime = some endTime →
        ∃ job, s'.jobs task._id .due = some job ∧
          { id := job, taskId := task._id, kind := JobKind.due, dueAt := some endTime,
            state := JobState.pending } ∈ s'.timers) ∧
      (task.endTime = none → s'.jobs task._id .due = none) ∧
      (∀ i k, i ≠ task._id → s'.jobs i k = s.jobs i k) ∧
      (∀ j, j ∈ s'.timers ↔ j ∈ s.timers ∨
        j = { id := s.timers.length, taskId := task._id, kind := JobKind.start,
              dueAt := task.startTime, state := JobState.pending } ∨
        ∃ endTime, task.endTime = some endTime ∧
          j = { id := s.timers.length + 1, taskId := task._id, kind := JobKind.due,
                dueAt := some endTime, state := JobState.pending }) := by
  refine ⟨afterSchedule s task, rfl, ⟨s.timers.length, ?_, ?_⟩, ?_, ?_, ?_, ?_⟩
  · simp [afterSchedule_jobs, mapSet]
  · simp [afterSchedule_timers]
  · intro endTime he
    refine ⟨s.timers.length + 1, ?_, ?_⟩
    · simp [afterSchedule_jobs, mapSet, he]
    · simp [afterSchedule_timers, he]
  · intro he
    simp [afterSchedule_jobs, mapSet, he, h2]
  · intro i k hi
    cases he : task.endTime <;> simp [afterSchedule_jobs, mapSet, hi, he]
  · intro j
    rw [afterSchedule_timers]
    cases he : task.endTime <;> simp

/-- C18, at task A and the service right after construction. -/
theorem scheduleTask_registers_witness :
    ∃ s', scheduleTask Scheduler.empty taskA = .ok s' ∧
      (∃ job, s'.jobs taskA._id .start = some job ∧
        { id := job, taskId := taskA._id, kind := JobKind.start, dueAt := taskA.startTime,
          state := JobState.pending } ∈ s'.timers) ∧
      (∀ endTime, taskA.endTime = some endTime →
        ∃ job, s'.jobs taskA._id .due = some job ∧
          { id := job, taskId := taskA._id, kind := JobKind.due, dueAt := some endTime,
            state := JobState.pending } ∈ s'.timers) ∧
      (taskA.endTime = none → s'.jobs taskA._id .due = none) ∧
      (∀ i k, i ≠ taskA._id → s'.jobs i k = Scheduler.empty.jobs i k) ∧
      (∀ j, j ∈ s'.timers ↔ j ∈ Scheduler.empty.timers ∨
        j = { id := Scheduler.empty.timers.length, taskId := taskA._id, kind := JobKind.start,
              dueAt := taskA.startTime, state := JobState.pending } ∨
        ∃ endTime, taskA.endTime = some endTime ∧
          j = { id := Scheduler.empty.timers.length + 1, taskId := taskA._id,
                kind := JobKind.due, dueAt := some endTime, state := JobState.pending }) :=
  scheduleTask_registers Scheduler.empty taskA rfl rfl

/-- C16 fails as stated: scheduling task A twice in a row does not raise; the
second call replaces the entry of the start key (job 0, still pending) by a
new job (job 2). -/
theorem second_scheduleTask_replaces_entry :
    scheduleTask Scheduler.empty taskA = .ok (afterSchedule Scheduler.empty taskA) ∧
    hasLiveJob (afterSchedule Scheduler.empty taskA) "A" .start = true ∧
    (afterSchedule Scheduler.empty taskA).jobs "A" .start = some 0 ∧
    scheduleTask (afterSchedule Scheduler.empty taskA) taskA =
      .ok (afterSchedule (afterSchedule Scheduler.empty taskA) taskA) ∧
    (afterSchedule (afterSchedule Scheduler.empty taskA) taskA).jobs "A" .start = some 2 ∧
    (pendingFor (afterSchedule (afterSchedule Scheduler.empty taskA) taskA) "A" .start).map
      (fun j => j.id) = [0, 2] := by
  refine ⟨rfl, by decide, by decide, rfl, by decide, by decide⟩

/-- C16, amended: `scheduleTask` never raises and makes no conflict check; the
start key is mapped to the job it has just created, the end key too when
`endTime` is set, and every job that existed before is still there, in the
state it had. -/
theorem scheduleTask_overwrites (s : Scheduler) (task : Task) :
    ∃ s', scheduleTask s task = .ok s' ∧
      s'.jobs task._id .start = some s.timers.length ∧
      (∀ endTime, task.endTime = some endTime →
        s'.jobs task._id .due = some (s.timers.length + 1)) ∧
      (∀ j ∈ s.timers, j ∈ s'.timers) ∧
      (∀ j ∈ s.timers, j.id ≠ s.timers.length → s'.jobs task._id .start ≠ some j.id) := by
  refine ⟨afterSchedule s task, rfl, ?_, ?_, ?_, ?_⟩
  · simp [afterSchedule_jobs, mapSet]
  · intro endTime he
    simp [afterSchedule_jobs, mapSet, he]
  · intro j hj
    rw [afterSchedule_timers]
    exact List.mem_append_left _ hj
  · intro j _ hne
    simp [afterSchedule_jobs, mapSet]
    exact fun h => hne h.symm

/-- C21 fails as stated: task A is scheduled and the clock reaches its start;
the start job has fired once, and the map still holds it under the start key. -/
theorem fired_job_stays_in_the_map :
    invocations (advance sendNotification (day0 + 9 * 3600000)
      (afterSchedule Scheduler.empty taskA)) "A" .start = 1 ∧
    (advance sendNotification (day0 + 9 * 3600000)
      (afterSchedule Scheduler.empty taskA)).jobs "A" .start = some 0 ∧
    (advance sendNotification (day0 + 9 * 3600000)
      (afterSchedule Scheduler.empty taskA)).timers.map (fun j => (j.id, j.state)) =
      [(0, JobState.fired), (1, JobState.pending)] := by
  refine ⟨by decide, by decide, by decide⟩

/-- C21, amended: when the clock advances, every due job becomes `fired`, no
job that is still pending is due at that time, and the map `this.jobs` is
exactly as before. -/
theorem advance_keeps_the_map (deliver : Job → Outcome Unit) (t : Int) (s : Scheduler) :
    (advance deliver t s).jobs = s.jobs ∧
    (∀ j ∈ s.timers, isDue t j = true →
      { j with state := JobState.fired } ∈ (advance deliver t s).timers) ∧
    (∀ j ∈ (advance deliver t s).timers, isDue t j = false) := by
  refine ⟨rfl, ?_, ?_⟩
  · intro j hj hdue
    simp only [advance, List.mem_map]
    exact ⟨j, hj, by simp [hdue]⟩
  · intro j hj
    simp only [advance, List.mem_map] at hj
    obtain ⟨j0, -, rfl⟩ := hj
    by_cases hdue : isDue t j0 = true
    · rw [if_pos hdue]
      simp [isDue]
    · rw [if_neg hdue]
      simpa using hdue

/-- C22, at task A scheduled alone: with the notification service of the
sources, and with any failing delivery, the firing of the start job asks the
store for nothing; with a delivery that succeeds it asks for `in_progress`. -/
theorem start_firing_skips_status_when_delivery_fails :
    (advance sendNotification (day0 + 9 * 3600000)
      (afterSchedule Scheduler.empty taskA)).log = [Event.invoked "A" .start] ∧
    (advance (fun _ => .error "unreachable") (day0 + 9 * 3600000)
      (afterSchedule Scheduler.empty taskA)).log = [Event.invoked "A" .start] ∧
    (advance (fun _ => .ok ()) (day0 + 9 * 3600000)
      (afterSchedule Scheduler.empty taskA)).log =
        [Event.invoked "A" .start, Event.statusRequested "A" .in_progress] ∧
    (advance (fun _ => .ok ()) (day0 + 10 * 3600000)
      (afterSchedule Scheduler.empty taskA)).log =
        [Event.invoked "A" .start, Event.statusRequested "A" .in_progress,
         Event.invoked "A" .due] := by
  refine ⟨by decide, by decide, by decide, by decide⟩

theorem wellFormed_afterSchedule (s : Scheduler) (task : Task) (h : WellFormed s) :
    WellFormed (afterSchedule s task) := by
  unfold WellFormed at h ⊢
  rw [afterSchedule_timers]
  cases task.endTime with
  | none => simp [h, List.range_succ]
  | some e =>
    simp only [List.map_append, List.map_cons, List.map_nil, h, List.length_append,
      List.length_cons, List.length_nil]
    rw [show s.timers.length + (0 + 1 + 1) = s.timers.length + 1 + 1 by omega,
      List.range_succ, List.range_succ]
    simp

theorem wellFormed_afterCancel (s : Scheduler) (taskId : String) (h : WellFormed s) :
    WellFormed (afterCancel s taskId) := by
  unfold WellFormed at h ⊢
  rw [afterCancel_timers, List.map_map, List.length_map, ← h]
  apply List.map_congr_left
  intro j _
  simp only [Function.comp]
  split_ifs <;> rfl

theorem wellFormed_advance (deliver : Job → Outcome Unit) (t : Int) (s : Scheduler)
    (h : WellFormed s) : WellFormed (advance deliver t s) := by
  unfold WellFormed at h ⊢
  simp only [advance, List.map_map, List.length_map]
  rw [← h]
  apply List.map_congr_left
  intro j _
  simp only [Function.comp]
  split_ifs <;> rfl

theorem hasLiveJob_of_pending (s : Scheduler) (j : Job) (hj : j ∈ s.timers)
    (hp : j.state = .pending) (hreg : s.jobs j.taskId j.kind = some j.id) :
    hasLiveJob s j.taskId j.kind = true := by
  simp only [hasLiveJob, hreg, List.any_eq_true]
  exact ⟨j, hj, by simp [hp]⟩

theorem registered_afterSchedule (s : Scheduler) (task : Task) (h : Registered s)
    (h1 : hasLiveJob s task._id .start = false) (h2 : hasLiveJob s task._id .due = false) :
    Registered (afterSchedule s task) := by
  intro j hj hp
  rw [afterSchedule_timers] at hj
  rw [afterSchedule_jobs]
  rcases List.mem_append.mp hj with hold | hnew
  · have hreg := h j hold hp
    have hlive := hasLiveJob_of_pending s j hold hp hreg
    have hkey : ¬ (j.taskId = task._id) := by
      intro hid
      rw [hid] at hlive
      cases hk : j.kind
      · rw [hk, h1] at hlive
        exact Bool.noConfusion hlive
      · rw [hk, h2] at hlive
        exact Bool.noConfusion hlive
    cases task.endTime <;> simp [mapSet, hkey, hreg]
  · rcases List.mem_cons.mp hnew with rfl | hnew
    · simp [mapSet]
    · cases he : task.endTime with
      | none => simp [he] at hnew
      | some e =>
        simp only [he, List.mem_singleton] at hnew
        subst hnew
        simp [mapSet]

theorem registered_afterCancel (s : Scheduler) (taskId : String) (h : Registered s) :
    Registered (afterCancel s taskId) := by
  intro j hj hp
  rw [afterCancel_timers] at hj
  obtain ⟨j0, hj0, rfl⟩ := List.mem_map.mp hj
  by_cases hc : (s.jobs taskId .start = some j0.id ∨ s.jobs taskId .due = some j0.id) ∧
      j0.state = .pending
  · rw [if_pos hc] at hp
    exact JobState.noConfusion hp
  · rw [if_neg hc] at hp ⊢
    have hreg := h j0 hj0 hp
    have hkey : ¬ (j0.taskId = taskId) := by
      intro hid
      apply hc
      refine ⟨?_, hp⟩
      rw [hid] at hreg
      cases hk : j0.kind
      · left; rw [hk] at hreg; exact hreg
      · right; rw [hk] at hreg; exact hreg
    simp [afterCancel_jobs, hkey, hreg]

theorem registered_advance (deliver : Job → Outcome Unit) (t : Int) (s : Scheduler)
    (h : Registered s) : Registered (advance deliver t s) := by
  intro j hj hp
  simp only [advance, List.mem_map] at hj
  obtain ⟨j0, hj0, rfl⟩ := hj
  by_cases hdue : isDue t j0 = true
  · rw [if_pos hdue] at hp
    exact JobState.noConfusion hp
  · rw [if_neg hdue] at hp ⊢
    exact h j0 hj0 hp

theorem hasLiveJob_afterCancel (s : Scheduler) (taskId : String) (kind : JobKind) :
    hasLiveJob (afterCancel s taskId) taskId kind = false := by
  simp [hasLiveJob, afterCancel_jobs]

/-- Guarded calls keep the numbering of the jobs and keep every pending job
under its key. -/
theorem reachable_invariant (s : Scheduler) (h : Reachable s) :
    WellFormed s ∧ Registered s := by
  induction h with
  | init => exact ⟨rfl, fun j hj => by simp [Scheduler.empty] at hj⟩
  | schedule s s' task _ h1 h2 hrun ih =>
    rw [scheduleTask_eq, Except.ok.injEq] at hrun
    subst hrun
    exact ⟨wellFormed_afterSchedule s task ih.1, registered_afterSchedule s task ih.2 h1 h2⟩
  | cancel s s' taskId _ hrun ih =>
    rw [cancelTaskSchedule_eq, Except.ok.injEq] at hrun
    subst hrun
    exact ⟨wellFormed_afterCancel s taskId ih.1, registered_afterCancel s taskId ih.2⟩
  | reschedule s s' task _ hrun ih =>
    rw [rescheduleTask_eq, Except.ok.injEq] at hrun
    subst hrun
    exact ⟨wellFormed_afterSchedule _ task (wellFormed_afterCancel s _ ih.1),
      registered_afterSchedule _ task (registered_afterCancel s _ ih.2)
        (hasLiveJob_afterCancel s _ _) (hasLiveJob_afterCancel s _ _)⟩
  | fire s deliver t _ ih =>
    exact ⟨wellFormed_advance deliver t s ih.1, registered_advance deliver t s ih.2⟩

theorem pendingFor_length_le_one (s : Scheduler) (hwf : WellFormed s) (hreg : Registered s)
    (taskId : String) (kind : JobKind) : (pendingFor s taskId kind).length ≤ 1 := by
  unfold pendingFor
  rw [← List.countP_eq_length_filter]
  cases hjob : s.jobs taskId kind with
  | none =>
    have : ∀ j ∈ s.timers, ¬ ((decide (j.taskId = taskId) && decide (j.kind = kind) &&
        decide (j.state = .pending)) = true) := by
      intro j hj hc
      simp only [Bool.and_eq_true, decide_eq_true_eq] at hc
      obtain ⟨⟨h1, h2⟩, h3⟩ := hc
      have := hreg j hj h3
      rw [h1, h2, hjob] at this
      exact Option.noConfusion this
    rw [List.countP_eq_zero.mpr this]
    exact Nat.zero_le 1
  | some r =>
    have hle : List.countP (fun j => decide (j.taskId = taskId) && decide (j.kind = kind) &&
        decide (j.state = .pending)) s.timers ≤
        List.countP (fun j => decide (j.id = r)) s.timers := by
      apply List.countP_mono_left
      intro j hj hc
      simp only [Bool.and_eq_true, decide_eq_true_eq] at hc
      obtain ⟨⟨h1, h2⟩, h3⟩ := hc
      have := hreg j hj h3
      rw [h1, h2, hjob, Option.some.injEq] at this
      simp [this]
    refine le_trans hle ?_
    have hcount : List.countP (fun j => decide (j.id = r)) s.timers =
        (s.timers.map (fun j => j.id)).count r := by
      rw [List.count, List.countP_map]
      apply List.countP_congr
      intro j _
      simp [Function.comp]
    rw [hcount, hwf]
    exact List.nodup_iff_count_le_one.mp (List.nodup_range _) r

/-! ### One live job per key -/

/-- Claim C15, counterexample: after two `scheduleTask` calls for task A in a row
the start key has two pending jobs that can still fire. -/
theorem two_pending_jobs_after_double_schedule :
    ReachableAny scheduledTwice ∧ (pendingFor scheduledTwice "A" .start).length = 2 :=
  ⟨ReachableAny.schedule _ _ taskA (ReachableAny.schedule _ _ taskA ReachableAny.init rfl) rfl,
    by decide⟩

/-- Claim C15, amended: in every state reached by `cancelTaskSchedule`,
`rescheduleTask`, job firings, and `scheduleTask` calls made only for a task with
no live job under either of its keys, each key has at most one pending job. -/
theorem at_most_one_pending_job_per_key (s : Scheduler) (h : Reachable s)
    (taskId : String) (kind : JobKind) : (pendingFor s taskId kind).length ≤ 1 :=
  pendingFor_length_le_one s (reachable_invariant s h).1 (reachable_invariant s h).2 taskId kind

theorem busyScheduler_reachable : Reachable busyScheduler :=
  Reachable.fire _ _ _
    (Reachable.reschedule _ _ taskA
      (Reachable.schedule _ _ taskB
        (Reachable.schedule _ _ taskA Reachable.init (by decide) (by decide) rfl)
        (by decide) (by decide) rfl)
      rfl)

theorem at_most_one_pending_job_per_key_witness :
    Reachable busyScheduler ∧ (pendingFor busyScheduler "A" .due).length ≤ 1 :=
  ⟨busyScheduler_reachable, at_most_one_pending_job_per_key busyScheduler busyScheduler_reachable "A" .due⟩

/-! ### Firing -/

theorem count_invoked_callback (deliver : Job → Outcome Unit) (j : Job) (taskId : String)
    (kind : JobKind) :
    (callback deliver j).count (Event.invoked taskId kind) =
      if j.taskId = taskId ∧ j.kind = kind then 1 else 0 := by
  unfold callback
  by_cases hk : j.taskId = taskId ∧ j.kind = kind
  · rw [if_pos hk]
    obtain ⟨h1, h2⟩ := hk
    cases deliver j <;> cases hkind : j.kind <;> simp [List.count_cons, h1, ← h2, hkind]
  · rw [if_neg hk]
    have hne : ¬ (Event.invoked j.taskId j.kind = Event.invoked taskId kind) := by
      intro h
      injection h with h1 h2
      exact hk ⟨h1, h2⟩
    cases deliver j <;> cases hkind : j.kind <;>
      simp [List.count_cons, hkind] <;> (intro h1 h2; exact hk ⟨h1, by rw [hkind, h2]⟩)

theorem count_invoked_flatMap (deliver : Job → Outcome Unit) (l : List Job) (taskId : String)
    (kind : JobKind) :
    (l.flatMap (callback deliver)).count (Event.invoked taskId kind) =
      (l.filter fun j => decide (j.taskId = taskId) && decide (j.kind = kind)).length := by
  induction l with
  | nil => rfl
  | cons a l ih =>
    rw [List.flatMap_cons, List.count_append, ih, count_invoked_callback, List.filter_cons]
    by_cases hk : a.taskId = taskId ∧ a.kind = kind
    · rw [if_pos hk]
      obtain ⟨h1, h2⟩ := hk
      simp [h1, h2, Nat.add_comm]
    · rw [if_neg hk]
      have : (decide (a.taskId = taskId) && decide (a.kind = kind)) = false := by
        simpa using fun h1 => fun h2 => hk ⟨h1, h2⟩
      simp [this]

/-- Advancing the clock invokes the callback of a key once for each of its
pending jobs that is due. -/
theorem invocations_advance (deliver : Job → Outcome Unit) (t : Int) (s : Scheduler)
    (taskId : String) (kind : JobKind) :
    invocations (advance deliver t s) taskId kind =
      invocations s taskId kind + ((pendingFor s taskId kind).filter (isDue t)).length := by
  unfold invocations advance pendingFor
  simp only [List.count_append, count_invoked_flatMap, List.filter_filter]
  congr 2
  apply List.filter_congr
  intro j _
  unfold isDue
  cases j.state <;> simp
  exact Bool.and_comm _ _

/-- Advancing the clock removes the due jobs from the pending jobs of a key. -/
theorem pendingFor_advance (deliver : Job → Outcome Unit) (t : Int) (s : Scheduler)
    (taskId : String) (kind : JobKind) :
    pendingFor (advance deliver t s) taskId kind =
      (pendingFor s taskId kind).filter fun j => !isDue t j := by
  unfold pendingFor advance
  simp only
  induction s.timers with
  | nil => rfl
  | cons a l ih =>
    simp only [List.map_cons, List.filter_cons, ih]
    by_cases hdue : isDue t a = true
    · rw [if_pos hdue]
      by_cases hp : (decide (a.taskId = taskId) && decide (a.kind = kind) &&
          decide (a.state = .pending)) = true
      · simp [hp, hdue, List.filter_cons]
      · simp [hp]
    · rw [if_neg hdue]
      by_cases hp : (decide (a.taskId = taskId) && decide (a.kind = kind) &&
          decide (a.state = .pending)) = true
      · simp [hp, hdue, List.filter_cons]
      · simp [hp]

theorem pendingFor_of_quiet (s : Scheduler) (taskId : String) (kind : JobKind)
    (h : Quiet s taskId) : pendingFor s taskId kind = [] := by
  unfold pendingFor
  rw [List.filter_eq_nil_iff]
  intro j hj hc
  simp only [Bool.and_eq_true, decide_eq_true_eq] at hc
  exact h j hj hc.1.1 hc.2

/-- Once a key has no pending job, advancing the clock never invokes its
callback. -/
theorem invocations_advanceAll_of_nil (deliver : Job → Outcome Unit) (ts : List Int)
    (taskId : String) (kind : JobKind) (s : Scheduler) (h : pendingFor s taskId kind = []) :
    invocations (advanceAll deliver ts s) taskId kind = invocations s taskId kind := by
  induction ts generalizing s with
  | nil => rfl
  | cons t ts ih =>
    have hnext : pendingFor (advance deliver t s) taskId kind = [] := by
      rw [pendingFor_advance, h]; rfl
    show invocations (advanceAll deliver ts (advance deliver t s)) taskId kind = _
    rw [ih _ hnext, invocations_advance, h]
    rfl

/-- While the clock stays before the due time of the only pending job of a key,
that job stays pending and the callback of the key is not invoked. -/
theorem advanceAll_before_due (deliver : Job → Outcome Unit) (ts : List Int)
    (taskId : String) (kind : JobKind) (j : Job) (T : Int) (hdue : j.dueAt = some (.valid T))
    (hts : ∀ t ∈ ts, t < T) (s : Scheduler) (h : pendingFor s taskId kind = [j]) :
    pendingFor (advanceAll deliver ts s) taskId kind = [j] ∧
      invocations (advanceAll deliver ts s) taskId kind = invocations s taskId kind := by
  induction ts generalizing s with
  | nil => exact ⟨h, rfl⟩
  | cons t ts ih =>
    have hlt : t < T := hts t (List.mem_cons_self _ _)
    have hnot : isDue t j = false := by
      unfold isDue
      rw [hdue]
      simp [hlt]
    have hnext : pendingFor (advance deliver t s) taskId kind = [j] := by
      rw [pendingFor_advance, h]
      simp [hnot]
    have hrest := ih (fun x hx => hts x (List.mem_cons_of_mem _ hx)) _ hnext
    refine ⟨hrest.1, ?_⟩
    show invocations (advanceAll deliver ts (advance deliver t s)) taskId kind = _
    rw [hrest.2, invocations_advance, h]
    simp [hnot]

/-- When the clock reaches the due time of the only pending job of a key, the
callback of the key is invoked once and no job of the key stays pending. -/
theorem advance_at_due (deliver : Job → Outcome Unit) (t : Int)
    (taskId : String) (kind : JobKind) (j : Job) (T : Int) (hdue : j.dueAt = some (.valid T))
    (hle : T ≤ t) (s : Scheduler) (h : pendingFor s taskId kind = [j]) :
    pendingFor (advance deliver t s) taskId kind = [] ∧
      invocations (advance deliver t s) taskId kind = invocations s taskId kind + 1 := by
  have hpend : j.state = .pending := by
    have hmem : j ∈ pendingFor s taskId kind := by rw [h]; exact List.mem_singleton_self j
    unfold pendingFor at hmem
    have := (List.mem_filter.mp hmem).2
    simp only [Bool.and_eq_true, decide_eq_true_eq] at this
    exact this.2
  have hyes : isDue t j = true := by
    unfold isDue
    rw [hdue]
    simp [hle, hpend]
  constructor
  · rw [pendingFor_advance, h]
    simp [hyes]
  · rw [invocations_advance, h]
    simp [hyes]

theorem covered_afterSchedule (s : Scheduler) (task : Task) (h : Quiet s task._id) :
    Covered (afterSchedule s task) task._id := by
  intro j hj hid hp
  rw [afterSchedule_timers] at hj
  rw [afterSchedule_jobs]
  rcases List.mem_append.mp hj with hold | hnew
  · exact absurd hp (h j hold hid)
  · rcases List.mem_cons.mp hnew with rfl | hnew
    · simp [mapSet]
    · cases he : task.endTime with
      | none => simp [he] at hnew
      | some e =>
        simp only [he, List.mem_singleton] at hnew
        subst hnew
        simp [mapSet]

theorem covered_advance (deliver : Job → Outcome Unit) (t : Int) (s : Scheduler)
    (taskId : String) (h : Covered s taskId) : Covered (advance deliver t s) taskId := by
  intro j hj hid hp
  simp only [advance, List.mem_map] at hj
  obtain ⟨j0, hj0, rfl⟩ := hj
  by_cases hdue : isDue t j0 = true
  · rw [if_pos hdue] at hp
    exact JobState.noConfusion hp
  · rw [if_neg hdue] at hp hid ⊢
    exact h j0 hj0 hid hp

theorem covered_advanceAll (deliver : Job → Outcome Unit) (ts : List Int) (taskId : String)
    (s : Scheduler) (h : Covered s taskId) : Covered (advanceAll deliver ts s) taskId := by
  induction ts generalizing s with
  | nil => exact h
  | cons t ts ih => exact ih _ (covered_advance deliver t s taskId h)

theorem quiet_afterCancel (s : Scheduler) (taskId : String) (h : Covered s taskId) :
    Quiet (afterCancel s taskId) taskId := by
  intro j hj hid hp
  rw [afterCancel_timers] at hj
  obtain ⟨j0, hj0, rfl⟩ := List.mem_map.mp hj
  by_cases hc : (s.jobs taskId .start = some j0.id ∨ s.jobs taskId .due = some j0.id) ∧
      j0.state = .pending
  · rw [if_pos hc] at hp
    exact JobState.noConfusion hp
  · rw [if_neg hc] at hp hid
    apply hc
    refine ⟨?_, hp⟩
    have hreg := h j0 hj0 hid hp
    cases hk : j0.kind
    · left; rw [hk] at hreg; exact hreg
    · right; rw [hk] at hreg; exact hreg

/-- After `scheduleTask` on a task none of whose jobs can still fire, the only
pending job of a key of the task is the one just created. -/
theorem pendingFor_afterSchedule (s : Scheduler) (task : Task) (kind : JobKind) (d : JsDate)
    (h : Quiet s task._id) (hd : dueOf task kind = some d) :
    ∃ j, j.dueAt = some d ∧ pendingFor (afterSchedule s task) task._id kind = [j] := by
  have hold : s.timers.filter (fun j => decide (j.taskId = task._id) && decide (j.kind = kind) &&
      decide (j.state = .pending)) = [] := pendingFor_of_quiet s task._id kind h
  unfold pendingFor
  rw [afterSchedule_timers, List.filter_append, hold]
  cases kind with
  | start =>
    refine ⟨{ id := s.timers.length, taskId := task._id, kind := .start, dueAt := task.startTime,
              state := .pending }, hd, ?_⟩
    cases task.endTime <;> simp [List.filter_cons]
  | due =>
    have he : task.endTime = some d := hd
    refine ⟨{ id := s.timers.length + 1, taskId := task._id, kind := .due, dueAt := some d,
              state := .pending }, rfl, ?_⟩
    simp [he, List.filter_cons]

theorem invocations_afterSchedule (s : Scheduler) (task : Task) (taskId : String)
    (kind : JobKind) :
    invocations (afterSchedule s task) taskId kind = invocations s taskId kind := by
  unfold invocations
  rw [afterSchedule_log]

theorem invocations_afterCancel (s : Scheduler) (id taskId : String) (kind : JobKind) :
    invocations (afterCancel s id) taskId kind = invocations s taskId kind := by
  unfold invocations
  rw [afterCancel_log]

theorem quiet_empty (taskId : String) : Quiet Scheduler.empty taskId := by
  intro j hj
  simp [Scheduler.empty] at hj

/-- Claim C19: for a task none of whose earlier jobs can still fire,
`scheduleTask` followed at once by `cancelTaskSchedule` succeeds, and however the
clock is advanced afterwards, the callback of neither key of the task is invoked:
the number of invocations stays what it was before the two calls. -/
theorem scheduleTask_then_cancel_never_fires (s : Scheduler) (task : Task)
    (deliver : Job → Outcome Unit) (hquiet : Quiet s task._id) :
    ∃ s1 s2, scheduleTask s task = .ok s1 ∧ cancelTaskSchedule s1 task._id = .ok s2 ∧
      ∀ (ts : List Int) (kind : JobKind),
        invocations (advanceAll deliver ts s2) task._id kind = invocations s task._id kind := by
  refine ⟨afterSchedule s task, afterCancel (afterSchedule s task) task._id, rfl, rfl, ?_⟩
  intro ts kind
  have hq : Quiet (afterCancel (afterSchedule s task) task._id) task._id :=
    quiet_afterCancel _ _ (covered_afterSchedule s task hquiet)
  rw [invocations_advanceAll_of_nil deliver ts task._id kind _ (pendingFor_of_quiet _ _ kind hq),
    invocations_afterCancel, invocations_afterSchedule]

/-- Claim C19, at task A on a fresh service: whatever the times the clock is
advanced to, no callback of A is invoked. -/
theorem scheduleTask_then_cancel_never_fires_witness :
    Quiet Scheduler.empty taskA._id ∧
    ∃ s1 s2, scheduleTask Scheduler.empty taskA = .ok s1 ∧
      cancelTaskSchedule s1 taskA._id = .ok s2 ∧
      ∀ (ts : List Int) (kind : JobKind),
        invocations (advanceAll delivered ts s2) taskA._id kind =
          invocations Scheduler.empty taskA._id kind :=
  ⟨quiet_empty _,
    scheduleTask_then_cancel_never_fires Scheduler.empty taskA delivered (quiet_empty _)⟩

/-- Claim C20: a task none of whose earlier jobs can still fire is scheduled with
a job of some kind due at `T1`; while the clock is still before `T1` it is
rescheduled with that job due at `T2`, later than `T1`.  Then `rescheduleTask`
succeeds, advancing the clock to `T1` does not invoke the callback of the key,
advancing it on to `T2` invokes it exactly once, and no later advance invokes it
again. -/
theorem rescheduleTask_fires_once_at_new_time (s : Scheduler) (t1 t2 : Task) (kind : JobKind)
    (T1 T2 : Int) (deliver : Job → Outcome Unit) (ts0 ts : List Int)
    (hid : t2._id = t1._id) (hquiet : Quiet s t1._id)
    (h1 : dueOf t1 kind = some (.valid T1)) (h2 : dueOf t2 kind = some (.valid T2))
    (hbefore : ∀ t ∈ ts0, t < T1) (hlt : T1 < T2) :
    ∃ s1 s2, scheduleTask s t1 = .ok s1 ∧
      rescheduleTask (advanceAll deliver ts0 s1) t2 = .ok s2 ∧
      invocations (advance deliver T1 s2) t1._id kind = invocations s t1._id kind ∧
      invocations (advance deliver T2 (advance deliver T1 s2)) t1._id kind =
        invocations s t1._id kind + 1 ∧
      invocations (advanceAll deliver ts (advance deliver T2 (advance deliver T1 s2)))
        t1._id kind = invocations s t1._id kind + 1 := by
  refine ⟨afterSchedule s t1,
    afterSchedule (afterCancel (advanceAll deliver ts0 (afterSchedule s t1)) t2._id) t2,
    rfl, rfl, ?_⟩
  obtain ⟨j1, hj1, hp1⟩ := pendingFor_afterSchedule s t1 kind _ hquiet h1
  have hA := advanceAll_before_due deliver ts0 t1._id kind j1 T1 hj1 hbefore _ hp1
  have hcov : Covered (advanceAll deliver ts0 (afterSchedule s t1)) t2._id := by
    rw [hid]
    exact covered_advanceAll deliver ts0 _ _ (covered_afterSchedule s t1 hquiet)
  have hq := quiet_afterCancel _ _ hcov
  obtain ⟨j2, hj2, hp2⟩ := pendingFor_afterSchedule _ t2 kind _ hq h2
  have hinv : invocations
      (afterSchedule (afterCancel (advanceAll deliver ts0 (afterSchedule s t1)) t2._id) t2)
      t1._id kind = invocations s t1._id kind := by
    rw [invocations_afterSchedule, invocations_afterCancel, hA.2, invocations_afterSchedule]
  generalize afterSchedule (afterCancel (advanceAll deliver ts0 (afterSchedule s t1)) t2._id) t2
    = s2 at hp2 hinv ⊢
  rw [hid] at hp2
  have hB := advanceAll_before_due deliver [T1] t1._id kind j2 T2 hj2
    (fun t ht => by rw [List.mem_singleton.mp ht]; exact hlt) _ hp2
  have hB1 : pendingFor (advance deliver T1 s2) t1._id kind = [j2] := hB.1
  have hB2 : invocations (advance deliver T1 s2) t1._id kind = invocations s2 t1._id kind :=
    hB.2
  have hC := advance_at_due deliver T2 t1._id kind j2 T2 hj2 (le_refl T2) _ hB1
  have hD := invocations_advanceAll_of_nil deliver ts t1._id kind _ hC.1
  refine ⟨?_, ?_, ?_⟩
  · rw [hB2, hinv]
  · rw [hC.2, hB2, hinv]
  · rw [hD, hC.2, hB2, hinv]

/-- Claim C20, at task A on a fresh service: its start job, due at 09:00, is moved
to 11:00 after the clock has reached 08:00. -/
theorem rescheduleTask_fires_once_at_new_time_witness :
    ∃ s1 s2, scheduleTask Scheduler.empty taskA = .ok s1 ∧
      rescheduleTask (advanceAll delivered [day0 + 8 * 3600000] s1) taskAMoved = .ok s2 ∧
      invocations (advance delivered (day0 + 9 * 3600000) s2) taskA._id .start =
        invocations Scheduler.empty taskA._id .start ∧
      invocations (advance delivered (day0 + 11 * 3600000)
          (advance delivered (day0 + 9 * 3600000) s2)) taskA._id .start =
        invocations Scheduler.empty taskA._id .start + 1 ∧
      invocations (advanceAll delivered [day0 + 12 * 3600000, day0 + 86400000]
          (advance delivered (day0 + 11 * 3600000)
            (advance delivered (day0 + 9 * 3600000) s2))) taskA._id .start =
        invocations Scheduler.empty taskA._id .start + 1 :=
  rescheduleTask_fires_once_at_new_time Scheduler.empty taskA taskAMoved .start
    (day0 + 9 * 3600000) (day0 + 11 * 3600000) delivered [day0 + 8 * 3600000]
    [day0 + 12 * 3600000, day0 + 86400000] rfl (quiet_empty _) rfl rfl (by decide) (by decide)

end TaskSchedulerService

/-! ## Binary64: the rounding error of one operation -/

namespace Binary64

theorem log2Fuel_spec (fuel : Nat) : ∀ n : Nat, n ≤ fuel → 0 < n →
    2 ^ log2Fuel fuel n ≤ n ∧ n < 2 ^ (log2Fuel fuel n + 1) := by
  induction fuel with
  | zero =>
    intro n h1 h2
    omega
  | succ fuel ih =>
    intro n h1 h2
    unfold log2Fuel
    split_ifs with h
    · constructor
      · simpa using h2
      · simpa using h
    · have hn : 2 ≤ n := by omega
      obtain ⟨ih1, ih2⟩ := ih (n / 2) (by omega) (by omega)
      have e1 : 2 ^ (log2Fuel fuel (n / 2) + 1) = 2 * 2 ^ log2Fuel fuel (n / 2) := by
        rw [pow_succ]; ring
      have e2 : 2 ^ (log2Fuel fuel (n / 2) + 1 + 1) = 2 * 2 ^ (log2Fuel fuel (n / 2) + 1) := by
        rw [pow_succ]; ring
      constructor
      · rw [e1]; omega
      · rw [e2]; omega

theorem ilog2_spec (n : Nat) (h : 0 < n) : 2 ^ ilog2 n ≤ n ∧ n < 2 ^ (ilog2 n + 1) :=
  log2Fuel_spec n n le_rfl h

theorem two_zpow_pos (e : Int) : (0 : ℚ) < (2 : ℚ) ^ e := zpow_pos (by norm_num) e

theorem two_zpow_split (k : Int) :
    (2 : ℚ) ^ k = (2 : ℚ) ^ k.toNat / (2 : ℚ) ^ (-k).toNat := by
  have h : k = (k.toNat : Int) - ((-k).toNat : Int) := (Int.toNat_sub_toNat_neg k).symm
  conv_lhs => rw [h]
  rw [zpow_sub₀ (by norm_num : (2 : ℚ) ≠ 0), zpow_natCast, zpow_natCast]

/-- The computed exponent is not above the quotient: `2^k ≤ n / d`. -/
theorem floorLog2_le (n d : Nat) (hn : 0 < n) (hd : 0 < d) :
    (2 : ℚ) ^ floorLog2 n d ≤ (n : ℚ) / d := by
  have hd' : (0 : ℚ) < d := by exact_mod_cast hd
  unfold floorLog2
  simp only
  split_ifs with h
  · rw [two_zpow_split, div_le_div_iff₀ (by positivity) hd']
    have : ((d * 2 ^ ((ilog2 n : Int) - (ilog2 d : Int)).toNat : Nat) : ℚ) ≤
        ((n * 2 ^ (-((ilog2 n : Int) - (ilog2 d : Int))).toNat : Nat) : ℚ) := by
      exact_mod_cast h
    push_cast at this
    linarith
  · have h1 : ((2 : ℚ) ^ ilog2 n) ≤ n := by exact_mod_cast (ilog2_spec n hn).1
    have h2 : (d : ℚ) ≤ (2 : ℚ) ^ (ilog2 d + 1) := by exact_mod_cast (ilog2_spec d hd).2.le
    have e : ((ilog2 n : Int) - (ilog2 d : Int) - 1) = ((ilog2 n : Nat) : Int) - ((ilog2 d + 1 : Nat) : Int) := by
      push_cast; ring
    rw [e, zpow_sub₀ (by norm_num : (2 : ℚ) ≠ 0), zpow_natCast, zpow_natCast]
    exact div_le_div₀ (by positivity) h1 hd' h2

/-- Rounding a quotient to the nearest integer moves it by at most one half. -/
theorem roundHalfEven_err (a b : Nat) (hb : 0 < b) :
    |((roundHalfEven a b : Nat) : ℚ) - (a : ℚ) / b| ≤ 1 / 2 := by
  have hb' : (0 : ℚ) < b := by exact_mod_cast hb
  have hdiv : (a : ℚ) = b * ((a / b : Nat) : ℚ) + ((a % b : Nat) : ℚ) := by
    exact_mod_cast (Nat.div_add_mod a b).symm
  have hr : a % b < b := Nat.mod_lt a hb
  have key : (a : ℚ) / b = ((a / b : Nat) : ℚ) + ((a % b : Nat) : ℚ) / b := by
    field_simp
    linarith
  have hlow : ∀ _h : 2 * (a % b) ≤ b, |((a / b : Nat) : ℚ) - (a : ℚ) / b| ≤ 1 / 2 := by
    intro h
    have h' : (2 : ℚ) * ((a % b : Nat) : ℚ) ≤ b := by exact_mod_cast h
    have h0 : (0 : ℚ) ≤ ((a % b : Nat) : ℚ) / b := by positivity
    have h1 : ((a % b : Nat) : ℚ) / b ≤ 1 / 2 := by
      rw [div_le_iff₀ hb']; linarith
    rw [key, abs_le]
    constructor <;> linarith
  have hhigh : ∀ _h : b ≤ 2 * (a % b), |(((a / b + 1 : Nat) : Nat) : ℚ) - (a : ℚ) / b| ≤ 1 / 2 := by
    intro h
    have h' : (b : ℚ) ≤ 2 * ((a % b : Nat) : ℚ) := by exact_mod_cast h
    have hr' : ((a % b : Nat) : ℚ) < b := by exact_mod_cast hr
    have h0 : ((a % b : Nat) : ℚ) / b ≤ 1 := by
      rw [div_le_iff₀ hb']; linarith
    have h1 : 1 / 2 ≤ ((a % b : Nat) : ℚ) / b := by
      rw [le_div_iff₀ hb']; linarith
    rw [key, abs_le]
    push_cast
    constructor <;> linarith
  unfold roundHalfEven
  simp only
  split_ifs with h1 h2 h3
  · exact hlow (by omega)
  · exact hhigh (by omega)
  · exact hlow (by omega)
  · exact hhigh (by omega)

/-- Below the overflow bound `pack` returns a finite number of the same value. -/
theorem pack_value (negative : Bool) (m : Nat) (e : Int) (he : e ≤ 970) :
    ∃ m1 e1, pack negative m e = .finite m1 e1 ∧
      (m1 : ℚ) * (2 : ℚ) ^ e1 = (if negative then -1 else 1) * ((m : ℚ) * (2 : ℚ) ^ e) := by
  unfold pack
  by_cases h0 : m = 0
  · refine ⟨0, 0, by simp [h0], ?_⟩
    simp [h0]
  · by_cases h53 : m = 2 ^ 53
    · have hne : ¬ (971 : Int) < e + 1 := by omega
      refine ⟨if negative then -((2 ^ 52 : Nat) : Int) else ((2 ^ 52 : Nat) : Int), e + 1, ?_, ?_⟩
      · simp only [h0, h53, if_false, if_true, hne]
        simp
      · rw [zpow_add₀ (by norm_num : (2 : ℚ) ≠ 0), h53]
        cases negative <;> simp <;> ring
    · have hne : ¬ (971 : Int) < e := by omega
      refine ⟨if negative then -(m : Int) else (m : Int), e, ?_, ?_⟩
      · simp only [h0, h53, if_false, hne]
      · cases negative <;> simp

/-- Rounding a positive rational below 2 moves it by at most `2^-53`. -/
theorem roundPos_err (negative : Bool) (n d : Nat) (s : Int) (hn : 0 < n) (hd : 0 < d)
    (hx : (n : ℚ) / d * (2 : ℚ) ^ s < 2) :
    ∃ m e, roundPos negative n d s = .finite m e ∧
      |(m : ℚ) * (2 : ℚ) ^ e - (if negative then -1 else 1) * ((n : ℚ) / d * (2 : ℚ) ^ s)|
        ≤ (2 : ℚ) ^ (-53 : Int) := by
  have hd' : (0 : ℚ) < d := by exact_mod_cast hd
  have hk := floorLog2_le n d hn hd
  have hks : floorLog2 n d + s ≤ 0 := by
    have h1 : (2 : ℚ) ^ (floorLog2 n d + s) < (2 : ℚ) ^ (1 : Int) := by
      rw [zpow_add₀ (by norm_num : (2 : ℚ) ≠ 0), zpow_one]
      calc (2 : ℚ) ^ floorLog2 n d * (2 : ℚ) ^ s
          ≤ (n : ℚ) / d * (2 : ℚ) ^ s :=
            mul_le_mul_of_nonneg_right hk (two_zpow_pos s).le
        _ < 2 := hx
    have := (zpow_lt_zpow_iff_right₀ (by norm_num : (1 : ℚ) < 2)).mp h1
    omega
  unfold roundPos
  simp only
  generalize he : max (floorLog2 n d + s - 52) (-1074) = e
  have he52 : e ≤ -52 := by
    rw [← he]
    exact max_le (by omega) (by norm_num)
  have hb : 0 < d * 2 ^ (e - s).toNat := Nat.mul_pos hd (by positivity)
  have hround := roundHalfEven_err (n * 2 ^ (s - e).toNat) (d * 2 ^ (e - s).toNat) hb
  obtain ⟨m1, e1, hp, hv⟩ := pack_value negative
    (roundHalfEven (n * 2 ^ (s - e).toNat) (d * 2 ^ (e - s).toNat)) e (by omega)
  refine ⟨m1, e1, hp, ?_⟩
  rw [hv, ← mul_sub, abs_mul]
  have hsign : |(if negative then (-1 : ℚ) else 1)| = 1 := by
    cases negative <;> simp
  rw [hsign, one_mul]
  have hquot : ((n * 2 ^ (s - e).toNat : Nat) : ℚ) / ((d * 2 ^ (e - s).toNat : Nat) : ℚ) =
      (n : ℚ) / d * (2 : ℚ) ^ (s - e) := by
    rw [two_zpow_split (s - e)]
    have : -(s - e) = e - s := by ring
    rw [this]
    push_cast
    field_simp
  rw [hquot] at hround
  have hfac : (n : ℚ) / d * (2 : ℚ) ^ s = (n : ℚ) / d * (2 : ℚ) ^ (s - e) * (2 : ℚ) ^ e := by
    rw [mul_assoc, ← zpow_add₀ (by norm_num : (2 : ℚ) ≠ 0)]
    congr 2
    ring
  rw [hfac, ← sub_mul, abs_mul, abs_of_pos (two_zpow_pos e)]
  have he1 : (2 : ℚ) ^ e ≤ (2 : ℚ) ^ (-52 : Int) :=
    zpow_le_zpow_right₀ (by norm_num) he52
  calc |((roundHalfEven (n * 2 ^ (s - e).toNat) (d * 2 ^ (e - s).toNat) : Nat) : ℚ) -
          (n : ℚ) / d * (2 : ℚ) ^ (s - e)| * (2 : ℚ) ^ e
      ≤ 1 / 2 * (2 : ℚ) ^ (-52 : Int) :=
        mul_le_mul hround he1 (two_zpow_pos e).le (by norm_num)
    _ = (2 : ℚ) ^ (-53 : Int) := by norm_num

/-- Rounding a rational of magnitude below 2 gives a finite number at most
`2^-53` away. -/
theorem round_err (n : Int) (d : Nat) (s : Int) (hd : 0 < d)
    (hx : |(n : ℚ) / d * (2 : ℚ) ^ s| < 2) :
    ∃ m e, round n d s = .finite m e ∧
      |(m : ℚ) * (2 : ℚ) ^ e - (n : ℚ) / d * (2 : ℚ) ^ s| ≤ (2 : ℚ) ^ (-53 : Int) := by
  have hd' : (0 : ℚ) < d := by exact_mod_cast hd
  unfold round
  by_cases h0 : n = 0
  · refine ⟨0, 0, by simp [h0], ?_⟩
    simp [h0]
    exact (two_zpow_pos _).le
  · rw [if_neg h0]
    have hnat : 0 < n.natAbs := Int.natAbs_pos.mpr h0
    by_cases hneg : n < 0
    · have hcast : ((n.natAbs : Nat) : ℚ) = -(n : ℚ) := by
        rw [Nat.cast_natAbs, abs_of_neg hneg]
        push_cast
        ring
      have hx' : ((n.natAbs : Nat) : ℚ) / d * (2 : ℚ) ^ s < 2 := by
        rw [hcast]
        have := (abs_lt.mp hx).1
        have e : -(n : ℚ) / d * (2 : ℚ) ^ s = -((n : ℚ) / d * (2 : ℚ) ^ s) := by ring
        rw [e]
        linarith
      obtain ⟨m, e, h1, h2⟩ := roundPos_err true n.natAbs d s hnat hd hx'
      refine ⟨m, e, by simpa [hneg] using h1, ?_⟩
      rw [hcast] at h2
      have e2 : (if true = true then (-1 : ℚ) else 1) * (-(n : ℚ) / d * (2 : ℚ) ^ s) =
          (n : ℚ) / d * (2 : ℚ) ^ s := by
        simp
        ring
      rw [e2] at h2
      exact h2
    · have hcast : ((n.natAbs : Nat) : ℚ) = (n : ℚ) := by
        rw [Nat.cast_natAbs, abs_of_nonneg (not_lt.mp hneg)]
      have hx' : ((n.natAbs : Nat) : ℚ) / d * (2 : ℚ) ^ s < 2 := by
        rw [hcast]
        exact (abs_lt.mp hx).2
      obtain ⟨m, e, h1, h2⟩ := roundPos_err false n.natAbs d s hnat hd hx'
      refine ⟨m, e, by simpa [hneg] using h1, ?_⟩
      rw [hcast] at h2
      simpa using h2

theorem units_value (m e b : Int) (h : b ≤ e) :
    ((F64.units m e b : Int) : ℚ) * (2 : ℚ) ^ b = (m : ℚ) * (2 : ℚ) ^ e := by
  unfold F64.units
  have he : e = ((e - b).toNat : Int) + b := by
    rw [Int.toNat_of_nonneg (by omega)]
    ring
  conv_rhs => rw [he, zpow_add₀ (by norm_num : (2 : ℚ) ≠ 0), zpow_natCast]
  push_cast
  ring

/-- The sum of two finite numbers, when below 2 in magnitude, is a finite
number at most `2^-53` away from the exact sum. -/
theorem add_err (m1 e1 m2 e2 : Int)
    (hx : |(m1 : ℚ) * (2 : ℚ) ^ e1 + (m2 : ℚ) * (2 : ℚ) ^ e2| < 2) :
    ∃ m e, F64.add (.finite m1 e1) (.finite m2 e2) = .finite m e ∧
      |(m : ℚ) * (2 : ℚ) ^ e - ((m1 : ℚ) * (2 : ℚ) ^ e1 + (m2 : ℚ) * (2 : ℚ) ^ e2)|
        ≤ (2 : ℚ) ^ (-53 : Int) := by
  have hval : (((F64.units m1 e1 (min e1 e2) + F64.units m2 e2 (min e1 e2) : Int) : ℚ)) /
      ((1 : Nat) : ℚ) * (2 : ℚ) ^ (min e1 e2) =
      (m1 : ℚ) * (2 : ℚ) ^ e1 + (m2 : ℚ) * (2 : ℚ) ^ e2 := by
    rw [← units_value m1 e1 (min e1 e2) (min_le_left _ _),
      ← units_value m2 e2 (min e1 e2) (min_le_right _ _)]
    push_cast
    ring
  have := round_err (F64.units m1 e1 (min e1 e2) + F64.units m2 e2 (min e1 e2)) 1 (min e1 e2)
    (by norm_num) (by rw [hval]; exact hx)
  rw [hval] at this
  exact this

/-- The product of two finite numbers, when below 2 in magnitude, is a finite
number at most `2^-53` away from the exact product. -/
theorem mul_err (m1 e1 m2 e2 : Int)
    (hx : |(m1 : ℚ) * (2 : ℚ) ^ e1 * ((m2 : ℚ) * (2 : ℚ) ^ e2)| < 2) :
    ∃ m e, F64.mul (.finite m1 e1) (.finite m2 e2) = .finite m e ∧
      |(m : ℚ) * (2 : ℚ) ^ e - (m1 : ℚ) * (2 : ℚ) ^ e1 * ((m2 : ℚ) * (2 : ℚ) ^ e2)|
        ≤ (2 : ℚ) ^ (-53 : Int) := by
  have hval : (((m1 * m2 : Int) : ℚ)) / ((1 : Nat) : ℚ) * (2 : ℚ) ^ (e1 + e2) =
      (m1 : ℚ) * (2 : ℚ) ^ e1 * ((m2 : ℚ) * (2 : ℚ) ^ e2) := by
    rw [zpow_add₀ (by norm_num : (2 : ℚ) ≠ 0)]
    push_cast
    ring
  have := round_err (m1 * m2) 1 (e1 + e2) (by norm_num) (by rw [hval]; exact hx)
  rw [hval] at this
  exact this

/-! ## Priority scoring over binary64 -/

namespace TaskPriorityService

open F64

set_option maxRecDepth 100000 in
theorem lit_values :
    lit 5 10 = finite 4503599627370496 (-53) ∧ ofInt 0 = finite 0 0 ∧
    lit 4 10 = finite 7205759403792794 (-54) ∧ lit 8 10 = finite 7205759403792794 (-53) := by
  decide

set_option maxRecDepth 100000 in
theorem weights_values :
    weights "deadline" = .number (finite 7205759403792794 (-54)) ∧
    weights "complexity" = .number (finite 7205759403792794 (-55)) ∧
    weights "importance" = .number (finite 5404319552844595 (-54)) ∧
    weights "userPreference" = .number (finite 7205759403792794 (-56)) := by
  decide

theorem specWeight_values :
    specWeight "deadline" = 2 / 5 ∧ specWeight "complexity" = 1 / 5 ∧
    specWeight "importance" = 3 / 10 ∧ specWeight "userPreference" = 1 / 10 := by
  refine ⟨?_, ?_, ?_, ?_⟩ <;> simp [specWeight] <;> norm_num

/-- Each stored weight is a finite number within `2^-55` of the weight of the
specification. -/
theorem weights_err (key : String)
    (hkey : key = "deadline" ∨ key = "complexity" ∨ key = "importance" ∨
      key = "userPreference") :
    ∃ m e, weights key = .number (finite m e) ∧
      0 ≤ (m : ℚ) * (2 : ℚ) ^ e ∧ (m : ℚ) * (2 : ℚ) ^ e ≤ 2 / 5 + (2 : ℚ) ^ (-55 : Int) ∧
      |(m : ℚ) * (2 : ℚ) ^ e - specWeight key| ≤ (2 : ℚ) ^ (-55 : Int) ∧
      0 ≤ specWeight key ∧ specWeight key ≤ 2 / 5 := by
  rcases hkey with rfl | rfl | rfl | rfl
  · rw [specWeight_values.1]
    refine ⟨_, _, weights_values.1, ?_, ?_, ?_, ?_, ?_⟩
    · norm_num
    · norm_num
    · rw [abs_le]; constructor <;> norm_num
    · norm_num
    · norm_num
  · rw [specWeight_values.2.1]
    refine ⟨_, _, weights_values.2.1, ?_, ?_, ?_, ?_, ?_⟩
    · norm_num
    · norm_num
    · rw [abs_le]; constructor <;> norm_num
    · norm_num
    · norm_num
  · rw [specWeight_values.2.2.1]
    refine ⟨_, _, weights_values.2.2.1, ?_, ?_, ?_, ?_, ?_⟩
    · norm_num
    · norm_num
    · rw [abs_le]; constructor <;> norm_num
    · norm_num
    · norm_num
  · rw [specWeight_values.2.2.2]
    refine ⟨_, _, weights_values.2.2.2, ?_, ?_, ?_, ?_, ?_⟩
    · norm_num
    · norm_num
    · rw [abs_le]; constructor <;> norm_num
    · norm_num
    · norm_num

/-- One step of the fold: with at most three entries behind it, the running
score stays finite and gathers an error of at most `3 * 2^-53`. -/
theorem score_step (ma ea : Int) (S : ℚ) (k : Nat) (x : String × Val) (hx : FactorEntry x)
    (hk : k ≤ 3) (hacc : |(ma : ℚ) * (2 : ℚ) ^ ea - S| ≤ 3 * k * (2 : ℚ) ^ (-53 : Int))
    (hS0 : 0 ≤ S) (hS1 : S ≤ 2 / 5 * k) :
    ∃ m e, add (finite ma ea) (mul x.2.toNumber (weights x.1).toNumber) = finite m e ∧
      |(m : ℚ) * (2 : ℚ) ^ e - (S + specTerm x)| ≤
        3 * ((k + 1 : Nat) : ℚ) * (2 : ℚ) ^ (-53 : Int) ∧
      0 ≤ S + specTerm x ∧ S + specTerm x ≤ 2 / 5 * ((k + 1 : Nat) : ℚ) := by
  obtain ⟨hkey, v, hv, mv, ev, hfin, hv0, hv1⟩ := hx
  obtain ⟨mw, ew, hw, hw0, hw1, hwerr, hs0, hs1⟩ := weights_err x.1 hkey
  subst hfin
  simp only [toRat] at hv0 hv1
  have hk' : (k : ℚ) ≤ 3 := by exact_mod_cast hk
  have hk0 : (0 : ℚ) ≤ k := by positivity
  have hu : (2 : ℚ) ^ (-53 : Int) = 1 / 9007199254740992 := by norm_num
  have hu55 : (2 : ℚ) ^ (-55 : Int) = 1 / 36028797018963968 := by norm_num
  rw [hu55] at hw1 hwerr
  rw [hu] at hacc ⊢
  have hterm : specTerm x = (mv : ℚ) * (2 : ℚ) ^ ev * specWeight x.1 := by
    simp [specTerm, hv, Val.toNumber, toRat]
  have hVW0 : 0 ≤ (mv : ℚ) * (2 : ℚ) ^ ev * ((mw : ℚ) * (2 : ℚ) ^ ew) := mul_nonneg hv0 hw0
  have hVW1 : (mv : ℚ) * (2 : ℚ) ^ ev * ((mw : ℚ) * (2 : ℚ) ^ ew) ≤
      1 * (2 / 5 + 1 / 36028797018963968) := mul_le_mul hv1 hw1 hw0 (by norm_num)
  have hVs0 : 0 ≤ (mv : ℚ) * (2 : ℚ) ^ ev * specWeight x.1 := mul_nonneg hv0 hs0
  have hVs1 : (mv : ℚ) * (2 : ℚ) ^ ev * specWeight x.1 ≤ 1 * (2 / 5) :=
    mul_le_mul hv1 hs1 hs0 (by norm_num)
  have hdiff : |(mv : ℚ) * (2 : ℚ) ^ ev * ((mw : ℚ) * (2 : ℚ) ^ ew) -
      (mv : ℚ) * (2 : ℚ) ^ ev * specWeight x.1| ≤ 1 * (1 / 36028797018963968) := by
    rw [← mul_sub, abs_mul, abs_of_nonneg hv0]
    exact mul_le_mul hv1 hwerr (abs_nonneg _) (by norm_num)
  obtain ⟨mp, ep, hp, hperr⟩ := mul_err mv ev mw ew (by
    rw [abs_of_nonneg hVW0]
    linarith)
  rw [hu] at hperr
  have hA := abs_le.mp hacc
  have hP := abs_le.mp hperr
  have hD := abs_le.mp hdiff
  obtain ⟨m, e, hadd, hadderr⟩ := add_err ma ea mp ep (by
    rw [abs_lt]
    constructor <;> linarith [hA.1, hA.2, hP.1, hP.2])
  rw [hu] at hadderr
  have hR := abs_le.mp hadderr
  refine ⟨m, e, ?_, ?_, ?_, ?_⟩
  · rw [hv, hw]
    simp only [Val.toNumber]
    rw [hp, hadd]
  · rw [hterm, abs_le]
    push_cast
    constructor <;> linarith [hA.1, hA.2, hP.1, hP.2, hD.1, hD.2, hR.1, hR.2]
  · rw [hterm]
    linarith
  · rw [hterm]
    push_cast
    linarith

/-- The fold of `_computePriorityScore` over at most four entries: the result
is finite and within `3 * 2^-53` per entry of the exact sum of the terms. -/
theorem score_fold (l : List (String × Val)) :
    ∀ (ma ea : Int) (S : ℚ) (k : Nat), (∀ x ∈ l, FactorEntry x) → k + l.length ≤ 4 →
      |(ma : ℚ) * (2 : ℚ) ^ ea - S| ≤ 3 * k * (2 : ℚ) ^ (-53 : Int) → 0 ≤ S → S ≤ 2 / 5 * k →
      ∃ m e,
        l.foldl (fun score entry => add score (mul entry.2.toNumber (weights entry.1).toNumber))
          (finite ma ea) = finite m e ∧
        |(m : ℚ) * (2 : ℚ) ^ e - (S + (l.map specTerm).sum)| ≤
          3 * ((k + l.length : Nat) : ℚ) * (2 : ℚ) ^ (-53 : Int) := by
  induction l with
  | nil =>
    intro ma ea S k _ _ hacc _ _
    exact ⟨ma, ea, rfl, by simpa using hacc⟩
  | cons x rest ih =>
    intro ma ea S k hgood hlen hacc hS0 hS1
    have hlen' : k + (rest.length + 1) ≤ 4 := by simpa using hlen
    obtain ⟨m1, e1, hstep, herr, h0, h1⟩ := score_step ma ea S k x
      (hgood x (List.mem_cons_self _ _)) (by omega) hacc hS0 hS1
    obtain ⟨m, e, hfold, hfin⟩ := ih m1 e1 (S + specTerm x) (k + 1)
      (fun y hy => hgood y (List.mem_cons_of_mem _ hy)) (by omega) herr h0 h1
    refine ⟨m, e, ?_, ?_⟩
    · rw [List.foldl_cons, hstep, hfold]
    · have e1 : S + (List.map specTerm (x :: rest)).sum =
          S + specTerm x + (List.map specTerm rest).sum := by
        simp [add_assoc]
      have e2 : k + (x :: rest).length = k + 1 + rest.length := by
        simp
        omega
      rw [e1, e2]
      exact hfin

set_option maxRecDepth 100000 in
/-- C2 fails as stated: for the factors 0.5, 0, 0.5, 0.5 the fold in key order
gives 0.39999999999999997, below the exact sum 0.4, and the fold in the order
importance, userPreference, deadline, complexity gives the number nearest to
0.4, above it. -/
theorem computePriorityScore_depends_on_order :
    _computePriorityScore
      [("deadline", .number (lit 5 10)), ("complexity", .number (ofInt 0)),
       ("importance", .number (lit 5 10)), ("userPreference", .number (lit 5 10))]
      = finite 7205759403792793 (-54) ∧
    _computePriorityScore
      [("importance", .number (lit 5 10)), ("userPreference", .number (lit 5 10)),
       ("deadline", .number (lit 5 10)), ("complexity", .number (ofInt 0))]
      = finite 7205759403792794 (-54) ∧
    (lit 5 10).toRat = 1 / 2 ∧ (ofInt 0).toRat = 0 ∧
    (finite 7205759403792793 (-54)).toRat <
      0.4 * (1 / 2 : ℚ) + 0.2 * 0 + 0.3 * (1 / 2) + 0.1 * (1 / 2) ∧
    0.4 * (1 / 2 : ℚ) + 0.2 * 0 + 0.3 * (1 / 2) + 0.1 * (1 / 2) <
      (finite 7205759403792794 (-54)).toRat := by
  refine ⟨by decide, by decide, ?_, ?_, ?_, ?_⟩
  · rw [lit_values.1]
    norm_num [toRat]
  · rw [lit_values.2.1]
    norm_num [toRat]
  · norm_num [toRat]
  · norm_num [toRat]

/-- C2, amended: on a record holding exactly the four factors, each a finite
number in `[0, 1]`, enumerated in any order, `_computePriorityScore` returns a
finite number within `2^-49` of `0.4*d + 0.2*c + 0.3*i + 0.1*u`. -/
theorem computePriorityScore_near_weighted_sum (d c i u : F64) (entries : List (String × Val))
    (hd : UnitFactor d) (hc : UnitFactor c) (hi : UnitFactor i) (hu : UnitFactor u)
    (h : entries.Perm
      [("deadline", .number d), ("complexity", .number c),
       ("importance", .number i), ("userPreference", .number u)]) :
    ∃ m e, _computePriorityScore entries = finite m e ∧
      |(finite m e).toRat - (0.4 * d.toRat + 0.2 * c.toRat + 0.3 * i.toRat + 0.1 * u.toRat)|
        ≤ (2 : ℚ) ^ (-49 : Int) := by
  have hgood : ∀ x ∈ entries, FactorEntry x := by
    intro x hx
    have hx' := h.mem_iff.mp hx
    simp only [List.mem_cons, List.mem_singleton, List.not_mem_nil, or_false] at hx'
    rcases hx' with rfl | rfl | rfl | rfl
    · exact ⟨Or.inl rfl, d, rfl, hd⟩
    · exact ⟨Or.inr (Or.inl rfl), c, rfl, hc⟩
    · exact ⟨Or.inr (Or.inr (Or.inl rfl)), i, rfl, hi⟩
    · exact ⟨Or.inr (Or.inr (Or.inr rfl)), u, rfl, hu⟩
  have hlen : entries.length = 4 := by rw [h.length_eq]; rfl
  have hsum : (entries.map specTerm).sum =
      0.4 * d.toRat + 0.2 * c.toRat + 0.3 * i.toRat + 0.1 * u.toRat := by
    rw [(h.map specTerm).sum_eq]
    simp [specTerm, specWeight, Val.toNumber]
    ring
  obtain ⟨m, e, hfold, herr⟩ := score_fold entries 0 0 0 0 hgood (by omega) (by simp)
    le_rfl (by simp)
  refine ⟨m, e, ?_, ?_⟩
  · unfold _computePriorityScore
    rw [lit_values.2.1]
    exact hfold
  · rw [hsum, zero_add, hlen] at herr
    simp only [toRat]
    refine le_trans herr ?_
    norm_num

theorem unitFactor_of (x : F64) (m e : Int) (h : x = finite m e)
    (h0 : 0 ≤ (m : ℚ) * (2 : ℚ) ^ e) (h1 : (m : ℚ) * (2 : ℚ) ^ e ≤ 1) : UnitFactor x := by
  subst h
  exact ⟨m, e, rfl, h0, h1⟩

set_option maxRecDepth 100000 in
/-- C2, amended, at the factors 0.9, 0, 1, 0.5 enumerated in reverse order. -/
theorem computePriorityScore_near_weighted_sum_witness :
    ∃ m e,
      _computePriorityScore
        [("userPreference", .number (lit 5 10)), ("importance", .number (ofInt 1)),
         ("complexity", .number (ofInt 0)), ("deadline", .number (lit 9 10))] = finite m e ∧
      |(finite m e).toRat - (0.4 * (lit 9 10).toRat + 0.2 * (ofInt 0).toRat
          + 0.3 * (ofInt 1).toRat + 0.1 * (lit 5 10).toRat)| ≤ (2 : ℚ) ^ (-49 : Int) :=
  computePriorityScore_near_weighted_sum (lit 9 10) (ofInt 0) (ofInt 1) (lit 5 10) _
    (unitFactor_of _ 8106479329266893 (-53) (by decide) (by norm_num) (by norm_num))
    (unitFactor_of _ 0 0 (by decide) (by norm_num) (by norm_num))
    (unitFactor_of _ 4503599627370496 (-52) (by decide) (by norm_num) (by norm_num))
    (unitFactor_of _ 4503599627370496 (-53) (by decide) (by norm_num) (by norm_num))
    (List.reverse_perm
      [("deadline", Val.number (lit 9 10)), ("complexity", .number (ofInt 0)),
       ("importance", .number (ofInt 1)), ("userPreference", .number (lit 5 10))])

set_option maxRecDepth 100000 in
theorem min_zero_one : F64.min (ofInt 0) (ofInt 1) = ofInt 0 := by
  decide

set_option maxRecDepth 100000 in
theorem mapPriorityToLevel_defaults :
    _mapPriorityToLevel (finite 7205759403792793 (-54)) = "low" ∧
    lt (finite 7205759403792793 (-54)) (lit 4 10) = true := by
  decide

set_option maxRecDepth 100000 in
theorem defaults_in_key_order :
    _computePriorityScore
      [("deadline", .number (lit 5 10)), ("complexity", .number (ofInt 0)),
       ("importance", .number (lit 5 10)), ("userPreference", .number (lit 5 10))]
      = finite 7205759403792793 (-54) := by
  decide

set_option maxRecDepth 100000 in
/-- C28 fails as stated: the open task of the sample day, scored while the ML
service is down and the user has no completed task, has the four default
factors, scores 0.39999999999999997, which is below the threshold 0.4, and
is classified low. -/
theorem all_defaults_task_is_low :
    priorityFactors day0 mlDown noHistory taskOpen =
      [("deadline", .number (lit 5 10)), ("complexity", .number (ofInt 0)),
       ("importance", .number (lit 5 10)), ("userPreference", .number (lit 5 10))] ∧
    _computePriorityScore (priorityFactors day0 mlDown noHistory taskOpen) =
      finite 7205759403792793 (-54) ∧
    lit 4 10 = finite 7205759403792794 (-54) ∧
    calculateTaskPriority day0 mlDown noHistory taskOpen = .ok "low" := by
  refine ⟨by decide, by decide, by decide, rfl⟩

/-- C28, amended: a task without deadline and without complexity signals,
scored while the prediction fails and the user has no completed task, has the
factors 0.5, 0, 0.5, 0.5; the fold 0.2 + 0 + 0.15 + 0.05 in binary64 is
0.39999999999999997, below the exact sum 0.4 and below the threshold 0.4, and
`calculateTaskPriority` returns low. -/
theorem all_defaults_score_below_medium (now : Int) (ml : MLService.State)
    (recentCompleted : String → Outcome (List Task)) (task : Task) (msg : String)
    (hdeadline : task.endTime = none)
    (hdesc : TaskOptimizationService.specDescriptionLength task.description ≤ 200)
    (hsub : TaskOptimizationService.specCount task.subtasks = 0)
    (hatt : TaskOptimizationService.specCount task.attachments = 0)
    (hdep : TaskOptimizationService.specCount task.dependencies = 0)
    (hml : MLService.predictTaskPriority ml task = .error msg)
    (hstore : recentCompleted task.userId = .ok []) :
    priorityFactors now ml recentCompleted task =
      [("deadline", .number (lit 5 10)), ("complexity", .number (ofInt 0)),
       ("importance", .number (lit 5 10)), ("userPreference", .number (lit 5 10))] ∧
    _computePriorityScore (priorityFactors now ml recentCompleted task) =
      finite 7205759403792793 (-54) ∧
    (finite 7205759403792793 (-54)).toRat < 0.4 ∧
    lt (finite 7205759403792793 (-54)) (lit 4 10) = true ∧
    calculateTaskPriority now ml recentCompleted task = .ok "low" := by
  have g1 : SmartReminder.TaskPriorityService.longerThan task.description 200 = false := by
    rw [SmartReminder.TaskPriorityService.longerThan_iff]
    simpa using hdesc
  have g2 : SmartReminder.TaskPriorityService.nonEmpty task.subtasks = false := by
    rw [SmartReminder.TaskPriorityService.nonEmpty_iff, hsub]; rfl
  have g3 : SmartReminder.TaskPriorityService.nonEmpty task.attachments = false := by
    rw [SmartReminder.TaskPriorityService.nonEmpty_iff, hatt]; rfl
  have g4 : SmartReminder.TaskPriorityService.nonEmpty task.dependencies = false := by
    rw [SmartReminder.TaskPriorityService.nonEmpty_iff, hdep]; rfl
  have hf : priorityFactors now ml recentCompleted task =
      [("deadline", .number (lit 5 10)), ("complexity", .number (ofInt 0)),
       ("importance", .number (lit 5 10)), ("userPreference", .number (lit 5 10))] := by
    simp [priorityFactors, _calculateDeadlineFactor, hdeadline, _calculateComplexityFactor,
      g1, g2, g3, g4, _calculateImportanceFactor, hml, hstore, _getUserPreferenceFactor,
      min_zero_one]
  have hs : _computePriorityScore (priorityFactors now ml recentCompleted task) =
      finite 7205759403792793 (-54) := by
    rw [hf]
    exact defaults_in_key_order
  refine ⟨hf, hs, by norm_num [toRat], mapPriorityToLevel_defaults.2, ?_⟩
  have hrun : calculateTaskPriority now ml recentCompleted task =
      .ok (_mapPriorityToLevel (_computePriorityScore
        (priorityFactors now ml recentCompleted task))) := rfl
  rw [hrun, hs, mapPriorityToLevel_defaults.1]

set_option maxRecDepth 100000 in
/-- C28, amended, at a task whose description has exactly 200 characters and
whose arrays are empty, with a service that was never initialised. -/
theorem all_defaults_score_below_medium_witness :
    priorityFactors (day0 + 5000) mlDown noHistory taskPlain =
      [("deadline", .number (lit 5 10)), ("complexity", .number (ofInt 0)),
       ("importance", .number (lit 5 10)), ("userPreference", .number (lit 5 10))] ∧
    _computePriorityScore (priorityFactors (day0 + 5000) mlDown noHistory taskPlain) =
      finite 7205759403792793 (-54) ∧
    (finite 7205759403792793 (-54)).toRat < 0.4 ∧
    lt (finite 7205759403792793 (-54)) (lit 4 10) = true ∧
    calculateTaskPriority (day0 + 5000) mlDown noHistory taskPlain = .ok "low" :=
  all_defaults_score_below_medium (day0 + 5000) mlDown noHistory taskPlain
    "ML Service not initialized" rfl (by decide) rfl rfl rfl rfl rfl

end TaskPriorityService

end Binary64

end SmartReminder
